import Mathlib

/-!
# webapi-template: a verification development of `main.go`

The program is one HTTP handler.  It resolves a template text (GET: fetched from a
whitelisted host, POST: the request body), renders it with the query parameters as
variables, scans the leading lines of the rendered output for `# Attribute: key=value`
directives and composes the response from them.

Go strings and byte slices are modelled as lists of bytes.  The pieces of the Go standard
library whose exact results the properties below talk about (`bytes.Split`, `bytes.SplitN`,
`bytes.HasPrefix`, `strings.TrimSpace`, `encoding/base64`, `url.QueryEscape` and
`url.QueryUnescape`, `http.Error`) are modelled concretely; the network, the URL parser,
the template engine and the MIME formatter are fields of an environment record that the
handler receives.
-/

namespace WebapiTemplate

/-! ## Byte strings -/

/-- A Go `string` or `[]byte`: a finite sequence of bytes. -/
abbrev Bytes := List UInt8

/-- The bytes of a string literal of the source (its UTF-8 encoding, as in Go). -/
def str (s : String) : Bytes := s.data.flatMap String.utf8EncodeChar

/-- Go `bytes.HasPrefix(s, p)`. -/
def hasPrefix : Bytes → Bytes → Bool
  | _, [] => true
  | [], _ :: _ => false
  | a :: s, b :: p => a == b && hasPrefix s p

/-- Go `bytes.Split(s, []byte{sep})`: the pieces of `s` between occurrences of `sep`.
The result always has at least one element (`[""]` for the empty input). -/
def split (sep : UInt8) : Bytes → List Bytes
  | [] => [[]]
  | c :: rest =>
    if c = sep then [] :: split sep rest
    else
      match split sep rest with
      | [] => [[c]]
      | l :: ls => (c :: l) :: ls

/-- Go `bytes.Index` for a one-byte separator, returning the two sides of the first
occurrence (`none` when the separator does not occur). -/
def cut (sep : UInt8) : Bytes → Option (Bytes × Bytes)
  | [] => none
  | c :: rest =>
    if c = sep then some ([], rest)
    else
      match cut sep rest with
      | none => none
      | some (a, b) => some (c :: a, b)

/-- Go `bytes.SplitN(s, []byte{sep}, 2)`: one piece when `sep` does not occur in `s`,
otherwise the text before the first `sep` and all the text after it. -/
def splitN2 (sep : UInt8) (s : Bytes) : List Bytes :=
  match cut sep s with
  | none => [s]
  | some (a, b) => [a, b]

/-- Go `bytes.Join(ls, []byte{sep})`. -/
def join (sep : UInt8) : List Bytes → Bytes
  | [] => []
  | [l] => l
  | l :: l2 :: ls => l ++ sep :: join sep (l2 :: ls)

/-! ## `strings.TrimSpace` -/

/-- Go `utf8.RuneError`. -/
def RuneError : Nat := 0xFFFD

/-- Go `utf8.RuneSelf`. -/
def RuneSelf : Nat := 0x80

/-- Go `utf8.UTFMax`. -/
def UTFMax : Nat := 4

/-- Go `utf8.DecodeRuneInString`: the first rune of `s` and its width in bytes; an invalid
encoding gives `(RuneError, 1)`, the empty string `(RuneError, 0)`.  The table `first` and
the accept ranges of the Go source are written out as comparisons on the lead byte. -/
def decodeRune (s : Bytes) : Nat × Nat :=
  match s with
  | [] => (RuneError, 0)
  | s0 :: t =>
    let b0 := s0.toNat
    if b0 < RuneSelf then (b0, 1)
    else if b0 < 0xC2 ∨ 0xF4 < b0 then (RuneError, 1)
    else
      let sz := if b0 < 0xE0 then 2 else if b0 < 0xF0 then 3 else 4
      let lo := if b0 = 0xE0 then 0xA0 else if b0 = 0xF0 then 0x90 else 0x80
      let hi := if b0 = 0xED then 0x9F else if b0 = 0xF4 then 0x8F else 0xBF
      if s.length < sz then (RuneError, 1)
      else
        match t with
        | [] => (RuneError, 1)
        | s1 :: t1 =>
          let b1 := s1.toNat
          if b1 < lo ∨ hi < b1 then (RuneError, 1)
          else if sz ≤ 2 then ((b0 % 32) * 64 + b1 % 64, 2)
          else
            match t1 with
            | [] => (RuneError, 1)
            | s2 :: t2 =>
              let b2 := s2.toNat
              if b2 < 0x80 ∨ 0xBF < b2 then (RuneError, 1)
              else if sz ≤ 3 then ((b0 % 16) * 4096 + (b1 % 64) * 64 + b2 % 64, 3)
              else
                match t2 with
                | [] => (RuneError, 1)
                | s3 :: _ =>
                  let b3 := s3.toNat
                  if b3 < 0x80 ∨ 0xBF < b3 then (RuneError, 1)
                  else ((b0 % 8) * 262144 + (b1 % 64) * 4096 + (b2 % 64) * 64 + b3 % 64, 4)

/-- Go `utf8.RuneStart`: the byte is not a continuation byte (`b&0xC0 != 0x80`). -/
def runeStart (b : UInt8) : Bool := b.toNat / 64 != 2

/-- The backward search of `utf8.DecodeLastRuneInString` for the start of the last rune:
`for start--; start >= lim; start--`, stopping at a rune start. -/
def findRuneStart (s : Bytes) (lim : Int) : Nat → Int → Int
  | 0, start => start
  | fuel + 1, start =>
    if start ≥ lim then
      if runeStart (s.getD start.toNat 0) then start
      else findRuneStart s lim fuel (start - 1)
    else start

/-- Go `utf8.DecodeLastRuneInString`: the last rune of `s` and its width. -/
def decodeLastRune (s : Bytes) : Nat × Nat :=
  let stop := s.length
  if stop = 0 then (RuneError, 0)
  else
    let r := (s.getD (stop - 1) 0).toNat
    if r < RuneSelf then (r, 1)
    else
      let lim : Int := if stop < UTFMax then 0 else (stop : Int) - UTFMax
      let start0 := findRuneStart s lim UTFMax ((stop : Int) - 2)
      let start := if start0 < 0 then 0 else start0.toNat
      let (r, size) := decodeRune ((s.drop start).take (stop - start))
      if start + size ≠ stop then (RuneError, 1) else (r, size)

/-- Go `unicode.IsSpace`: the Latin-1 spaces and the `White_Space` table. -/
def isSpace (r : Nat) : Bool :=
  if r ≤ 0xFF then
    r = 0x09 ∨ r = 0x0A ∨ r = 0x0B ∨ r = 0x0C ∨ r = 0x0D ∨ r = 0x20 ∨ r = 0x85 ∨ r = 0xA0
  else
    r = 0x1680 ∨ (0x2000 ≤ r ∧ r ≤ 0x200A) ∨ r = 0x2028 ∨ r = 0x2029 ∨ r = 0x202F
      ∨ r = 0x205F ∨ r = 0x3000

/-- The table `asciiSpace` of package `strings`. -/
def asciiSpace (c : UInt8) : Bool :=
  c = 0x09 ∨ c = 0x0A ∨ c = 0x0B ∨ c = 0x0C ∨ c = 0x0D ∨ c = 0x20

/-- The loop of Go `strings.indexFunc`, `for i, r := range s`, from byte offset `i`. -/
def indexFuncFrom (f : Nat → Bool) (truth : Bool) : Nat → Nat → Bytes → Option Nat
  | 0, _, _ => none
  | fuel + 1, i, s =>
    match s with
    | [] => none
    | _ :: _ =>
      let (r, size) := decodeRune s
      if f r == truth then some i
      else indexFuncFrom f truth fuel (i + size) (s.drop size)

/-- Go `strings.indexFunc`; `none` stands for `-1`. -/
def indexFunc (s : Bytes) (f : Nat → Bool) (truth : Bool) : Option Nat :=
  indexFuncFrom f truth s.length 0 s

/-- The loop of Go `strings.lastIndexFunc`, `for i := len(s); i > 0;`. -/
def lastIndexFuncFrom (s : Bytes) (f : Nat → Bool) (truth : Bool) : Nat → Nat → Option Nat
  | 0, _ => none
  | fuel + 1, i =>
    if i = 0 then none
    else
      let (r, size) := decodeLastRune (s.take i)
      if f r == truth then some (i - size)
      else lastIndexFuncFrom s f truth fuel (i - size)

/-- Go `strings.lastIndexFunc`; `none` stands for `-1`. -/
def lastIndexFunc (s : Bytes) (f : Nat → Bool) (truth : Bool) : Option Nat :=
  lastIndexFuncFrom s f truth s.length s.length

/-- Go `strings.TrimLeftFunc`. -/
def trimLeftFunc (s : Bytes) (f : Nat → Bool) : Bytes :=
  match indexFunc s f false with
  | none => []
  | some i => s.drop i

/-- Go `strings.TrimRightFunc`. -/
def trimRightFunc (s : Bytes) (f : Nat → Bool) : Bytes :=
  match lastIndexFunc s f false with
  | some i =>
    if (s.getD i 0).toNat ≥ RuneSelf then s.take (i + (decodeRune (s.drop i)).2)
    else s.take (i + 1)
  | none => s.take 0

/-- Go `strings.TrimFunc`. -/
def trimFunc (s : Bytes) (f : Nat → Bool) : Bytes :=
  trimRightFunc (trimLeftFunc s f) f

/-- The second loop of Go `strings.TrimSpace`, run on the reversed string: drop ASCII
spaces from the end, and fall back to `TrimRightFunc` at the first non-ASCII byte. -/
def trimSpaceStop : Bytes → Bytes
  | [] => []
  | c :: r =>
    if c.toNat ≥ RuneSelf then trimRightFunc (c :: r).reverse isSpace
    else if asciiSpace c then trimSpaceStop r
    else (c :: r).reverse

/-- Go `strings.TrimSpace`: drop the leading and trailing Unicode white space.  The first
loop drops leading ASCII spaces and falls back to `TrimFunc` at the first non-ASCII
byte. -/
def trimSpace : Bytes → Bytes
  | [] => []
  | c :: s =>
    if c.toNat ≥ RuneSelf then trimFunc (c :: s) isSpace
    else if asciiSpace c then trimSpace s
    else trimSpaceStop (c :: s).reverse

/-! ## Go maps with string keys and string values -/

/-- A Go `map[string]string`, kept as an association list without repeated keys. -/
abbrev GoMap := List (Bytes × Bytes)

/-- Go `m[k] = v`: overwrite the value of an existing key, or add the key. -/
def mapSet : GoMap → Bytes → Bytes → GoMap
  | [], k, v => [(k, v)]
  | (k1, v1) :: m, k, v =>
    if k1 = k then (k, v) :: m else (k1, v1) :: mapSet m k v

/-- Go `v, ok := m[k]`: `some v` when the key is present. -/
def mapGet : GoMap → Bytes → Option Bytes
  | [], _ => none
  | (k1, v1) :: m, k => if k1 = k then some v1 else mapGet m k

/-! ## The directive scan (`main.go`, lines 189-203) -/

/-- The literal of line 193. -/
def marker : Bytes := str "# Attribute: "

/-- The byte `=`. -/
def eqSign : UInt8 := 61

/-- The byte `\n`. -/
def newline : UInt8 := 10

/-- The loop `for _, line := range lines` of lines 192-203, started with the mapping
`attributes`: a line with the marker and a `=` stores a trimmed pair, a line with the
marker and no `=` is skipped (`continue`), a line without the marker ends the loop
(`break`). -/
def scanLines (attributes : GoMap) : List Bytes → GoMap
  | [] => attributes
  | line :: rest =>
    if hasPrefix line marker then
      match splitN2 eqSign (line.drop 13) with
      | [k, v] => scanLines (mapSet attributes (trimSpace k) (trimSpace v)) rest
      | _ => scanLines attributes rest
    else attributes

/-- Lines 189-203: the attribute mapping of a rendered output. -/
def extractAttributes (rendered : Bytes) : GoMap :=
  scanLines [] (split newline rendered)

/-- The maximal leading run of lines of `rendered` that begin with the marker. -/
def leadingRun (rendered : Bytes) : List Bytes :=
  (split newline rendered).takeWhile (fun line => hasPrefix line marker)

/-! ## Query parameters and the variable mapping (`main.go`, lines 95 and 170-178) -/

/-- Go `url.Values`, a `map[string][]string`, kept as an association list. -/
abbrev Values := List (Bytes × List Bytes)

/-- Go `v[key]` on `url.Values`: the values of the key, `nil` when the key is absent. -/
def valuesLookup : Values → Bytes → List Bytes
  | [], _ => []
  | (k, vs) :: rest, key => if k = key then vs else valuesLookup rest key

/-- Go `Values.Get`: the first value of the key, `""` when there is none. -/
def valuesGet (v : Values) (key : Bytes) : Bytes :=
  match valuesLookup v key with
  | [] => []
  | x :: _ => x

/-- Go `Values.Add`: `v[key] = append(v[key], value)`; this is how the query string is
gathered into the multimap, pair by pair in arrival order. -/
def valuesAdd : Values → Bytes → Bytes → Values
  | [], key, value => [(key, [value])]
  | (k, vs) :: rest, key, value =>
    if k = key then (k, vs ++ [value]) :: rest else (k, vs) :: valuesAdd rest key value

/-- The loop of lines 172-178 over the entries of `queries`, started with `values`. -/
def buildValues : Values → GoMap → GoMap
  | [], values => values
  | (k, v) :: rest, values =>
    if v.length = 0 then buildValues rest values
    else buildValues rest (mapSet values k (v.getLastD []))

/-- Lines 170-178: the variable mapping handed to the template. -/
def variableMapping (queries : Values) : GoMap := buildValues queries []

/-! ## The request handler (`main.go`, lines 94-230) -/

/-- Go `url.Userinfo`. -/
structure Userinfo where
  username : Bytes
  password : Bytes
  passwordSet : Bool
deriving DecidableEq, Repr

/-- Go `url.URL`. -/
structure URL where
  Scheme : Bytes
  Opaque : Bytes
  User : Option Userinfo
  Host : Bytes
  Path : Bytes
  RawPath : Bytes
  OmitHost : Bool
  ForceQuery : Bool
  RawQuery : Bytes
  Fragment : Bytes
  RawFragment : Bytes
deriving DecidableEq, Repr

/-- Go `http.Header`, a `map[string][]string`. -/
abbrev Header := List (Bytes × List Bytes)

/-- Go `Header.Get` for a key in canonical form: the first value, `""` when absent. -/
def headerGet (h : Header) (key : Bytes) : Bytes := valuesGet h key

/-- Go `Header.Add` for a key in canonical form. -/
def headerAdd (h : Header) (key value : Bytes) : Header := valuesAdd h key value

/-- Line 15: the whitelist. -/
def whitelist : List (Bytes × Bool) :=
  [(str "raw.githubusercontent.com", true), (str "gist.githubusercontent.com", true)]

/-- Go `whitelist[host]` on a `map[string]bool`: `false` for an absent key. -/
def whitelistHas (host : Bytes) : Bool :=
  match whitelist.find? (fun e => e.1 = host) with
  | some e => e.2
  | none => false

/-- What the handler calls outside this repository.  `P` is the state of the shared
`*template.Template` of line 92. Errors carry the text of `err.Error()`. -/
structure Env (P : Type) where
  /-- Go `url.Parse`. -/
  urlParse : Bytes → Except Bytes URL
  /-- Go `(*URL).String`. -/
  urlString : URL → Bytes
  /-- Go `http.Get` followed by `io.ReadAll(resp.Body)`: the outer error is that of the
  request, the inner one that of reading the body. -/
  httpGet : Bytes → Except Bytes (Except Bytes Bytes)
  /-- Go `http.Head`: the header of the response. -/
  httpHead : Bytes → Except Bytes Header
  /-- Go `(*Template).Parse` on the shared parser: the parser afterwards and the error. -/
  templateParse : P → Bytes → P × Option Bytes
  /-- Go `(*Template).Execute` into a fresh buffer: the rendered bytes. -/
  templateExecute : P → GoMap → Except Bytes Bytes
  /-- Go `mime.FormatMediaType`. -/
  formatMediaType : Bytes → GoMap → Bytes

/-- What the handler reads of a `*http.Request`: the method, the parsed query
(`request.URL.Query()`) and the result of `io.ReadAll(request.Body)`. -/
structure Request where
  method : Bytes
  queries : Values
  body : Except Bytes Bytes

/-- What the handler writes to the `http.ResponseWriter`. -/
structure Response where
  status : Nat
  header : Header
  body : Bytes
deriving DecidableEq, Repr

/-- A call that leaves the handler: an outbound request or a call of the template
engine. -/
inductive Event where
  | get (url : Bytes)
  | head (url : Bytes)
  | parse (text : Bytes)
  | execute (values : GoMap)
deriving DecidableEq, Repr

/-- The result of handling one request: the response, the calls made in order, and the
shared parser afterwards. -/
structure Outcome (P : Type) where
  response : Response
  events : List Event
  parser : P

/-- Go `http.Error(writer, error, code)` on a writer with no header set yet. -/
def httpError (error : Bytes) (code : Nat) : Response :=
  { status := code
    header := [(str "Content-Type", [str "text/plain; charset=utf-8"]),
               (str "X-Content-Type-Options", [str "nosniff"])]
    body := error ++ [newline] }

/-- Lines 205-229: the userinfo probe, the filename directive and the 200 response. -/
def compose {P : Type} (env : Env P) (attributes : GoMap) (rendered : Bytes) :
    Response × List Event :=
  let probe : Header × List Event :=
    match mapGet attributes (str "userinfo-url") with
    | some userInfo =>
      match env.httpHead userInfo with
      | .ok respHeader =>
        let info := headerGet respHeader (str "Subscription-Userinfo")
        if info ≠ [] then (headerAdd [] (str "Subscription-Userinfo") info, [Event.head userInfo])
        else ([], [Event.head userInfo])
      | .error _ => ([], [Event.head userInfo])
    | none => ([], [])
  let header2 : Header :=
    match mapGet attributes (str "filename") with
    | some filename =>
      headerAdd probe.1 (str "Content-Disposition")
        (env.formatMediaType (str "attachment") [(str "filename", filename)])
    | none => probe.1
  ({ status := 200, header := headerAdd header2 (str "Content-Type") (str "text/plain"),
     body := rendered }, probe.2)

/-- Lines 163-229: parse the template text on the shared parser, build the variable
mapping, execute, scan the directives and compose the response. -/
def render {P : Type} (env : Env P) (parser : P) (queries : Values) (events : List Event)
    (templateText : Bytes) : Outcome P :=
  match env.templateParse parser templateText with
  | (executor, some err) =>
    { response := httpError (str "Parse template: " ++ err) 403
      events := events ++ [Event.parse templateText], parser := executor }
  | (executor, none) =>
    let values := variableMapping queries
    match env.templateExecute executor values with
    | .error err =>
      { response := httpError (str "Render template: " ++ err) 400
        events := events ++ [Event.parse templateText, Event.execute values]
        parser := executor }
    | .ok rendered =>
      let attributes := extractAttributes rendered
      let out := compose env attributes rendered
      { response := out.1
        events := events ++ [Event.parse templateText, Event.execute values] ++ out.2
        parser := executor }

/-- Lines 94-230: the handler, on the shared parser `parser`. -/
def handler {P : Type} (env : Env P) (parser : P) (request : Request) : Outcome P :=
  let queries := request.queries
  if request.method = str "GET" then
    let u := valuesGet queries (str "template")
    if u = [] then
      { response := httpError (str "Query parameter 'template' not found") 400
        events := [], parser := parser }
    else
      match env.urlParse u with
      | .error err =>
        { response := httpError (str "Parse url " ++ valuesGet queries (str "template")
            ++ str ": " ++ err) 400
          events := [], parser := parser }
      | .ok templateUrl =>
        if templateUrl.Scheme ≠ str "http" ∧ templateUrl.Scheme ≠ str "https" then
          { response := httpError (str "Unsupported url " ++ env.urlString templateUrl) 400
            events := [], parser := parser }
        else if !whitelistHas templateUrl.Host then
          { response := httpError
              (str "Template " ++ env.urlString templateUrl ++ str " unavailable") 403
            events := [], parser := parser }
        else
          match env.httpGet (env.urlString templateUrl) with
          | .error err =>
            { response := httpError (str "Fetch template from " ++ env.urlString templateUrl
                ++ str ": " ++ err) 403
              events := [Event.get (env.urlString templateUrl)], parser := parser }
          | .ok (.error err) =>
            { response := httpError (str "Fetch template from " ++ env.urlString templateUrl
                ++ str ": " ++ err) 403
              events := [Event.get (env.urlString templateUrl)], parser := parser }
          | .ok (.ok tmpl) =>
            render env parser queries [Event.get (env.urlString templateUrl)] tmpl
  else if request.method = str "POST" then
    match request.body with
    | .error err =>
      { response := httpError (str "Fetch request payload: " ++ err) 400
        events := [], parser := parser }
    | .ok tmpl =>
      if tmpl.length = 0 then
        { response := httpError (str "Empty template from body") 400
          events := [], parser := parser }
      else render env parser queries [] tmpl
  else
    { response := httpError (str "") 405, events := [], parser := parser }

/-- The server loop on the one shared parser: the requests handled one after another,
with the response and calls of each. -/
def serve {P : Type} (env : Env P) : P → List Request → List (Response × List Event)
  | _, [] => []
  | parser, request :: rest =>
    let out := handler env parser request
    (out.response, out.events) :: serve env out.parser rest

/-! ## `encoding/base64` and the four base64 helpers (`main.go`, lines 31-50) -/

/-- A Go `base64.Encoding` with the standard padding character: its 64-byte alphabet. -/
structure Encoding where
  encode : Bytes
deriving DecidableEq, Repr

/-- Go `base64.StdEncoding`. -/
def StdEncoding : Encoding :=
  ⟨str "ABCDEFGHIJKLMNOPQRSTUVWXYZabcdefghijklmnopqrstuvwxyz0123456789+/"⟩

/-- Go `base64.URLEncoding`. -/
def URLEncoding : Encoding :=
  ⟨str "ABCDEFGHIJKLMNOPQRSTUVWXYZabcdefghijklmnopqrstuvwxyz0123456789-_"⟩

/-- Go `base64.StdPadding`, the byte `=`. -/
def padChar : UInt8 := 61

/-- The alphabet lookup `enc.encode[i]`. -/
def Encoding.digit (enc : Encoding) (i : Nat) : UInt8 := enc.encode.getD i 0

/-- The table `enc.decodeMap`: the position of a byte in the alphabet; `none` stands for
the entry `0xff` of a byte outside the alphabet. -/
def Encoding.decodeMap (enc : Encoding) (c : UInt8) : Option Nat :=
  if enc.encode.indexOf c < enc.encode.length then some (enc.encode.indexOf c) else none

/-- Go `(*Encoding).EncodeToString`: three source bytes give four digits
(`val>>18&0x3F` is `val / 262144 % 64`, and so on); a rest of one or two bytes is
padded with `=`. -/
def Encoding.encodeToString (enc : Encoding) : Bytes → Bytes
  | s0 :: s1 :: s2 :: rest =>
    let val := s0.toNat * 65536 + s1.toNat * 256 + s2.toNat
    enc.digit (val / 262144 % 64) :: enc.digit (val / 4096 % 64)
      :: enc.digit (val / 64 % 64) :: enc.digit (val % 64) :: enc.encodeToString rest
  | [s0, s1] =>
    let val := s0.toNat * 65536 + s1.toNat * 256
    [enc.digit (val / 262144 % 64), enc.digit (val / 4096 % 64),
      enc.digit (val / 64 % 64), padChar]
  | [s0] =>
    let val := s0.toNat * 65536
    [enc.digit (val / 262144 % 64), enc.digit (val / 4096 % 64), padChar, padChar]
  | [] => []

/-- The end of `decodeQuantum`: the `dlen - 1` bytes of the digits in `dbuf` (missing
digits count as zero). -/
def quantumBytes (dbuf : List Nat) : Bytes :=
  let val := dbuf.getD 0 0 * 262144 + dbuf.getD 1 0 * 4096 + dbuf.getD 2 0 * 64 + dbuf.getD 3 0
  [UInt8.ofNat (val / 65536), UInt8.ofNat (val / 256), UInt8.ofNat val].take (dbuf.length - 1)

/-- The loops `for si < len(src) && (src[si] == '\n' || src[si] == '\r')` of
`decodeQuantum`. -/
def skipNewlines : Bytes → Bytes
  | [] => []
  | c :: rest => if c = 10 ∨ c = 13 then skipNewlines rest else c :: rest

/-- Go `(*Encoding).Decode` for a padded, non-strict encoding, read one source byte at a
time: `dbuf` holds the digits of the quantum being read and `out` the bytes decoded so
far.  A digit is stored, `\n` and `\r` are skipped, any other byte that is not `=` is
corrupt input; `=` is accepted after two digits (followed by a second `=`) or three, and
only newlines may follow the padding.  `none` stands for a `CorruptInputError`. -/
def Encoding.decodeLoop (enc : Encoding) : Bytes → List Nat → Bytes → Option Bytes
  | [], dbuf, out => if dbuf.length = 0 then some out else none
  | c :: rest, dbuf, out =>
    match enc.decodeMap c with
    | some d =>
      if dbuf.length = 3 then enc.decodeLoop rest [] (out ++ quantumBytes (dbuf ++ [d]))
      else enc.decodeLoop rest (dbuf ++ [d]) out
    | none =>
      if c = 10 ∨ c = 13 then enc.decodeLoop rest dbuf out
      else if c ≠ padChar then none
      else
        match dbuf.length with
        | 0 => none
        | 1 => none
        | 2 =>
          match skipNewlines rest with
          | [] => none
          | c2 :: rest2 =>
            if c2 ≠ padChar then none
            else if skipNewlines rest2 ≠ [] then none
            else some (out ++ quantumBytes dbuf)
        | _ =>
          if skipNewlines rest ≠ [] then none
          else some (out ++ quantumBytes dbuf)

/-- Go `(*Encoding).DecodeString`; `none` when it returns an error. -/
def Encoding.decodeString (enc : Encoding) (s : Bytes) : Option Bytes :=
  enc.decodeLoop s [] []

/-- Line 31: `encodeBase64`. -/
def encodeBase64 (text : Bytes) : Bytes := StdEncoding.encodeToString text

/-- Line 34: `decodeBase64`. -/
def decodeBase64 (text : Bytes) : Bytes :=
  match StdEncoding.decodeString text with
  | none => []
  | some raw => raw

/-- Line 41: `encodeBase64Url`. -/
def encodeBase64Url (text : Bytes) : Bytes := URLEncoding.encodeToString text

/-- Line 44: `decodeBase64Url`. -/
def decodeBase64Url (text : Bytes) : Bytes :=
  match URLEncoding.decodeString text with
  | none => []
  | some raw => raw

/-! ## A fragment of `text/template`, for the shared parser of line 92

The handler calls `Parse` and `Execute` on one `*template.Template` that lives as long as
the process.  This section models what `Parse` does to that object for templates built
from literal text, `{{define "name"}}`, `{{end}}` and `{{template "name"}}`; every other
action is outside the fragment and is reported as a parse error by this model. -/

/-- A node of a parse tree of the fragment: a `TextNode` or a `TemplateNode`. -/
inductive Node where
  | text (t : Bytes)
  | template (name : Bytes)
deriving DecidableEq, Repr

/-- A parse tree of the fragment: the nodes of its root `ListNode`. -/
abbrev Tree := List Node

/-- The name space `common.tmpl` of the shared template: the tree associated with each
name; the shared template itself is the entry named `template`. -/
abbrev TemplateSet := List (Bytes × Tree)

/-- An item of the lexer: literal text, or the text between `{{` and `}}`. -/
inductive Item where
  | text (t : Bytes)
  | action (a : Bytes)
deriving DecidableEq, Repr

/-- The lexer of the fragment: `inAction` tells whether a `{{` is open, `acc` is the
text read so far.  `none` for an action that is not closed. -/
def lexItems : Bool → Bytes → Bytes → Option (List Item)
  | false, acc, [] => some (if acc = [] then [] else [Item.text acc])
  | true, _, [] => none
  | false, acc, [c] => some [Item.text (acc ++ [c])]
  | true, _, [_] => none
  | false, acc, c1 :: c2 :: rest =>
    if c1 = 123 ∧ c2 = 123 then
      match lexItems true [] rest with
      | none => none
      | some items => some (if acc = [] then items else Item.text acc :: items)
    else lexItems false (acc ++ [c1]) (c2 :: rest)
  | true, acc, c1 :: c2 :: rest =>
    if c1 = 125 ∧ c2 = 125 then
      match lexItems false [] rest with
      | none => none
      | some items => some (Item.action acc :: items)
    else lexItems true (acc ++ [c1]) (c2 :: rest)

/-- The name of an action `keyword "name"`, when the action has that form and the name is
free of quotes, backslashes and newlines. -/
def quotedName (keyword : Bytes) (a : Bytes) : Option Bytes :=
  if hasPrefix a (keyword ++ str " \"") then
    let r := (a.drop (keyword.length + 2)).reverse
    match r with
    | 34 :: nameRev =>
      if nameRev.all (fun c => c ≠ 34 ∧ c ≠ 92 ∧ c ≠ 10) then some nameRev.reverse else none
    | _ => none
  else none

/-- Go `parse.IsEmptyTree` on the fragment: only white-space text. -/
def isEmptyTree (tree : Tree) : Bool :=
  tree.all fun n =>
    match n with
    | Node.text t => (trimSpace t).length = 0
    | Node.template _ => false

/-- Look a name up in a set of trees. -/
def lookupTree : List (Bytes × Tree) → Bytes → Option Tree
  | [], _ => none
  | (n, t) :: rest, name => if n = name then some t else lookupTree rest name

/-- Store a tree under a name, replacing the entry of that name. -/
def storeTree : List (Bytes × Tree) → Bytes → Tree → List (Bytes × Tree)
  | [], name, tree => [(name, tree)]
  | (n, t) :: rest, name, tree =>
    if n = name then (name, tree) :: rest else (n, t) :: storeTree rest name tree

/-- Go `(*parse.Tree).add`: enter a parsed tree into the tree set of this parse; two
non-empty trees of one name are an error. -/
def addTree (treeSet : List (Bytes × Tree)) (name : Bytes) (tree : Tree) :
    Except Bytes (List (Bytes × Tree)) :=
  match lookupTree treeSet name with
  | none => .ok (storeTree treeSet name tree)
  | some old =>
    if isEmptyTree old then .ok (storeTree treeSet name tree)
    else if !isEmptyTree tree then
      .error (str "template: multiple definition of template " ++ name)
    else .ok treeSet

/-- The parser of the fragment over the items: `cur` is the open `define` with the nodes
read for it, `root` the nodes of the top-level template (both newest first). -/
def parseItems : List Item → Option (Bytes × Tree) → Tree → List (Bytes × Tree) →
    Except Bytes (List (Bytes × Tree))
  | [], some _, _, _ => .error (str "unexpected EOF")
  | [], none, root, treeSet => addTree treeSet (str "template") root.reverse
  | Item.text t :: rest, some (name, body), root, treeSet =>
    parseItems rest (some (name, Node.text t :: body)) root treeSet
  | Item.text t :: rest, none, root, treeSet =>
    parseItems rest none (Node.text t :: root) treeSet
  | Item.action a :: rest, cur, root, treeSet =>
    match quotedName (str "template") a with
    | some callee =>
      match cur with
      | some (name, body) =>
        parseItems rest (some (name, Node.template callee :: body)) root treeSet
      | none => parseItems rest none (Node.template callee :: root) treeSet
    | none =>
      match quotedName (str "define") a, cur with
      | some name, none => parseItems rest (some (name, [])) root treeSet
      | some _, some _ => .error (str "unexpected <define> in command")
      | none, cur =>
        if a = str "end" then
          match cur with
          | some (name, body) =>
            match addTree treeSet name body.reverse with
            | .error e => .error e
            | .ok treeSet2 => parseItems rest none root treeSet2
          | none => .error (str "unexpected end")
        else .error (str "action outside the modelled fragment")

/-- Go `parse.Parse` for the template named `template`, on the fragment: the trees of
the text, by name. -/
def parseTrees (text : Bytes) : Except Bytes (List (Bytes × Tree)) :=
  match lexItems false [] text with
  | none => .error (str "unclosed action")
  | some items => parseItems items none [] []

/-- Go `(*Template).AddParseTree` with `associate`: a tree is stored under its name,
except that an empty tree does not replace a tree that is already there. -/
def addParseTree (set : TemplateSet) (entry : Bytes × Tree) : TemplateSet :=
  match lookupTree set entry.1 with
  | some _ => if isEmptyTree entry.2 then set else storeTree set entry.1 entry.2
  | none => storeTree set entry.1 entry.2

/-- Go `(*Template).Parse` on the shared template: the trees of the text are added to
the name space that earlier calls have filled; a text that does not parse changes
nothing. -/
def goParse (set : TemplateSet) (text : Bytes) : TemplateSet × Option Bytes :=
  match parseTrees text with
  | .error e => (set, some e)
  | .ok trees => (trees.foldl addParseTree set, none)

/-- Go `maxExecDepth`. -/
def maxExecDepth : Nat := 100000

/-- Go `(*state).walk` on the nodes of a list: text is written, a `TemplateNode` is
handed to `call`. -/
def walkNodes (call : Bytes → Except Bytes Bytes) : Tree → Except Bytes Bytes
  | [] => .ok []
  | Node.text t :: rest =>
    match walkNodes call rest with
    | .error e => .error e
    | .ok out => .ok (t ++ out)
  | Node.template name :: rest =>
    match call name with
    | .error e => .error e
    | .ok out1 =>
      match walkNodes call rest with
      | .error e => .error e
      | .ok out2 => .ok (out1 ++ out2)

/-- Go `(*state).walkTemplate` with `depth` nested calls still allowed: the named
template is looked up in the shared name space and executed. -/
def walkTemplate (set : TemplateSet) : Nat → Bytes → Except Bytes Bytes
  | depth, name =>
    match lookupTree set name with
    | none => .error (str "template " ++ name ++ str " not defined")
    | some tree =>
      match depth with
      | 0 => .error (str "exceeded maximum template depth")
      | d + 1 => walkNodes (walkTemplate set d) tree

/-- Go `(*Template).Execute` on the shared template, on the fragment (which has no
action reading the data). -/
def goExecute (set : TemplateSet) (_values : GoMap) : Except Bytes Bytes :=
  match lookupTree set (str "template") with
  | none => .error (str "template is an incomplete or empty template")
  | some root => walkNodes (walkTemplate set maxExecDepth) root

/-! ## An example environment -/

/-- The URL reader of the example environment: `scheme://host/path` is read into its
three parts, any other `scheme:rest` as an opaque URL, and a text without `:` as a path.
It stands in for `url.Parse` in the worked examples only. -/
def demoUrlParse (u : Bytes) : Except Bytes URL :=
  let empty : URL :=
    { Scheme := [], Opaque := [], User := none, Host := [], Path := [], RawPath := [],
      OmitHost := false, ForceQuery := false, RawQuery := [], Fragment := [],
      RawFragment := [] }
  match cut 58 u with
  | none => .ok { empty with Path := u }
  | some (scheme, rest) =>
    if hasPrefix rest (str "//") then
      match cut 47 (rest.drop 2) with
      | none => .ok { empty with Scheme := scheme, Host := rest.drop 2 }
      | some (host, path) => .ok { empty with Scheme := scheme, Host := host, Path := 47 :: path }
    else .ok { empty with Scheme := scheme, Opaque := rest }

/-- The URL writer of the example environment. -/
def demoUrlString (u : URL) : Bytes :=
  if u.Scheme = [] then u.Path
  else if u.Opaque ≠ [] then u.Scheme ++ str ":" ++ u.Opaque
  else u.Scheme ++ str "://" ++ u.Host ++ u.Path

/-- An example environment: the template engine is the fragment of `text/template` of the
section above, one URL is served on the network (a template with a `filename` directive)
and every other outbound request fails. -/
def demoEnv : Env TemplateSet :=
  { urlParse := demoUrlParse
    urlString := demoUrlString
    httpGet := fun url =>
      if url = str "https://raw.githubusercontent.com/demo/t.txt" then
        .ok (.ok (str "# Attribute: filename=a.txt\nhello\n"))
      else .error (str "no such host")
    httpHead := fun _ => .error (str "no such host")
    templateParse := goParse
    templateExecute := goExecute
    formatMediaType := fun t params =>
      match params with
      | [] => t
      | (k, v) :: _ => t ++ str "; " ++ k ++ str "=" ++ v }

/-- The shared parser at start-up (line 92): no template has been parsed yet. -/
def newParser : TemplateSet := []

/-! ## Specification-side notions for the directive scan -/

/-- The directive a line of the leading block carries, in the words of the specification:
the text after the marker is cut at its first `=`, and the two sides are trimmed; a line
with no `=` after the marker carries none. -/
def directiveOf (line : Bytes) : Option (Bytes × Bytes) :=
  match cut eqSign (line.drop marker.length) with
  | some (k, v) => some (trimSpace k, trimSpace v)
  | none => none

/-- The directives of the leading block of a rendered output, in the order of the
lines. -/
def leadingDirectives (rendered : Bytes) : List (Bytes × Bytes) :=
  (leadingRun rendered).filterMap directiveOf

/-- The value of the last directive of a list whose key is `k`. -/
def lastValue (ds : List (Bytes × Bytes)) (k : Bytes) : Option Bytes :=
  ((ds.filter (fun d => d.1 = k)).getLast?).map Prod.snd

/-! ## `url.QueryEscape`, `url.QueryUnescape` and the two URL helpers (`main.go`, lines 21-30) -/

/-- The table `upperhex` of package `net/url`. -/
def upperhex : Bytes := str "0123456789ABCDEF"

/-- Go `ishex` of package `net/url`. -/
def ishex (c : UInt8) : Bool :=
  (48 ≤ c.toNat ∧ c.toNat ≤ 57) ∨ (97 ≤ c.toNat ∧ c.toNat ≤ 102) ∨ (65 ≤ c.toNat ∧ c.toNat ≤ 70)

/-- Go `unhex` of package `net/url`: the value of a hexadecimal digit, `0` for any other
byte. -/
def unhex (c : UInt8) : Nat :=
  if 48 ≤ c.toNat ∧ c.toNat ≤ 57 then c.toNat - 48
  else if 97 ≤ c.toNat ∧ c.toNat ≤ 102 then c.toNat - 97 + 10
  else if 65 ≤ c.toNat ∧ c.toNat ≤ 70 then c.toNat - 65 + 10
  else 0

/-- The unreserved characters of RFC 3986: letters, digits, `-`, `_`, `.` and `~`. -/
def unreserved (c : UInt8) : Bool :=
  (97 ≤ c.toNat ∧ c.toNat ≤ 122) ∨ (65 ≤ c.toNat ∧ c.toNat ≤ 90) ∨ (48 ≤ c.toNat ∧ c.toNat ≤ 57)
    ∨ c = 45 ∨ c = 95 ∨ c = 46 ∨ c = 126

/-- Go `shouldEscape(c, encodeQueryComponent)`: in a query component every byte but the
unreserved ones is escaped. -/
def shouldEscape (c : UInt8) : Bool := !unreserved c

/-- Go `escape(s, encodeQueryComponent)`, the body of `url.QueryEscape`: a space becomes
`+`, any other byte to escape becomes `%` and two upper-case hexadecimal digits
(`upperhex[c>>4]`, `upperhex[c&15]`), the rest is copied.  (The early return of the Go
code for a string with nothing to escape gives the same string as this loop.) -/
def escape : Bytes → Bytes
  | [] => []
  | c :: rest =>
    if c = 32 then 43 :: escape rest
    else if shouldEscape c then
      37 :: upperhex.getD (c.toNat / 16) 0 :: upperhex.getD (c.toNat % 16) 0 :: escape rest
    else c :: escape rest

/-- The first loop of Go `unescape(s, encodeQueryComponent)`: every `%` must be followed
by two hexadecimal digits (`i+2 >= len(s) || !ishex(s[i+1]) || !ishex(s[i+2])` is the
error); `false` stands for the `EscapeError`. -/
def checkEscapes : Bytes → Bool
  | [] => true
  | [c] => c ≠ 37
  | [c, d] => c ≠ 37 ∧ d ≠ 37
  | c :: a :: b :: rest =>
    if c = 37 then ishex a && ishex b && checkEscapes rest
    else checkEscapes (a :: b :: rest)

/-- The second loop of Go `unescape(s, encodeQueryComponent)`, which runs on a string
that passed the first: `%XY` gives the byte `unhex(X)<<4 | unhex(Y)`, `+` gives a space,
any other byte is copied.  (A `%` with fewer than two bytes after it cannot occur here;
this model copies it.) -/
def unescapeBytes : Bytes → Bytes
  | [] => []
  | [c] => [if c = 43 then 32 else c]
  | [c, d] => [if c = 43 then 32 else c, if d = 43 then 32 else d]
  | c :: a :: b :: rest =>
    if c = 37 then UInt8.ofNat (unhex a * 16 + unhex b) :: unescapeBytes rest
    else (if c = 43 then 32 else c) :: unescapeBytes (a :: b :: rest)

/-- Go `url.QueryUnescape`; `none` when it returns an error. -/
def queryUnescape (s : Bytes) : Option Bytes :=
  if checkEscapes s then some (unescapeBytes s) else none

/-- Line 21: `encodeUrl`. -/
def encodeUrl (text : Bytes) : Bytes := escape text

/-- Line 24: `decodeUrl`. -/
def decodeUrl (text : Bytes) : Bytes :=
  match queryUnescape text with
  | none => []
  | some raw => raw

/-! ## Specification-side notions for the helpers -/

/-- A byte of the alphabet of an encoding. -/
def Encoding.isDigit (enc : Encoding) (c : UInt8) : Bool := c ∈ enc.encode

/-- A text free of CR and LF is well-formed padded base64 when it is a sequence of
groups of four bytes, each group four alphabet bytes, except that the last group may be
three alphabet bytes and `=`, or two alphabet bytes and `==`. -/
def Encoding.wellFormedQuanta (enc : Encoding) : Bytes → Bool
  | [] => true
  | a :: b :: c :: d :: rest =>
    enc.isDigit a && enc.isDigit b &&
      ((enc.isDigit c && enc.isDigit d && enc.wellFormedQuanta rest)
        || (enc.isDigit c && d = padChar && rest = [])
        || (c = padChar && d = padChar && rest = []))
  | _ => false

/-- A byte other than CR and LF. -/
def notNewline (c : UInt8) : Bool := c ≠ 10 ∧ c ≠ 13

/-- A text is a valid base64 encoding for `enc` when, CR and LF bytes left out (the
decoders of `encoding/base64` ignore them), it is well-formed padded base64. -/
def Encoding.valid (enc : Encoding) (text : Bytes) : Bool :=
  enc.wellFormedQuanta (text.filter notNewline)

/-- A text contains an invalid percent-escape: some `%` of it is not followed by two
hexadecimal digits. -/
def hasInvalidEscape : Bytes → Bool
  | [] => false
  | c :: rest =>
    (c = 37 && !(match rest with
      | a :: b :: _ => ishex a && ishex b
      | _ => false)) || hasInvalidEscape rest

/-- The form of an escaped query component: unreserved bytes, `+`, and `%` followed by
two hexadecimal digits. -/
def escapedForm : Bytes → Bool
  | [] => true
  | [c] => unreserved c || c = 43
  | [c, d] => (unreserved c || c = 43) && (unreserved d || d = 43)
  | c :: a :: b :: rest =>
    if c = 37 then ishex a && ishex b && escapedForm rest
    else (unreserved c || c = 43) && escapedForm (a :: b :: rest)

/-! ## Specification-side notions for the handler -/

/-- The template of a request is resolved to `tmpl` (without error): the request is a
POST with the non-empty body `tmpl`, or a GET whose `template` parameter parses to an
`http` or `https` URL of a whitelisted host whose fetch gives the body `tmpl`. -/
def Resolves {P : Type} (env : Env P) (request : Request) (tmpl : Bytes) : Prop :=
  (request.method = str "POST" ∧ request.body = .ok tmpl ∧ tmpl ≠ []) ∨
  (request.method = str "GET" ∧ valuesGet request.queries (str "template") ≠ [] ∧
    ∃ u, env.urlParse (valuesGet request.queries (str "template")) = .ok u ∧
      (u.Scheme = str "http" ∨ u.Scheme = str "https") ∧ whitelistHas u.Host = true ∧
      env.httpGet (env.urlString u) = .ok (.ok tmpl))

/-- The template of a request is resolved, parsed and executed without error, and
`rendered` is the rendered output. -/
def RendersTo {P : Type} (env : Env P) (parser : P) (request : Request) (rendered : Bytes) :
    Prop :=
  ∃ tmpl, Resolves env request tmpl ∧ (env.templateParse parser tmpl).2 = none ∧
    env.templateExecute (env.templateParse parser tmpl).1 (variableMapping request.queries)
      = .ok rendered

/-- An environment like the example environment whose network also answers HEAD requests:
a HEAD of `http://evil.example/info` gives a response with the header
`Subscription-Userinfo: upload=1`. -/
def probeEnv : Env TemplateSet :=
  { demoEnv with
    httpHead := fun url =>
      if url = str "http://evil.example/info" then
        .ok [(str "Subscription-Userinfo", [str "upload=1"])]
      else .error (str "no such host") }

/-! ## Specification-side notions for the trimming -/

/-- The UTF-8 encodings of the 25 Unicode white space characters, in the order U+0009 to
U+000D, U+0020, U+0085, U+00A0, U+1680, U+2000 to U+200A, U+2028, U+2029, U+202F, U+205F,
U+3000. -/
def whiteSpaceEncodings : List Bytes :=
  [[0x09], [0x0A], [0x0B], [0x0C], [0x0D], [0x20], [0xC2, 0x85], [0xC2, 0xA0],
   [0xE1, 0x9A, 0x80], [0xE2, 0x80, 0x80], [0xE2, 0x80, 0x81], [0xE2, 0x80, 0x82],
   [0xE2, 0x80, 0x83], [0xE2, 0x80, 0x84], [0xE2, 0x80, 0x85], [0xE2, 0x80, 0x86],
   [0xE2, 0x80, 0x87], [0xE2, 0x80, 0x88], [0xE2, 0x80, 0x89], [0xE2, 0x80, 0x8A],
   [0xE2, 0x80, 0xA8], [0xE2, 0x80, 0xA9], [0xE2, 0x80, 0xAF], [0xE2, 0x81, 0x9F],
   [0xE3, 0x80, 0x80]]

/-- The byte string is a run of white space: a concatenation of encodings of white space
characters. -/
def Spaces (l : Bytes) : Prop :=
  ∃ ws : List Bytes, (∀ w ∈ ws, w ∈ whiteSpaceEncodings) ∧ l = ws.flatten

/-- The text `res` is `s` without its leading and trailing white space: `s` is a run of
white space, then `res`, then a run of white space, and `res` neither begins nor ends
with the encoding of a white space character. -/
def Trimmed (s res : Bytes) : Prop :=
  ∃ l r, s = l ++ res ++ r ∧ Spaces l ∧ Spaces r ∧
    (∀ w ∈ whiteSpaceEncodings, ¬ w <+: res) ∧ (∀ w ∈ whiteSpaceEncodings, ¬ w <:+ res)

/-! ## Lemmas on byte strings and maps -/

theorem cut_of_not_mem (sep : UInt8) (s : Bytes) (h : sep ∉ s) : cut sep s = none := by
  induction s with
  | nil => rfl
  | cons c rest ih =>
    have hc : c ≠ sep := fun e => h (by simp [e])
    have hr : sep ∉ rest := fun e => h (by simp [e])
    simp [cut, hc, ih hr]

theorem cut_append (sep : UInt8) (a b : Bytes) (h : sep ∉ a) :
    cut sep (a ++ sep :: b) = some (a, b) := by
  induction a with
  | nil => simp [cut]
  | cons c rest ih =>
    have hc : c ≠ sep := fun e => h (by simp [e])
    have hr : sep ∉ rest := fun e => h (by simp [e])
    simp [cut, hc, ih hr]

theorem hasPrefix_append (p s : Bytes) : hasPrefix (p ++ s) p = true := by
  induction p with
  | nil => cases s <;> rfl
  | cons c rest ih => simp [hasPrefix, ih]

theorem split_ne_nil (sep : UInt8) (s : Bytes) : split sep s ≠ [] := by
  cases s with
  | nil => simp [split]
  | cons c rest =>
    simp only [split]
    split
    · simp
    · split <;> simp

theorem split_no_sep (sep : UInt8) (s : Bytes) : ∀ l ∈ split sep s, sep ∉ l := by
  induction s with
  | nil => simp [split]
  | cons c rest ih =>
    intro l hl
    simp only [split] at hl
    split at hl
    · rcases List.mem_cons.1 hl with h | h
      · simp [h]
      · exact ih l h
    · rename_i hc
      split at hl
      · rename_i heq
        exact absurd heq (split_ne_nil sep rest)
      · rename_i l0 ls heq
        rcases List.mem_cons.1 hl with h | h
        · have h0 : sep ∉ l0 := ih l0 (by simp [heq])
          subst h
          intro hm
          rcases List.mem_cons.1 hm with e | e
          · exact hc e.symm
          · exact h0 e
        · exact ih l (by simp [heq, h])

theorem split_of_not_mem (sep : UInt8) (l : Bytes) (h : sep ∉ l) : split sep l = [l] := by
  induction l with
  | nil => rfl
  | cons c rest ih =>
    have hc : c ≠ sep := fun e => h (by simp [e])
    have hr : sep ∉ rest := fun e => h (by simp [e])
    simp [split, hc, ih hr]

theorem split_append_sep (sep : UInt8) (l s : Bytes) (h : sep ∉ l) :
    split sep (l ++ sep :: s) = l :: split sep s := by
  induction l with
  | nil => simp [split]
  | cons c rest ih =>
    have hc : c ≠ sep := fun e => h (by simp [e])
    have hr : sep ∉ rest := fun e => h (by simp [e])
    simp [split, hc, ih hr]

theorem split_join (sep : UInt8) (ls : List Bytes) (hne : ls ≠ [])
    (h : ∀ l ∈ ls, sep ∉ l) : split sep (join sep ls) = ls := by
  induction ls with
  | nil => exact absurd rfl hne
  | cons l rest ih =>
    cases rest with
    | nil => simpa [join] using split_of_not_mem sep l (h l (by simp))
    | cons l2 rest2 =>
      have h1 : sep ∉ l := h l (by simp)
      have h2 : ∀ x ∈ l2 :: rest2, sep ∉ x := fun x hx => h x (by simp [hx])
      simp only [join]
      rw [split_append_sep sep l _ h1, ih (by simp) h2]

theorem mapGet_mapSet (m : GoMap) (k v k2 : Bytes) :
    mapGet (mapSet m k v) k2 = if k = k2 then some v else mapGet m k2 := by
  induction m with
  | nil => simp [mapSet, mapGet]
  | cons e rest ih =>
    obtain ⟨k1, v1⟩ := e
    by_cases h1 : k1 = k
    · subst h1
      by_cases h2 : k1 = k2 <;> simp [mapSet, mapGet, h2]
    · by_cases h2 : k1 = k2
      · subst h2
        have h3 : ¬ k = k1 := fun e => h1 e.symm
        simp [mapSet, mapGet, h1, h3]
      · simp [mapSet, mapGet, h1, h2, ih]

/-! ## Lemmas on the directive scan -/

theorem scanLines_cons (m : GoMap) (line : Bytes) (rest : List Bytes) :
    scanLines m (line :: rest) =
      if hasPrefix line marker then
        match directiveOf line with
        | some d => scanLines (mapSet m d.1 d.2) rest
        | none => scanLines m rest
      else m := by
  have hlen : marker.length = 13 := by decide
  simp only [scanLines, directiveOf, hlen, splitN2]
  split
  · cases hc : cut eqSign (List.drop 13 line) with
    | none => simp
    | some ab => obtain ⟨a, b⟩ := ab; simp
  · rfl

theorem scanLines_append (m : GoMap) (pre rest : List Bytes)
    (h : ∀ l ∈ pre, hasPrefix l marker = true) :
    scanLines m (pre ++ rest) = scanLines (scanLines m pre) rest := by
  induction pre generalizing m with
  | nil => rfl
  | cons line pre ih =>
    have h1 : hasPrefix line marker = true := h line (by simp)
    have h2 : ∀ l ∈ pre, hasPrefix l marker = true := fun l hl => h l (by simp [hl])
    simp only [List.cons_append, scanLines_cons, h1, if_true]
    cases directiveOf line with
    | none => exact ih m h2
    | some d => exact ih _ h2

theorem scanLines_takeWhile (m : GoMap) (lines : List Bytes) :
    scanLines m lines = scanLines m (lines.takeWhile (fun line => hasPrefix line marker)) := by
  induction lines generalizing m with
  | nil => rfl
  | cons line rest ih =>
    by_cases h : hasPrefix line marker = true
    · simp only [List.takeWhile_cons, scanLines_cons, h, if_true]
      cases directiveOf line with
      | none => exact ih m
      | some d => exact ih _
    · simp [List.takeWhile_cons, scanLines_cons, h, scanLines]

theorem scanLines_skip (m : GoMap) (pre post : List Bytes) (r : Bytes) (hr : eqSign ∉ r) :
    scanLines m (pre ++ (marker ++ r) :: post) = scanLines m (pre ++ post) := by
  induction pre generalizing m with
  | nil =>
    have hd : directiveOf (marker ++ r) = none := by
      simp [directiveOf, cut_of_not_mem eqSign r hr]
    simp [scanLines_cons, hasPrefix_append, hd]
  | cons line pre ih =>
    simp only [List.cons_append, scanLines_cons]
    split
    · cases directiveOf line with
      | none => exact ih m
      | some d => exact ih _
    · rfl

theorem scanLines_store (m : GoMap) (a b : Bytes) (post : List Bytes) (ha : eqSign ∉ a) :
    scanLines m ((marker ++ (a ++ eqSign :: b)) :: post)
      = scanLines (mapSet m (trimSpace a) (trimSpace b)) post := by
  have hd : directiveOf (marker ++ (a ++ eqSign :: b)) = some (trimSpace a, trimSpace b) := by
    simp [directiveOf, cut_append eqSign a b ha]
  simp [scanLines_cons, hasPrefix_append, hd]

theorem lastValue_cons (d : Bytes × Bytes) (ds : List (Bytes × Bytes)) (k : Bytes) :
    lastValue (d :: ds) k =
      match lastValue ds k with
      | some v => some v
      | none => if d.1 = k then some d.2 else none := by
  unfold lastValue
  by_cases h : d.1 = k
  · simp only [List.filter_cons, h, decide_True, if_true]
    cases hf : List.filter (fun d => decide (d.1 = k)) ds with
    | nil => simp
    | cons x xs =>
      rw [List.getLast?_cons_cons, List.getLast?_eq_getLast (x :: xs) (by simp)]
      rfl
  · have hf : List.filter (fun d => decide (d.1 = k)) (d :: ds)
        = List.filter (fun d => decide (d.1 = k)) ds := by
      simp [List.filter_cons, h]
    rw [hf, if_neg h]
    generalize Option.map Prod.snd (List.filter (fun d => decide (d.1 = k)) ds).getLast? = o
    cases o <;> rfl

theorem mapGet_scanLines (m : GoMap) (lines : List Bytes) (k : Bytes) :
    mapGet (scanLines m lines) k =
      match lastValue ((lines.takeWhile (fun line => hasPrefix line marker)).filterMap
          directiveOf) k with
      | some v => some v
      | none => mapGet m k := by
  induction lines generalizing m with
  | nil => simp [scanLines, lastValue]
  | cons line rest ih =>
    by_cases h : hasPrefix line marker = true
    · simp only [List.takeWhile_cons, scanLines_cons, h, if_true]
      cases hd : directiveOf line with
      | none =>
        simp only [List.filterMap_cons, hd]
        exact ih m
      | some d =>
        simp only [List.filterMap_cons, hd, lastValue_cons]
        rw [ih]
        cases lastValue (List.filterMap directiveOf
          (List.takeWhile (fun line => hasPrefix line marker) rest)) k with
        | some v => rfl
        | none =>
          simp only [mapGet_mapSet]
          by_cases hk : d.1 = k <;> simp [hk]
    · simp [List.takeWhile_cons, scanLines_cons, h, lastValue]

/-! ## Lemmas on `strings.TrimSpace` -/

/-- The table of encodings is the list of the white space characters, encoded. -/
theorem whiteSpaceEncodings_eq :
    whiteSpaceEncodings = List.map str ["\t", "\n", "\x0b", "\x0c", "\r", " ", "\u0085",
      "\u00a0", "\u1680", "\u2000", "\u2001", "\u2002", "\u2003", "\u2004", "\u2005",
      "\u2006", "\u2007", "\u2008", "\u2009", "\u200a", "\u2028", "\u2029", "\u202f",
      "\u205f", "\u3000"] := by
  decide

theorem byte_eq_of_toNat (b : UInt8) (n : Nat) (hn : n < 256) (h : b.toNat = n) :
    b = UInt8.ofNat n := by
  apply UInt8.toNat.inj
  rw [h, UInt8.toNat_ofNat_of_lt hn]

/-- An encoding of a white space character at the front is decoded as a space, with its
length as width. -/
theorem isSpace_decodeRune_of_encoding (w t : Bytes) (hw : w ∈ whiteSpaceEncodings) :
    isSpace (decodeRune (w ++ t)).1 = true ∧ (decodeRune (w ++ t)).2 = w.length := by
  simp only [whiteSpaceEncodings, List.mem_cons, List.mem_singleton, List.not_mem_nil, or_false] at hw
  rcases hw with h|h|h|h|h|h|h|h|h|h|h|h|h|h|h|h|h|h|h|h|h|h|h|h|h <;> subst h <;> exact ⟨rfl, rfl⟩

theorem isSpace_iff (r : Nat) : isSpace r = true ↔
    (r = 9 ∨ r = 10 ∨ r = 11 ∨ r = 12 ∨ r = 13 ∨ r = 32 ∨ r = 133 ∨ r = 160 ∨ r = 5760 ∨
      (8192 ≤ r ∧ r ≤ 8202) ∨ r = 8232 ∨ r = 8233 ∨ r = 8239 ∨ r = 8287 ∨ r = 12288) := by
  unfold isSpace
  split
  · simp only [decide_eq_true_eq]
    omega
  · simp only [decide_eq_true_eq]
    omega

theorem isSpace_ascii (n : Nat) (h : n < 128) (hs : isSpace n = true) :
    n = 9 ∨ n = 10 ∨ n = 11 ∨ n = 12 ∨ n = 13 ∨ n = 32 := by
  rw [isSpace_iff] at hs
  omega

theorem isSpace_two (n0 n1 : Nat) (h0 : 194 ≤ n0 ∧ n0 < 224) (h1 : 128 ≤ n1 ∧ n1 ≤ 191)
    (hs : isSpace ((n0 % 32) * 64 + n1 % 64) = true) :
    n0 = 194 ∧ (n1 = 133 ∨ n1 = 160) := by
  rw [isSpace_iff] at hs
  omega

theorem isSpace_three (n0 n1 n2 : Nat) (h0 : 224 ≤ n0 ∧ n0 < 240)
    (h1 : 128 ≤ n1 ∧ n1 ≤ 191) (h1' : n0 = 224 → 160 ≤ n1) (h2 : 128 ≤ n2 ∧ n2 ≤ 191)
    (hs : isSpace ((n0 % 16) * 4096 + (n1 % 64) * 64 + n2 % 64) = true) :
    (n0 = 225 ∧ n1 = 154 ∧ n2 = 128) ∨
    (n0 = 226 ∧ n1 = 128 ∧ ((128 ≤ n2 ∧ n2 ≤ 138) ∨ n2 = 168 ∨ n2 = 169 ∨ n2 = 175)) ∨
    (n0 = 226 ∧ n1 = 129 ∧ n2 = 159) ∨ (n0 = 227 ∧ n1 = 128 ∧ n2 = 128) := by
  rw [isSpace_iff] at hs
  obtain ⟨a, rfl⟩ : ∃ a, n0 = 224 + a := ⟨n0 - 224, by omega⟩
  obtain ⟨b, rfl⟩ : ∃ b, n1 = 128 + b := ⟨n1 - 128, by omega⟩
  obtain ⟨c, rfl⟩ : ∃ c, n2 = 128 + c := ⟨n2 - 128, by omega⟩
  have ha2 : a < 16 := by omega
  have hb2 : b < 64 := by omega
  have hc2 : c < 64 := by omega
  have hb3 : a = 0 → 32 ≤ b := by
    intro e
    have := h1' (by omega)
    omega
  have e0 : (224 + a) % 16 = a := by omega
  have e1 : (128 + b) % 64 = b := by omega
  have e2 : (128 + c) % 64 = c := by omega
  rw [e0, e1, e2] at hs
  clear e0 e1 e2 h0 h1 h2 h1'
  have key : (a = 1 ∧ b = 26 ∧ c = 0) ∨ (a = 2 ∧ b = 0 ∧ (c ≤ 10 ∨ c = 40 ∨ c = 41 ∨ c = 47)) ∨
      (a = 2 ∧ b = 1 ∧ c = 31) ∨ (a = 3 ∧ b = 0 ∧ c = 0) := by
    by_cases ha0 : a = 0
    · have := hb3 ha0
      exfalso
      omega
    · clear hb3
      rcases hs with h | h | h | h | h | h | h | h | h | h | h | h | h | h | h
      · exfalso; omega
      · exfalso; omega
      · exfalso; omega
      · exfalso; omega
      · exfalso; omega
      · exfalso; omega
      · exfalso; omega
      · exfalso; omega
      · left
        refine ⟨by omega, by omega, by omega⟩
      · right; left
        refine ⟨by omega, by omega, Or.inl (by omega)⟩
      · right; left
        refine ⟨by omega, by omega, Or.inr (Or.inl (by omega))⟩
      · right; left
        refine ⟨by omega, by omega, Or.inr (Or.inr (Or.inl (by omega)))⟩
      · right; left
        refine ⟨by omega, by omega, Or.inr (Or.inr (Or.inr (by omega)))⟩
      · right; right; left
        refine ⟨by omega, by omega, by omega⟩
      · right; right; right
        refine ⟨by omega, by omega, by omega⟩
  rcases key with ⟨h1, h2, h3⟩ | ⟨h1, h2, h3⟩ | ⟨h1, h2, h3⟩ | ⟨h1, h2, h3⟩
  · left
    subst h1 h2 h3
    exact ⟨rfl, rfl, rfl⟩
  · right; left
    subst h1 h2
    refine ⟨rfl, rfl, ?_⟩
    rcases h3 with h | h | h | h
    · left; omega
    · right; left; omega
    · right; right; left; omega
    · right; right; right; omega
  · right; right; left
    subst h1 h2 h3
    exact ⟨rfl, rfl, rfl⟩
  · right; right; right
    subst h1 h2 h3
    exact ⟨rfl, rfl, rfl⟩

theorem isSpace_four (n0 n1 n2 n3 : Nat) (h0 : 240 ≤ n0 ∧ n0 ≤ 244)
    (h1 : 128 ≤ n1 ∧ n1 ≤ 191) (h1' : n0 = 240 → 144 ≤ n1) :
    isSpace ((n0 % 8) * 262144 + (n1 % 64) * 4096 + (n2 % 64) * 64 + n3 % 64) = false := by
  cases h : isSpace ((n0 % 8) * 262144 + (n1 % 64) * 4096 + (n2 % 64) * 64 + n3 % 64) with
  | false => rfl
  | true =>
    rw [isSpace_iff] at h
    obtain ⟨a, ha⟩ : ∃ a, a = n0 - 240 := ⟨_, rfl⟩
    obtain ⟨b, hb⟩ : ∃ b, b = n1 - 128 := ⟨_, rfl⟩
    have e0 : n0 % 8 = a := by omega
    have e1 : n1 % 64 = b := by omega
    rw [e0, e1] at h
    omega

theorem decodeRune_ascii (b0 : UInt8) (t : Bytes) (h : b0.toNat < 128) :
    decodeRune (b0 :: t) = (b0.toNat, 1) := by
  simp [decodeRune, RuneSelf, h]

theorem decodeRune_bad_lead (b0 : UInt8) (t : Bytes) (h1 : 128 ≤ b0.toNat)
    (h : b0.toNat < 194 ∨ 244 < b0.toNat) : decodeRune (b0 :: t) = (RuneError, 1) := by
  have h1' : ¬ b0.toNat < 128 := by omega
  simp [decodeRune, RuneSelf, h1', h]

theorem decodeRune_single (b0 : UInt8) (h1 : 128 ≤ b0.toNat) :
    decodeRune [b0] = (RuneError, 1) := by
  have h1' : ¬ b0.toNat < 128 := by omega
  simp only [decodeRune, RuneSelf, h1', if_false]
  split_ifs <;> rfl

theorem decodeRune_two (b0 b1 : UInt8) (t : Bytes) (h0 : 194 ≤ b0.toNat ∧ b0.toNat < 224) :
    decodeRune (b0 :: b1 :: t) =
      if 128 ≤ b1.toNat ∧ b1.toNat ≤ 191 then ((b0.toNat % 32) * 64 + b1.toNat % 64, 2)
      else (RuneError, 1) := by
  have h1 : ¬ b0.toNat < 128 := by omega
  have h2 : ¬ (b0.toNat < 194 ∨ 244 < b0.toNat) := by omega
  have h3 : b0.toNat < 224 := h0.2
  have h4 : ¬ b0.toNat = 224 := by omega
  have h5 : ¬ b0.toNat = 240 := by omega
  have h6 : ¬ b0.toNat = 237 := by omega
  have h7 : ¬ b0.toNat = 244 := by omega
  simp only [decodeRune, RuneSelf, h1, h2, h3, h4, h5, h6, h7, if_false, if_true,
    List.length_cons]
  split_ifs <;> first | rfl | omega

theorem decodeRune_pair_short (b0 b1 : UInt8) (h0 : 224 ≤ b0.toNat) :
    decodeRune [b0, b1] = (RuneError, 1) := by
  have h1 : ¬ b0.toNat < 128 := by omega
  have h3 : ¬ b0.toNat < 224 := by omega
  simp only [decodeRune, RuneSelf, h1, h3, if_false, List.length_cons, List.length_nil]
  split_ifs <;> first | rfl | omega

theorem decodeRune_three (b0 b1 b2 : UInt8) (t : Bytes) (h0 : 224 ≤ b0.toNat ∧ b0.toNat < 240) :
    decodeRune (b0 :: b1 :: b2 :: t) =
      if (if b0.toNat = 224 then 160 else 128) ≤ b1.toNat ∧
          b1.toNat ≤ (if b0.toNat = 237 then 159 else 191) ∧
          128 ≤ b2.toNat ∧ b2.toNat ≤ 191 then
        ((b0.toNat % 16) * 4096 + (b1.toNat % 64) * 64 + b2.toNat % 64, 3)
      else (RuneError, 1) := by
  have h1 : ¬ b0.toNat < 128 := by omega
  have h2 : ¬ (b0.toNat < 194 ∨ 244 < b0.toNat) := by omega
  have h3 : ¬ b0.toNat < 224 := by omega
  have h3' : b0.toNat < 240 := h0.2
  have h5 : ¬ b0.toNat = 240 := by omega
  have h7 : ¬ b0.toNat = 244 := by omega
  simp only [decodeRune, RuneSelf, h1, h2, h3, h3', h5, h7, if_false, if_true,
    List.length_cons]
  split_ifs <;> first | rfl | omega

theorem decodeRune_four_not_space (b0 : UInt8) (t : Bytes) (h0 : 240 ≤ b0.toNat) :
    isSpace (decodeRune (b0 :: t)).1 = false := by
  have h1 : ¬ b0.toNat < 128 := by omega
  have h3 : ¬ b0.toNat < 224 := by omega
  have h3' : ¬ b0.toNat < 240 := by omega
  have hE : isSpace (RuneError, 1).1 = false := by decide
  by_cases h2 : b0.toNat < 194 ∨ 244 < b0.toNat
  · rw [decodeRune_bad_lead b0 t (by omega) h2]
    exact hE
  · have h6 : ¬ b0.toNat = 224 := by omega
    have h7 : ¬ b0.toNat = 237 := by omega
    have h42 : ¬ 4 ≤ 2 := by omega
    have h43 : ¬ 4 ≤ 3 := by omega
    rcases t with _ | ⟨b1, _ | ⟨b2, _ | ⟨b3, t⟩⟩⟩
    · rw [decodeRune_single b0 (by omega)]
      exact hE
    · simp only [decodeRune, RuneSelf, h1, h2, h3, h3', h6, h7, h42, h43, if_false,
        List.length_cons, List.length_nil]
      split_ifs <;> exact hE
    · simp only [decodeRune, RuneSelf, h1, h2, h3, h3', h6, h7, h42, h43, if_false,
        List.length_cons, List.length_nil]
      split_ifs <;> exact hE
    · simp only [decodeRune, RuneSelf, h1, h2, h3, h3', h6, h7, h42, h43, if_false,
        List.length_cons, List.length_nil]
      split_ifs <;> first
        | exact hE
        | omega
        | exact isSpace_four _ _ _ _ (by omega) (by omega) (by omega)

theorem encoding_of_isSpace_decodeRune (s : Bytes) (h : isSpace (decodeRune s).1 = true) :
    ∃ w t, w ∈ whiteSpaceEncodings ∧ s = w ++ t ∧ (decodeRune s).2 = w.length := by
  rcases s with _ | ⟨b0, t⟩
  · exact absurd h (by decide)
  · by_cases h1 : b0.toNat < 128
    · rw [decodeRune_ascii b0 t h1] at h ⊢
      have hs := isSpace_ascii _ h1 h
      refine ⟨[b0], t, ?_, rfl, rfl⟩
      rcases hs with e | e | e | e | e | e <;>
        rw [byte_eq_of_toNat b0 _ (by omega) e] <;> decide
    · by_cases h2 : b0.toNat < 194 ∨ 244 < b0.toNat
      · rw [decodeRune_bad_lead b0 t (by omega) h2] at h
        exact absurd h (by decide)
      · by_cases h3 : b0.toNat < 224
        · rcases t with _ | ⟨b1, t⟩
          · rw [decodeRune_single b0 (by omega)] at h
            exact absurd h (by decide)
          · rw [decodeRune_two b0 b1 t ⟨by omega, h3⟩] at h ⊢
            split_ifs at h ⊢ with hc
            · obtain ⟨e0, e1⟩ := isSpace_two _ _ ⟨by omega, h3⟩ hc h
              refine ⟨[b0, b1], t, ?_, rfl, rfl⟩
              rw [byte_eq_of_toNat b0 194 (by omega) e0]
              rcases e1 with e | e <;>
                rw [byte_eq_of_toNat b1 _ (by omega) e] <;> decide
            · exact absurd h (by decide)
        · by_cases h4 : b0.toNat < 240
          · rcases t with _ | ⟨b1, _ | ⟨b2, t⟩⟩
            · rw [decodeRune_single b0 (by omega)] at h
              exact absurd h (by decide)
            · rw [decodeRune_pair_short b0 b1 (by omega)] at h
              exact absurd h (by decide)
            · rw [decodeRune_three b0 b1 b2 t ⟨by omega, h4⟩] at h ⊢
              by_cases hc : (if b0.toNat = 224 then 160 else 128) ≤ b1.toNat ∧
                  b1.toNat ≤ (if b0.toNat = 237 then 159 else 191) ∧
                  128 ≤ b2.toNat ∧ b2.toNat ≤ 191
              · rw [if_pos hc] at h ⊢
                have hb1 : 128 ≤ b1.toNat ∧ b1.toNat ≤ 191 := by
                  obtain ⟨c1, c2, -⟩ := hc
                  split_ifs at c1 c2 <;> omega
                have hb1' : b0.toNat = 224 → 160 ≤ b1.toNat := by
                  intro e
                  obtain ⟨c1, -⟩ := hc
                  rw [if_pos e] at c1
                  exact c1
                have hs := isSpace_three _ _ _ ⟨by omega, h4⟩ hb1 hb1' hc.2.2 h
                refine ⟨[b0, b1, b2], t, ?_, rfl, rfl⟩
                rcases hs with ⟨e0, e1, e2⟩ | ⟨e0, e1, e2⟩ | ⟨e0, e1, e2⟩ | ⟨e0, e1, e2⟩
                · rw [byte_eq_of_toNat b0 _ (by omega) e0, byte_eq_of_toNat b1 _ (by omega) e1,
                    byte_eq_of_toNat b2 _ (by omega) e2]
                  decide
                · rw [byte_eq_of_toNat b0 _ (by omega) e0, byte_eq_of_toNat b1 _ (by omega) e1]
                  have e2' : b2.toNat = 128 ∨ b2.toNat = 129 ∨ b2.toNat = 130 ∨ b2.toNat = 131 ∨
                      b2.toNat = 132 ∨ b2.toNat = 133 ∨ b2.toNat = 134 ∨ b2.toNat = 135 ∨
                      b2.toNat = 136 ∨ b2.toNat = 137 ∨ b2.toNat = 138 ∨ b2.toNat = 168 ∨
                      b2.toNat = 169 ∨ b2.toNat = 175 := by omega
                  rcases e2' with e | e | e | e | e | e | e | e | e | e | e | e | e | e <;>
                    rw [byte_eq_of_toNat b2 _ (by omega) e] <;> decide
                · rw [byte_eq_of_toNat b0 _ (by omega) e0, byte_eq_of_toNat b1 _ (by omega) e1,
                    byte_eq_of_toNat b2 _ (by omega) e2]
                  decide
                · rw [byte_eq_of_toNat b0 _ (by omega) e0, byte_eq_of_toNat b1 _ (by omega) e1,
                    byte_eq_of_toNat b2 _ (by omega) e2]
                  decide
              · rw [if_neg hc] at h
                exact absurd h (by decide)
          · rw [decodeRune_four_not_space b0 t (by omega)] at h
            cases h

theorem Spaces_nil : Spaces [] := ⟨[], by simp, rfl⟩

theorem Spaces_append (a b : Bytes) (ha : Spaces a) (hb : Spaces b) : Spaces (a ++ b) := by
  obtain ⟨wa, h1, rfl⟩ := ha
  obtain ⟨wb, h2, rfl⟩ := hb
  refine ⟨wa ++ wb, ?_, by simp⟩
  intro w hw
  rcases List.mem_append.1 hw with h | h
  · exact h1 w h
  · exact h2 w h

theorem Spaces_of_mem (w : Bytes) (hw : w ∈ whiteSpaceEncodings) : Spaces w :=
  ⟨[w], by simpa using hw, by simp⟩

theorem wse_length_pos : ∀ w ∈ whiteSpaceEncodings, 0 < w.length := by decide

theorem wse_ne_nil (w : Bytes) (hw : w ∈ whiteSpaceEncodings) : w ≠ [] := by
  intro e
  have := wse_length_pos w hw
  rw [e] at this
  exact absurd this (by decide)

theorem indexFuncFrom_cons (f : Nat → Bool) (truth : Bool) (fuel i : Nat) (b : UInt8)
    (t : Bytes) :
    indexFuncFrom f truth (fuel + 1) i (b :: t) =
      if f (decodeRune (b :: t)).1 == truth then some i
      else indexFuncFrom f truth fuel (i + (decodeRune (b :: t)).2)
        ((b :: t).drop (decodeRune (b :: t)).2) := rfl

theorem indexFuncFrom_spec (fuel : Nat) : ∀ (i : Nat) (s : Bytes), s.length ≤ fuel →
    (indexFuncFrom isSpace false fuel i s = none ∧ Spaces s) ∨
    (∃ l t, s = l ++ t ∧ Spaces l ∧ t ≠ [] ∧ isSpace (decodeRune t).1 = false ∧
      indexFuncFrom isSpace false fuel i s = some (i + l.length)) := by
  induction fuel with
  | zero =>
    intro i s hs
    have : s = [] := List.length_eq_zero.1 (by omega)
    subst this
    exact Or.inl ⟨rfl, Spaces_nil⟩
  | succ fuel ih =>
    intro i s hs
    rcases s with _ | ⟨b, t⟩
    · exact Or.inl ⟨rfl, Spaces_nil⟩
    · rw [indexFuncFrom_cons]
      cases hsp : isSpace (decodeRune (b :: t)).1 with
      | false =>
        refine Or.inr ⟨[], b :: t, rfl, Spaces_nil, by simp, hsp, ?_⟩
        simp
      | true =>
        obtain ⟨w, t', hw, hst, hsz⟩ := encoding_of_isSpace_decodeRune (b :: t) hsp
        have hpos := wse_length_pos w hw
        have hlen : (b :: t).length = w.length + t'.length := by rw [hst, List.length_append]
        rw [hsz, hst, List.drop_left]
        simp only [Bool.true_eq_false, beq_iff_eq, if_false]
        rcases ih (i + w.length) t' (by omega) with ⟨h1, h2⟩ | ⟨l, t2, h1, h2, h3, h4, h5⟩
        · exact Or.inl ⟨h1, Spaces_append w t' (Spaces_of_mem w hw) h2⟩
        · refine Or.inr ⟨w ++ l, t2, by rw [h1, List.append_assoc],
            Spaces_append w l (Spaces_of_mem w hw) h2, h3, h4, ?_⟩
          rw [h5, List.length_append, Nat.add_assoc]

theorem not_leading_of_not_space (t : Bytes) (h : t = [] ∨ isSpace (decodeRune t).1 = false) :
    ∀ w ∈ whiteSpaceEncodings, ¬ w <+: t := by
  intro w hw hp
  obtain ⟨t', rfl⟩ := hp
  rcases h with h | h
  · exact wse_ne_nil w hw (List.append_eq_nil.1 h).1
  · rw [(isSpace_decodeRune_of_encoding w t' hw).1] at h
    cases h

theorem trimLeftFunc_spec (s : Bytes) :
    ∃ l, s = l ++ trimLeftFunc s isSpace ∧ Spaces l ∧
      (trimLeftFunc s isSpace = [] ∨ isSpace (decodeRune (trimLeftFunc s isSpace)).1 = false) := by
  unfold trimLeftFunc indexFunc
  rcases indexFuncFrom_spec s.length 0 s (Nat.le_refl _) with ⟨h1, h2⟩ | ⟨l, t, h1, h2, h3, h4, h5⟩
  · rw [h1]
    exact ⟨s, by simp, h2, Or.inl rfl⟩
  · rw [h5]
    have : List.drop (0 + l.length) s = t := by
      rw [h1, Nat.zero_add, List.drop_left]
    simp only [this]
    exact ⟨l, h1, h2, Or.inr h4⟩

theorem findRuneStart_lt (s : Bytes) (lim : Int) (fuel : Nat) (start : Int) (h : start < lim) :
    findRuneStart s lim fuel start = start := by
  have h' : ¬ start ≥ lim := by omega
  cases fuel <;> simp [findRuneStart, h']

theorem findRuneStart_hit (s : Bytes) (lim : Int) (fuel : Nat) (start : Int) (h : lim ≤ start)
    (hr : runeStart (s.getD start.toNat 0) = true) :
    findRuneStart s lim (fuel + 1) start = start := by
  have h' : start ≥ lim := h
  rw [findRuneStart, if_pos h', if_pos hr]

theorem findRuneStart_miss (s : Bytes) (lim : Int) (fuel : Nat) (start : Int) (h : lim ≤ start)
    (hr : runeStart (s.getD start.toNat 0) = false) :
    findRuneStart s lim (fuel + 1) start = findRuneStart s lim fuel (start - 1) := by
  have h' : start ≥ lim := h
  have hr' : ¬ runeStart (s.getD start.toNat 0) = true := by
    rw [hr]
    decide
  rw [findRuneStart, if_pos h', if_neg hr']

theorem findRuneStart_le (s : Bytes) (lim : Int) (fuel : Nat) :
    ∀ start : Int, findRuneStart s lim fuel start ≤ start := by
  induction fuel with
  | zero => intro start; simp [findRuneStart]
  | succ fuel ih =>
    intro start
    by_cases h : lim ≤ start
    · cases hr : runeStart (s.getD start.toNat 0) with
      | true => rw [findRuneStart_hit s lim fuel start h hr]
      | false =>
        rw [findRuneStart_miss s lim fuel start h hr]
        have := ih (start - 1)
        omega
    · rw [findRuneStart_lt s lim _ start (by omega)]

theorem decodeLastRune_ascii (u : Bytes) (hne : u ≠ [])
    (hc : (u.getD (u.length - 1) 0).toNat < 128) :
    decodeLastRune u = ((u.getD (u.length - 1) 0).toNat, 1) := by
  have h0 : ¬ u.length = 0 := by
    intro e
    exact hne (List.length_eq_zero.1 e)
  unfold decodeLastRune
  simp only [h0, RuneSelf, hc, if_false, if_true]

theorem decodeLastRune_at (u : Bytes) (start0 : Int) (hne : u ≠ [])
    (hc : 128 ≤ (u.getD (u.length - 1) 0).toNat)
    (hs : findRuneStart u (if u.length < UTFMax then 0 else (u.length : Int) - UTFMax) UTFMax
      ((u.length : Int) - 2) = start0) :
    decodeLastRune u =
      if start0.toNat + (decodeRune (u.drop start0.toNat)).2 ≠ u.length then (RuneError, 1)
      else decodeRune (u.drop start0.toNat) := by
  have h0 : ¬ u.length = 0 := by
    intro e
    exact hne (List.length_eq_zero.1 e)
  have hc' : ¬ (u.getD (u.length - 1) 0).toNat < 128 := by omega
  unfold decodeLastRune
  simp only [h0, RuneSelf, hc', if_false, hs]
  have e1 : (if start0 < 0 then 0 else start0.toNat) = start0.toNat := by
    split_ifs <;> omega
  rw [e1]
  rw [List.take_of_length_le (by rw [List.length_drop])]

theorem lead_cases (n : Nat) : n < 128 ∨ (128 ≤ n ∧ (n < 194 ∨ 244 < n)) ∨
    (194 ≤ n ∧ n < 224) ∨ (224 ≤ n ∧ n < 240) ∨ (240 ≤ n ∧ n ≤ 244) := by omega

theorem decodeRune_four (b0 b1 b2 b3 : UInt8) (t : Bytes)
    (h0 : 240 ≤ b0.toNat ∧ b0.toNat ≤ 244) :
    decodeRune (b0 :: b1 :: b2 :: b3 :: t) =
      if (if b0.toNat = 240 then 144 else 128) ≤ b1.toNat ∧
          b1.toNat ≤ (if b0.toNat = 244 then 143 else 191) ∧
          128 ≤ b2.toNat ∧ b2.toNat ≤ 191 ∧ 128 ≤ b3.toNat ∧ b3.toNat ≤ 191 then
        ((b0.toNat % 8) * 262144 + (b1.toNat % 64) * 4096 + (b2.toNat % 64) * 64
          + b3.toNat % 64, 4)
      else (RuneError, 1) := by
  have h1 : ¬ b0.toNat < 128 := by omega
  have h2 : ¬ (b0.toNat < 194 ∨ 244 < b0.toNat) := by omega
  have h3 : ¬ b0.toNat < 224 := by omega
  have h3' : ¬ b0.toNat < 240 := by omega
  have h6 : ¬ b0.toNat = 224 := by omega
  have h7 : ¬ b0.toNat = 237 := by omega
  have h42 : ¬ 4 ≤ 2 := by omega
  have h43 : ¬ 4 ≤ 3 := by omega
  simp only [decodeRune, RuneSelf, h1, h2, h3, h3', h6, h7, h42, h43, if_false,
    List.length_cons, List.length_nil]
  split_ifs <;> first | rfl | omega

theorem decodeRune_short4 (b0 : UInt8) (t : Bytes) (h0 : 240 ≤ b0.toNat) (ht : t.length < 3) :
    decodeRune (b0 :: t) = (RuneError, 1) := by
  have h1 : ¬ b0.toNat < 128 := by omega
  have h3 : ¬ b0.toNat < 224 := by omega
  have h3' : ¬ b0.toNat < 240 := by omega
  have hl : (b0 :: t).length < 4 := by
    rw [List.length_cons]
    omega
  simp only [decodeRune, RuneSelf, h1, h3, h3', if_false, hl, if_true]
  split_ifs <;> rfl

theorem decodeRune_take4 (b0 b1 b2 b3 : UInt8) (t : Bytes) :
    decodeRune (b0 :: b1 :: b2 :: b3 :: t) = decodeRune [b0, b1, b2, b3] := by
  rcases lead_cases b0.toNat with h | ⟨h, h'⟩ | h | h | h
  · rw [decodeRune_ascii b0 _ h, decodeRune_ascii b0 _ h]
  · rw [decodeRune_bad_lead b0 _ h h', decodeRune_bad_lead b0 _ h h']
  · rw [decodeRune_two b0 b1 _ h, decodeRune_two b0 b1 _ h]
  · rw [decodeRune_three b0 b1 b2 _ h, decodeRune_three b0 b1 b2 _ h]
  · rw [decodeRune_four b0 b1 b2 b3 _ h, decodeRune_four b0 b1 b2 b3 [] h]

theorem decodeRune_size_four (b0 b1 b2 b3 : UInt8) :
    (decodeRune [b0, b1, b2, b3]).2 ≤ 4 := by
  rcases lead_cases b0.toNat with h | ⟨h, h'⟩ | h | h | h
  · rw [decodeRune_ascii b0 _ h]
    simp
  · rw [decodeRune_bad_lead b0 _ h h']
    simp
  · rw [decodeRune_two b0 b1 _ h]
    split_ifs <;> simp
  · rw [decodeRune_three b0 b1 b2 _ h]
    split_ifs <;> simp
  · rw [decodeRune_four b0 b1 b2 b3 _ h]
    split_ifs <;> simp

theorem decodeRune_bad_second (b0 b1 : UInt8) (t : Bytes) (h0 : 128 ≤ b0.toNat)
    (h1 : b1.toNat < 128 ∨ 191 < b1.toNat) : decodeRune (b0 :: b1 :: t) = (RuneError, 1) := by
  rcases lead_cases b0.toNat with h | ⟨h, h'⟩ | h | h | h
  · omega
  · rw [decodeRune_bad_lead b0 _ h h']
  · rw [decodeRune_two b0 b1 _ h, if_neg (by omega)]
  · rcases t with _ | ⟨b2, t⟩
    · rw [decodeRune_pair_short b0 b1 h.1]
    · rw [decodeRune_three b0 b1 b2 _ h, if_neg]
      intro hc
      obtain ⟨c1, c2, -⟩ := hc
      split_ifs at c1 c2 <;> omega
  · rcases t with _ | ⟨b2, _ | ⟨b3, t⟩⟩
    · rw [decodeRune_short4 b0 _ h.1 (by simp)]
    · rw [decodeRune_short4 b0 _ h.1 (by simp)]
    · rw [decodeRune_four b0 b1 b2 b3 _ h, if_neg]
      intro hc
      obtain ⟨c1, c2, -⟩ := hc
      split_ifs at c1 c2 <;> omega

/-- Decoding a whole rune is not changed by what follows it, when that does not begin
with a continuation byte. -/
theorem decodeRune_append (v t : Bytes) (hv : v ≠ []) (hsz : (decodeRune v).2 = v.length)
    (ht : ∀ b ∈ t.head?, b.toNat < 128 ∨ 191 < b.toNat) :
    decodeRune (v ++ t) = decodeRune v := by
  rcases t with _ | ⟨t0, t⟩
  · rw [List.append_nil]
  have ht0 : t0.toNat < 128 ∨ 191 < t0.toNat := ht t0 (by simp)
  rcases v with _ | ⟨b0, _ | ⟨b1, _ | ⟨b2, _ | ⟨b3, v⟩⟩⟩⟩
  · exact absurd rfl hv
  · by_cases h : b0.toNat < 128
    · rw [List.singleton_append, decodeRune_ascii b0 _ h, decodeRune_ascii b0 _ h]
    · rw [List.singleton_append, decodeRune_bad_second b0 t0 t (by omega) ht0,
        decodeRune_single b0 (by omega)]
  · rcases lead_cases b0.toNat with h | ⟨h, h'⟩ | h | h | h
    · rw [decodeRune_ascii b0 _ h] at hsz
      simp at hsz
    · rw [decodeRune_bad_lead b0 _ h h'] at hsz
      simp at hsz
    · show decodeRune (b0 :: b1 :: (t0 :: t)) = _
      rw [decodeRune_two b0 b1 _ h, decodeRune_two b0 b1 _ h]
    · rw [decodeRune_pair_short b0 b1 h.1] at hsz
      simp at hsz
    · rw [decodeRune_short4 b0 _ h.1 (by simp)] at hsz
      simp at hsz
  · rcases lead_cases b0.toNat with h | ⟨h, h'⟩ | h | h | h
    · rw [decodeRune_ascii b0 _ h] at hsz
      simp at hsz
    · rw [decodeRune_bad_lead b0 _ h h'] at hsz
      simp at hsz
    · rw [decodeRune_two b0 b1 _ h] at hsz
      split_ifs at hsz <;> simp at hsz
    · show decodeRune (b0 :: b1 :: b2 :: (t0 :: t)) = _
      rw [decodeRune_three b0 b1 b2 _ h, decodeRune_three b0 b1 b2 _ h]
    · rw [decodeRune_short4 b0 _ h.1 (by simp)] at hsz
      simp at hsz
  · rw [decodeRune_take4] at hsz
    have := decodeRune_size_four b0 b1 b2 b3
    have hv0 : v = [] := by
      apply List.length_eq_zero.1
      simp only [List.length_cons] at hsz
      omega
    subst hv0
    show decodeRune (b0 :: b1 :: b2 :: b3 :: (t0 :: t)) = _
    rw [decodeRune_take4]

theorem decodeRune_size_pos (b : UInt8) (t : Bytes) : 1 ≤ (decodeRune (b :: t)).2 := by
  rcases lead_cases b.toNat with h | ⟨h, h'⟩ | h | h | h
  · rw [decodeRune_ascii b _ h]
  · rw [decodeRune_bad_lead b _ h h']
  · rcases t with _ | ⟨b1, t⟩
    · rw [decodeRune_single b (by omega)]
    · rw [decodeRune_two b b1 _ h]
      split_ifs <;> simp
  · rcases t with _ | ⟨b1, _ | ⟨b2, t⟩⟩
    · rw [decodeRune_single b (by omega)]
    · rw [decodeRune_pair_short b b1 h.1]
    · rw [decodeRune_three b b1 b2 _ h]
      split_ifs <;> simp
  · rcases t with _ | ⟨b1, _ | ⟨b2, _ | ⟨b3, t⟩⟩⟩
    · rw [decodeRune_short4 b _ h.1 (by simp)]
    · rw [decodeRune_short4 b _ h.1 (by simp)]
    · rw [decodeRune_short4 b _ h.1 (by simp)]
    · rw [decodeRune_four b b1 b2 b3 _ h]
      split_ifs <;> simp

theorem getD_length_append (p q : Bytes) (k : Nat) :
    (p ++ q).getD (p.length + k) 0 = q.getD k 0 := by
  rw [List.getD_append_right _ _ _ _ (Nat.le_add_right _ _), Nat.add_sub_cancel_left]

theorem decodeLastRune_one_byte (p : Bytes) (c : UInt8) (hc : c.toNat < 128) :
    decodeLastRune (p ++ [c]) = (c.toNat, 1) := by
  have hl : (p ++ [c]).getD ((p ++ [c]).length - 1) 0 = c := by
    rw [List.length_append, List.length_singleton, Nat.add_sub_cancel]
    exact getD_length_append p [c] 0
  rw [decodeLastRune_ascii _ (by simp) (by rw [hl]; exact hc), hl]

theorem decodeLastRune_gen (u : Bytes) (hne : u ≠ [])
    (hc : 128 ≤ (u.getD (u.length - 1) 0).toNat) :
    ∃ start, start < u.length ∧ decodeLastRune u =
      if start + (decodeRune (u.drop start)).2 ≠ u.length then (RuneError, 1)
      else decodeRune (u.drop start) := by
  have hpos : 0 < u.length := List.length_pos.2 hne
  refine ⟨(findRuneStart u (if u.length < UTFMax then 0 else (u.length : Int) - UTFMax) UTFMax
    ((u.length : Int) - 2)).toNat, ?_, decodeLastRune_at u _ hne hc rfl⟩
  have := findRuneStart_le u (if u.length < UTFMax then 0 else (u.length : Int) - UTFMax)
    UTFMax ((u.length : Int) - 2)
  omega

theorem decodeLastRune_two_bytes (p : Bytes) (a b : UInt8) (ha : runeStart a = true)
    (hb : 128 ≤ b.toNat) :
    decodeLastRune (p ++ [a, b]) =
      if (decodeRune [a, b]).2 ≠ 2 then (RuneError, 1) else decodeRune [a, b] := by
  have hlen : (p ++ [a, b]).length = p.length + 2 := by simp
  have hl : (p ++ [a, b]).getD ((p ++ [a, b]).length - 1) 0 = b := by
    rw [hlen]
    exact getD_length_append p [a, b] 1
  have e : (((p ++ [a, b]).length : Int) - 2) = (p.length : Int) := by
    rw [hlen]
    omega
  have hs : findRuneStart (p ++ [a, b])
      (if (p ++ [a, b]).length < UTFMax then 0 else ((p ++ [a, b]).length : Int) - UTFMax)
      UTFMax (((p ++ [a, b]).length : Int) - 2) = (p.length : Int) := by
    rw [e]
    apply findRuneStart_hit
    · unfold UTFMax
      split_ifs <;> omega
    · rw [Int.toNat_natCast]
      have := getD_length_append p [a, b] 0
      rw [Nat.add_zero] at this
      rw [this]
      exact ha
  rw [decodeLastRune_at _ _ (by simp) (by rw [hl]; exact hb) hs, Int.toNat_natCast,
    List.drop_left, hlen]
  by_cases h2 : (decodeRune [a, b]).2 = 2
  · rw [if_neg (by omega), if_neg (by omega)]
  · rw [if_pos (by omega), if_pos (by omega)]

theorem decodeLastRune_three_bytes (p : Bytes) (a b c : UInt8) (ha : runeStart a = true)
    (hb : runeStart b = false) (hc : 128 ≤ c.toNat) :
    decodeLastRune (p ++ [a, b, c]) =
      if (decodeRune [a, b, c]).2 ≠ 3 then (RuneError, 1) else decodeRune [a, b, c] := by
  have hlen : (p ++ [a, b, c]).length = p.length + 3 := by simp
  have hl : (p ++ [a, b, c]).getD ((p ++ [a, b, c]).length - 1) 0 = c := by
    rw [hlen]
    exact getD_length_append p [a, b, c] 2
  have e : (((p ++ [a, b, c]).length : Int) - 2) = ((p.length + 1 : Nat) : Int) := by
    rw [hlen]
    omega
  have e' : ((p.length + 1 : Nat) : Int) - 1 = (p.length : Int) := by omega
  have hs : findRuneStart (p ++ [a, b, c])
      (if (p ++ [a, b, c]).length < UTFMax then 0
        else ((p ++ [a, b, c]).length : Int) - UTFMax)
      UTFMax (((p ++ [a, b, c]).length : Int) - 2) = (p.length : Int) := by
    rw [e]
    unfold UTFMax
    rw [findRuneStart_miss, e']
    · apply findRuneStart_hit
      · split_ifs <;> omega
      · rw [Int.toNat_natCast]
        have := getD_length_append p [a, b, c] 0
        rw [Nat.add_zero] at this
        rw [this]
        exact ha
    · split_ifs <;> omega
    · rw [Int.toNat_natCast, getD_length_append p [a, b, c] 1]
      exact hb
  rw [decodeLastRune_at _ _ (by simp) (by rw [hl]; exact hc) hs, Int.toNat_natCast,
    List.drop_left, hlen]
  by_cases h2 : (decodeRune [a, b, c]).2 = 3
  · rw [if_neg (by omega), if_neg (by omega)]
  · rw [if_pos (by omega), if_pos (by omega)]

theorem suffix_one (p : Bytes) (c : UInt8) (hc : c.toNat < 128) (hs : isSpace c.toNat = true) :
    isSpace (decodeLastRune (p ++ [c])).1 = true ∧
      (decodeLastRune (p ++ [c])).2 = [c].length := by
  rw [decodeLastRune_one_byte p c hc]
  exact ⟨hs, rfl⟩

theorem suffix_two (p : Bytes) (a b : UInt8) (ha : runeStart a = true) (hb : 128 ≤ b.toNat)
    (h2 : (decodeRune [a, b]).2 = 2) (hs : isSpace (decodeRune [a, b]).1 = true) :
    isSpace (decodeLastRune (p ++ [a, b])).1 = true ∧
      (decodeLastRune (p ++ [a, b])).2 = [a, b].length := by
  rw [decodeLastRune_two_bytes p a b ha hb, if_neg (by omega)]
  exact ⟨hs, h2⟩

theorem suffix_three (p : Bytes) (a b c : UInt8) (ha : runeStart a = true)
    (hb : runeStart b = false) (hc : 128 ≤ c.toNat)
    (h3 : (decodeRune [a, b, c]).2 = 3) (hs : isSpace (decodeRune [a, b, c]).1 = true) :
    isSpace (decodeLastRune (p ++ [a, b, c])).1 = true ∧
      (decodeLastRune (p ++ [a, b, c])).2 = [a, b, c].length := by
  rw [decodeLastRune_three_bytes p a b c ha hb hc, if_neg (by omega)]
  exact ⟨hs, h3⟩

/-- An encoding of a white space character at the end is decoded as a space. -/
theorem isSpace_decodeLastRune_of_encoding (p w : Bytes) (hw : w ∈ whiteSpaceEncodings) :
    isSpace (decodeLastRune (p ++ w)).1 = true ∧ (decodeLastRune (p ++ w)).2 = w.length := by
  simp only [whiteSpaceEncodings, List.mem_cons, List.mem_singleton, List.not_mem_nil,
    or_false] at hw
  rcases hw with h|h|h|h|h|h|h|h|h|h|h|h|h|h|h|h|h|h|h|h|h|h|h|h|h <;> subst h <;>
    first
      | exact suffix_one p _ (by decide) (by decide)
      | exact suffix_two p _ _ (by decide) (by decide) (by decide) (by decide)
      | exact suffix_three p _ _ _ (by decide) (by decide) (by decide) (by decide) (by decide)

/-- A space decoded at the end is an encoding of a white space character. -/
theorem encoding_of_isSpace_decodeLastRune (u : Bytes)
    (h : isSpace (decodeLastRune u).1 = true) :
    ∃ p w, w ∈ whiteSpaceEncodings ∧ u = p ++ w ∧ (decodeLastRune u).2 = w.length := by
  rcases List.eq_nil_or_concat u with rfl | ⟨p, c, rfl⟩
  · exact absurd h (by decide)
  · rw [List.concat_eq_append] at h ⊢
    by_cases hc : c.toNat < 128
    · rw [decodeLastRune_one_byte p c hc] at h ⊢
      have hs := isSpace_ascii _ hc h
      refine ⟨p, [c], ?_, rfl, rfl⟩
      rcases hs with e | e | e | e | e | e <;>
        rw [byte_eq_of_toNat c _ (by omega) e] <;> decide
    · have hl : (p ++ [c]).getD ((p ++ [c]).length - 1) 0 = c := by
        rw [List.length_append, List.length_singleton, Nat.add_sub_cancel]
        exact getD_length_append p [c] 0
      obtain ⟨start, hlt, he⟩ := decodeLastRune_gen (p ++ [c]) (by simp)
        (by rw [hl]; omega)
      rw [he] at h ⊢
      by_cases hcond : start + (decodeRune ((p ++ [c]).drop start)).2 ≠ (p ++ [c]).length
      · rw [if_pos hcond] at h
        exact absurd h (by decide)
      · rw [if_neg hcond] at h ⊢
        obtain ⟨w, t, hw, hd, hsz⟩ := encoding_of_isSpace_decodeRune _ h
        have hlen : ((p ++ [c]).drop start).length = w.length + t.length := by
          rw [hd, List.length_append]
        rw [List.length_drop] at hlen
        have ht : t = [] := List.length_eq_zero.1 (by omega)
        subst ht
        rw [List.append_nil] at hd
        refine ⟨(p ++ [c]).take start, w, hw, ?_, hsz⟩
        rw [← hd, List.take_append_drop]

theorem not_trailing_of_not_space (u : Bytes) (h : isSpace (decodeLastRune u).1 = false) :
    ∀ w ∈ whiteSpaceEncodings, ¬ w <:+ u := by
  intro w hw hs
  obtain ⟨p, rfl⟩ := hs
  rw [(isSpace_decodeLastRune_of_encoding p w hw).1] at h
  cases h

theorem getD_of_drop (x : Bytes) (n : Nat) (b : UInt8) (v : Bytes) (h : x.drop n = b :: v) :
    x.getD n 0 = b := by
  have hx : x = x.take n ++ b :: v := by rw [← h, List.take_append_drop]
  have hn : (x.take n).length = n := by
    rw [List.length_take]
    have : (x.drop n).length = v.length + 1 := by rw [h, List.length_cons]
    rw [List.length_drop] at this
    omega
  have := getD_length_append (x.take n) (b :: v) 0
  rw [← hx, hn, Nat.add_zero] at this
  rw [this]
  rfl

/-- The end computed by `TrimRightFunc` from the start of the last rune is the end of the
text the rune was decoded from, when what follows does not begin with a continuation
byte. -/
theorem decodeLastRune_width (u t : Bytes) (hne : u ≠ [])
    (ht : ∀ b ∈ t.head?, b.toNat < 128 ∨ 191 < b.toNat) :
    (decodeLastRune u).2 ≤ u.length ∧
    (if ((u ++ t).getD (u.length - (decodeLastRune u).2) 0).toNat ≥ RuneSelf then
        (u.length - (decodeLastRune u).2)
          + (decodeRune ((u ++ t).drop (u.length - (decodeLastRune u).2))).2
      else u.length - (decodeLastRune u).2 + 1) = u.length := by
  rcases List.eq_nil_or_concat u with rfl | ⟨p, c, rfl⟩
  · exact absurd rfl hne
  rw [List.concat_eq_append]
  have hlen : (p ++ [c]).length = p.length + 1 := by simp
  by_cases hc : c.toNat < 128
  · rw [decodeLastRune_one_byte p c hc, hlen]
    simp only [Nat.add_sub_cancel]
    have hg : (p ++ [c] ++ t).getD p.length 0 = c := by
      rw [List.append_assoc]
      have := getD_length_append p ([c] ++ t) 0
      rw [Nat.add_zero] at this
      rw [this]
      rfl
    rw [hg, if_neg (by unfold RuneSelf; omega)]
    exact ⟨by omega, rfl⟩
  · have hl : (p ++ [c]).getD ((p ++ [c]).length - 1) 0 = c := by
      rw [hlen, Nat.add_sub_cancel]
      exact getD_length_append p [c] 0
    obtain ⟨start, hlt, he⟩ := decodeLastRune_gen (p ++ [c]) (by simp) (by rw [hl]; omega)
    rw [he]
    by_cases hcond : start + (decodeRune ((p ++ [c]).drop start)).2 ≠ (p ++ [c]).length
    · rw [if_pos hcond, hlen]
      simp only [Nat.add_sub_cancel]
      have hg : (p ++ [c] ++ t).getD p.length 0 = c := by
        rw [List.append_assoc]
        have := getD_length_append p ([c] ++ t) 0
        rw [Nat.add_zero] at this
        rw [this]
        rfl
      have hd : (p ++ [c] ++ t).drop p.length = [c] ++ t := by
        rw [List.append_assoc, List.drop_left]
      rw [hg, if_pos (by unfold RuneSelf; omega), hd,
        decodeRune_append [c] t (by simp) (by rw [decodeRune_single c (by omega)]; rfl) ht,
        decodeRune_single c (by omega)]
      exact ⟨by omega, rfl⟩
    · rw [if_neg hcond]
      have hsum : start + (decodeRune ((p ++ [c]).drop start)).2 = (p ++ [c]).length := by
        omega
      have hsub : (p ++ [c]).length - (decodeRune ((p ++ [c]).drop start)).2 = start := by
        omega
      rw [hsub]
      have hvl : ((p ++ [c]).drop start).length
          = (decodeRune ((p ++ [c]).drop start)).2 := by
        rw [List.length_drop]
        omega
      have hd : (p ++ [c] ++ t).drop start = (p ++ [c]).drop start ++ t :=
        List.drop_append_of_le_length (by omega)
      obtain ⟨b0, v, hv⟩ : ∃ b0 v, (p ++ [c]).drop start = b0 :: v := by
        rcases hv : (p ++ [c]).drop start with _ | ⟨b0, v⟩
        · have := List.drop_eq_nil_iff.1 hv
          omega
        · exact ⟨b0, v, rfl⟩
      have hg : (p ++ [c] ++ t).getD start 0 = b0 :=
        getD_of_drop _ start b0 (v ++ t) (by rw [hd, hv]; rfl)
      rw [hg, hd, hv]
      rw [hv] at hvl hsum
      refine ⟨by omega, ?_⟩
      by_cases hb : b0.toNat < 128
      · rw [if_neg (by unfold RuneSelf; omega)]
        rw [decodeRune_ascii b0 v hb] at hsum
        exact hsum
      · rw [if_pos (by unfold RuneSelf; omega),
          decodeRune_append (b0 :: v) t (by simp) hvl.symm ht]
        exact hsum

theorem wse_head : ∀ w ∈ whiteSpaceEncodings,
    (w.headD 0).toNat < 128 ∨ 191 < (w.headD 0).toNat := by decide

theorem Spaces_head (t : Bytes) (ht : Spaces t) :
    ∀ b ∈ t.head?, b.toNat < 128 ∨ 191 < b.toNat := by
  obtain ⟨ws, hws, rfl⟩ := ht
  rcases ws with _ | ⟨w, ws⟩
  · intro b hb
    simp at hb
  · have hw := hws w (by simp)
    have h1 := wse_head w hw
    have h2 := wse_ne_nil w hw
    rcases w with _ | ⟨b0, v⟩
    · exact absurd rfl h2
    · intro b hb
      simp only [List.flatten_cons, List.cons_append, List.head?_cons, Option.mem_def,
        Option.some.injEq] at hb
      subst hb
      exact h1

theorem lastIndexFuncFrom_succ (s : Bytes) (f : Nat → Bool) (truth : Bool) (fuel i : Nat)
    (hi : i ≠ 0) :
    lastIndexFuncFrom s f truth (fuel + 1) i =
      if f (decodeLastRune (s.take i)).1 == truth then
        some (i - (decodeLastRune (s.take i)).2)
      else lastIndexFuncFrom s f truth fuel (i - (decodeLastRune (s.take i)).2) := by
  rw [lastIndexFuncFrom, if_neg hi]

theorem lastIndexFuncFrom_spec (s : Bytes) (fuel : Nat) : ∀ i, i ≤ fuel → i ≤ s.length →
    (lastIndexFuncFrom s isSpace false fuel i = none ∧ Spaces (s.take i)) ∨
    (∃ j, 0 < j ∧ j ≤ i ∧ Spaces ((s.take i).drop j) ∧
      isSpace (decodeLastRune (s.take j)).1 = false ∧
      lastIndexFuncFrom s isSpace false fuel i = some (j - (decodeLastRune (s.take j)).2)) := by
  induction fuel with
  | zero =>
    intro i hi _
    have : i = 0 := by omega
    subst this
    exact Or.inl ⟨rfl, by rw [List.take_zero]; exact Spaces_nil⟩
  | succ fuel ih =>
    intro i hi his
    by_cases h0 : i = 0
    · subst h0
      refine Or.inl ⟨?_, by rw [List.take_zero]; exact Spaces_nil⟩
      rw [lastIndexFuncFrom, if_pos rfl]
    · rw [lastIndexFuncFrom_succ s isSpace false fuel i h0]
      cases hsp : isSpace (decodeLastRune (s.take i)).1 with
      | false =>
        refine Or.inr ⟨i, by omega, Nat.le_refl _, ?_, hsp, ?_⟩
        · rw [List.drop_eq_nil_iff.2 (by rw [List.length_take]; omega)]
          exact Spaces_nil
        · simp
      | true =>
        obtain ⟨p, w, hw, hpw, hsz⟩ := encoding_of_isSpace_decodeLastRune _ hsp
        have hpos := wse_length_pos w hw
        have hlen : i = p.length + w.length := by
          have := congrArg List.length hpw
          rw [List.length_take, List.length_append] at this
          omega
        have hp : s.take p.length = p := by
          have : s.take p.length = (s.take i).take p.length := by
            rw [List.take_take, Nat.min_eq_left (by omega)]
          rw [this, hpw, List.take_left]
        rw [hsz]
        simp only [Bool.true_eq_false, beq_iff_eq, if_false]
        have hsub : i - w.length = p.length := by omega
        rw [hsub]
        rcases ih p.length (by omega) (by omega) with ⟨h1, h2⟩ | ⟨j, h1, h2, h3, h4, h5⟩
        · refine Or.inl ⟨h1, ?_⟩
          rw [hpw]
          rw [hp] at h2
          exact Spaces_append p w h2 (Spaces_of_mem w hw)
        · refine Or.inr ⟨j, h1, by omega, ?_, h4, h5⟩
          rw [hpw, List.drop_append_of_le_length h2]
          rw [hp] at h3
          exact Spaces_append _ w h3 (Spaces_of_mem w hw)

theorem trimRightFunc_spec (s : Bytes) :
    ∃ r, s = trimRightFunc s isSpace ++ r ∧ Spaces r ∧
      (∀ w ∈ whiteSpaceEncodings, ¬ w <:+ trimRightFunc s isSpace) := by
  unfold trimRightFunc lastIndexFunc
  rcases lastIndexFuncFrom_spec s s.length s.length (Nat.le_refl _) (Nat.le_refl _) with
    ⟨h1, h2⟩ | ⟨j, h1, h2, h3, h4, h5⟩
  · rw [h1]
    rw [List.take_length] at h2
    refine ⟨s, by simp, h2, ?_⟩
    intro w hw hs
    simp only [List.take_zero, List.suffix_nil] at hs
    exact wse_ne_nil w hw hs
  · rw [h5]
    rw [List.take_length] at h3
    have hu : (s.take j).length = j := by
      rw [List.length_take]
      omega
    have hne : s.take j ≠ [] := by
      intro e
      rw [e] at hu
      simp at hu
      omega
    have hw := decodeLastRune_width (s.take j) (s.drop j) hne (Spaces_head _ h3)
    rw [List.take_append_drop, hu] at hw
    have key : (if (s.getD (j - (decodeLastRune (s.take j)).2) 0).toNat ≥ RuneSelf then
          s.take ((j - (decodeLastRune (s.take j)).2)
            + (decodeRune (s.drop (j - (decodeLastRune (s.take j)).2))).2)
        else s.take (j - (decodeLastRune (s.take j)).2 + 1)) = s.take j := by
      have hw2 := hw.2
      by_cases hcond : (s.getD (j - (decodeLastRune (s.take j)).2) 0).toNat ≥ RuneSelf
      · rw [if_pos hcond] at hw2 ⊢
        rw [hw2]
      · rw [if_neg hcond] at hw2 ⊢
        rw [hw2]
    simp only [key]
    refine ⟨s.drop j, (List.take_append_drop j s).symm, h3, ?_⟩
    exact not_trailing_of_not_space _ h4

theorem wse_first : ∀ w ∈ whiteSpaceEncodings,
    asciiSpace (w.headD 0) = true ∨ 128 ≤ (w.headD 0).toNat := by decide

theorem wse_last : ∀ w ∈ whiteSpaceEncodings,
    asciiSpace (w.getLastD 0) = true ∨ 128 ≤ (w.getLastD 0).toNat := by decide

theorem asciiSpace_mem (c : UInt8) (h : asciiSpace c = true) : [c] ∈ whiteSpaceEncodings := by
  simp only [asciiSpace, decide_eq_true_eq] at h
  rcases h with e | e | e | e | e | e <;> subst e <;> decide

theorem trimFunc_trimmed (s : Bytes) : Trimmed s (trimFunc s isSpace) := by
  unfold trimFunc
  obtain ⟨l, hl1, hl2, hl3⟩ := trimLeftFunc_spec s
  generalize trimLeftFunc s isSpace = m at hl1 hl3 ⊢
  obtain ⟨r, hr1, hr2, hr3⟩ := trimRightFunc_spec m
  generalize trimRightFunc m isSpace = res at hr1 hr3 ⊢
  refine ⟨l, r, ?_, hl2, hr2, ?_, hr3⟩
  · rw [List.append_assoc, ← hr1]
    exact hl1
  · intro w hw hp
    exact not_leading_of_not_space m hl3 w hw (hp.trans ⟨r, hr1.symm⟩)

theorem trimSpaceStop_spec (rv : Bytes) :
    ∃ r, rv.reverse = trimSpaceStop rv ++ r ∧ Spaces r ∧
      (∀ w ∈ whiteSpaceEncodings, ¬ w <:+ trimSpaceStop rv) := by
  induction rv with
  | nil =>
    refine ⟨[], rfl, Spaces_nil, ?_⟩
    intro w hw hs
    rw [trimSpaceStop, List.suffix_nil] at hs
    exact wse_ne_nil w hw hs
  | cons c rv ih =>
    rw [trimSpaceStop]
    by_cases h1 : c.toNat ≥ RuneSelf
    · rw [if_pos h1]
      exact trimRightFunc_spec _
    · rw [if_neg h1]
      by_cases h2 : asciiSpace c = true
      · rw [if_pos h2]
        obtain ⟨r, hr1, hr2, hr3⟩ := ih
        refine ⟨r ++ [c], ?_, Spaces_append r [c] hr2 (Spaces_of_mem _ (asciiSpace_mem c h2)),
          hr3⟩
        rw [List.reverse_cons, hr1, List.append_assoc]
      · rw [if_neg h2]
        refine ⟨[], by simp, Spaces_nil, ?_⟩
        intro w hw hs
        rcases List.eq_nil_or_concat w with e | ⟨w', x, e⟩
        · exact wse_ne_nil w hw e
        · subst e
          have hl := wse_last _ hw
          rw [List.concat_eq_append] at hs hl
          obtain ⟨q, hq⟩ := hs
          rw [List.reverse_cons, ← List.append_assoc] at hq
          have hx : x = c := by
            have := (List.append_inj' hq rfl).2
            simpa using this
          subst hx
          rw [List.getLastD_concat] at hl
          unfold RuneSelf at h1
          rcases hl with hl | hl
          · exact h2 hl
          · omega

theorem trimSpace_trimmed (s : Bytes) : Trimmed s (trimSpace s) := by
  induction s with
  | nil =>
    refine ⟨[], [], rfl, Spaces_nil, Spaces_nil, ?_, ?_⟩
    · intro w hw hp
      rw [trimSpace] at hp
      obtain ⟨t, ht⟩ := hp
      exact wse_ne_nil w hw (List.append_eq_nil.1 ht).1
    · intro w hw hp
      rw [trimSpace, List.suffix_nil] at hp
      exact wse_ne_nil w hw hp
  | cons c s ih =>
    rw [trimSpace]
    by_cases h1 : c.toNat ≥ RuneSelf
    · rw [if_pos h1]
      exact trimFunc_trimmed _
    · rw [if_neg h1]
      by_cases h2 : asciiSpace c = true
      · rw [if_pos h2]
        obtain ⟨l, r, h3, h4, h5, h6, h7⟩ := ih
        refine ⟨[c] ++ l, r, ?_, Spaces_append [c] l (Spaces_of_mem _ (asciiSpace_mem c h2)) h4,
          h5, h6, h7⟩
        rw [List.append_assoc, List.append_assoc, ← List.append_assoc l, ← h3]
        rfl
      · rw [if_neg h2]
        obtain ⟨r, hr1, hr2, hr3⟩ := trimSpaceStop_spec (c :: s).reverse
        rw [List.reverse_reverse] at hr1
        refine ⟨[], r, by rw [List.nil_append]; exact hr1, Spaces_nil, hr2, ?_, hr3⟩
        intro w hw hp
        have hp' : w <+: c :: s := hp.trans ⟨r, hr1.symm⟩
        have hf := wse_first w hw
        rcases w with _ | ⟨b, v⟩
        · exact wse_ne_nil _ hw rfl
        · obtain ⟨q, hq⟩ := hp'
          have hb : b = c := by
            have := List.head_eq_of_cons_eq hq
            exact this
          subst hb
          unfold RuneSelf at h1
          rcases hf with hf | hf
          · exact h2 hf
          · simp only [List.headD_cons] at hf
            omega

/-! ## The directive scan: leading block, malformed lines, stored pairs -/

/-- C1: the attribute mapping of a rendered output is the mapping the scan extracts from
its maximal leading run of marker lines alone (also when that run is taken as an output of
its own), so no line at or after the first line without the marker contributes a key; on
the output `# Attribute: filename=a.txt\nhello\n# Attribute: userinfo-url=http://x\n`
the mapping is exactly `filename -> a.txt` and has no key `userinfo-url`. -/
theorem C1_only_leading_run_contributes :
    (∀ rendered : Bytes, extractAttributes rendered = scanLines [] (leadingRun rendered)) ∧
    (∀ rendered : Bytes,
      extractAttributes (join newline (leadingRun rendered)) = extractAttributes rendered) ∧
    extractAttributes
        (str "# Attribute: filename=a.txt\nhello\n# Attribute: userinfo-url=http://x\n")
      = [(str "filename", str "a.txt")] ∧
    mapGet (extractAttributes
        (str "# Attribute: filename=a.txt\nhello\n# Attribute: userinfo-url=http://x\n"))
      (str "userinfo-url") = none := by
  have h1 : ∀ rendered : Bytes,
      extractAttributes rendered = scanLines [] (leadingRun rendered) := fun rendered =>
    scanLines_takeWhile [] (split newline rendered)
  refine ⟨h1, ?_, by decide, by decide⟩
  intro rendered
  rw [h1 rendered]
  by_cases hrun : leadingRun rendered = []
  · rw [hrun]
    decide
  · have hsep : ∀ l ∈ leadingRun rendered, newline ∉ l := fun l hl =>
      split_no_sep newline rendered l (List.takeWhile_subset _ hl)
    unfold extractAttributes
    rw [split_join newline (leadingRun rendered) hrun hsep]

/-- C2: a line of a rendered output that begins with the marker and has no `=` after it
is skipped without ending the scan: the attribute mapping is the one the scan gives on
the lines with that line deleted, every output whose lines are those remaining lines has
the same mapping, and a well-formed directive line that follows it in the leading block
is still stored. -/
theorem C2_malformed_directive_skipped (rendered : Bytes) (pre post : List Bytes)
    (r : Bytes) (hr : eqSign ∉ r)
    (h : split newline rendered = pre ++ (marker ++ r) :: post) :
    extractAttributes rendered = scanLines [] (pre ++ post) ∧
    (∀ rendered2 : Bytes, split newline rendered2 = pre ++ post →
      extractAttributes rendered2 = extractAttributes rendered) ∧
    (∀ (a b : Bytes) (post2 : List Bytes), (∀ l ∈ pre, hasPrefix l marker = true) →
      eqSign ∉ a → post = (marker ++ (a ++ eqSign :: b)) :: post2 →
      extractAttributes rendered
        = scanLines (mapSet (scanLines [] pre) (trimSpace a) (trimSpace b)) post2) := by
  have h1 : extractAttributes rendered = scanLines [] (pre ++ post) := by
    unfold extractAttributes
    rw [h, scanLines_skip [] pre post r hr]
  refine ⟨h1, ?_, ?_⟩
  · intro rendered2 h2
    rw [h1]
    unfold extractAttributes
    rw [h2]
  · intro a b post2 hpre ha hpost
    rw [h1, hpost, scanLines_append [] pre _ hpre, scanLines_store _ a b post2 ha]

/-- C2 at the output `# Attribute: junk\n# Attribute: k=v`: the first line is skipped and
the second is stored. -/
theorem C2_malformed_directive_skipped_witness :
    extractAttributes (str "# Attribute: junk\n# Attribute: k=v")
      = scanLines [] ([] ++ [str "# Attribute: k=v"]) ∧
    extractAttributes (str "# Attribute: junk\n# Attribute: k=v") = [(str "k", str "v")] :=
  ⟨(C2_malformed_directive_skipped (str "# Attribute: junk\n# Attribute: k=v") []
      [str "# Attribute: k=v"] (str "junk") (by decide) (by decide)).1, by decide⟩

/-- C8: when a line of the leading block of a rendered output is the marker followed by
`a`, `=` and `b`, with no `=` in `a` (so `a` is the text before the first `=` and `b` all
the text after it, further `=` included), the scan stores at that line the key
`trimSpace a` with the value `trimSpace b`, and goes on with the lines after it.  The
stored key and value are `a` and `b` without their leading and trailing Unicode white
space: each of `a` and `b` is a run of encoded white space characters, then the stored
text, then a run of encoded white space characters, and the stored text neither begins
nor ends with an encoded white space character.  As an example, on a text that begins and
ends with every white space character in turn, around `U+200B k = U+0084` (two characters
that are no white space), exactly the white space is removed. -/
theorem C8_directive_key_and_value (rendered : Bytes) (pre post : List Bytes) (a b : Bytes)
    (hpre : ∀ l ∈ pre, hasPrefix l marker = true) (ha : eqSign ∉ a)
    (h : split newline rendered = pre ++ (marker ++ (a ++ eqSign :: b)) :: post) :
    extractAttributes rendered
      = scanLines (mapSet (scanLines [] pre) (trimSpace a) (trimSpace b)) post ∧
    mapGet (mapSet (scanLines [] pre) (trimSpace a) (trimSpace b)) (trimSpace a)
      = some (trimSpace b) ∧
    Trimmed a (trimSpace a) ∧ Trimmed b (trimSpace b) ∧
    trimSpace (str ("\t\n\x0b\x0c\r \u0085\u00a0\u1680\u2000\u2001\u2002\u2003"
        ++ "\u2004\u2005\u2006\u2007\u2008\u2009\u200a\u2028\u2029\u202f\u205f\u3000"
        ++ "\u200bk=\u0084"
        ++ "\t\n\x0b\x0c\r \u0085\u00a0\u1680\u2000\u2001\u2002\u2003"
        ++ "\u2004\u2005\u2006\u2007\u2008\u2009\u200a\u2028\u2029\u202f\u205f\u3000"))
      = str "\u200bk=\u0084" := by
  refine ⟨?_, ?_, trimSpace_trimmed a, trimSpace_trimmed b, ?_⟩
  · unfold extractAttributes
    rw [h, scanLines_append [] pre _ hpre, scanLines_store _ a b post ha]
  · simp [mapGet_mapSet]
  · set_option maxRecDepth 100000 in decide

/-- C8 at the output whose second line is the marker, then the key `ké y` between an
ideographic space (U+3000), a space, and a no-break space (U+00A0), a space, then `=`,
then the value `a=b é` between an em space (U+2003) and U+3000, a space: the line stores
the key `ké y` with the value `a=b é`. -/
theorem C8_directive_key_and_value_witness :
    extractAttributes
        (str "# Attribute: x=1\n# Attribute: \u3000 k\u00e9 y\u00a0 =\u2003a=b \u00e9\u3000 \nrest")
      = scanLines (mapSet (scanLines [] [str "# Attribute: x=1"])
          (trimSpace (str "\u3000 k\u00e9 y\u00a0 ")) (trimSpace (str "\u2003a=b \u00e9\u3000 ")))
          [str "rest"] ∧
    extractAttributes
        (str "# Attribute: x=1\n# Attribute: \u3000 k\u00e9 y\u00a0 =\u2003a=b \u00e9\u3000 \nrest")
      = [(str "x", str "1"), (str "k\u00e9 y", str "a=b \u00e9")] :=
  ⟨(C8_directive_key_and_value
      (str "# Attribute: x=1\n# Attribute: \u3000 k\u00e9 y\u00a0 =\u2003a=b \u00e9\u3000 \nrest")
      [str "# Attribute: x=1"] [str "rest"] (str "\u3000 k\u00e9 y\u00a0 ")
      (str "\u2003a=b \u00e9\u3000 ") (by decide) (by decide) (by decide)).1, by decide⟩

/-- C9: for every rendered output and key `k`, the attribute mapping holds for `k` the
trimmed value of the last well-formed line of the leading directive block whose trimmed
key is `k`, and has no entry for `k` when there is no such line. -/
theorem C9_last_directive_wins (rendered : Bytes) (k : Bytes) :
    mapGet (extractAttributes rendered) k = lastValue (leadingDirectives rendered) k := by
  unfold extractAttributes leadingDirectives leadingRun
  rw [mapGet_scanLines]
  cases lastValue (List.filterMap directiveOf
    (List.takeWhile (fun line => hasPrefix line marker) (split newline rendered))) k <;> rfl

/-! ## The variable mapping -/

theorem valuesLookup_of_not_mem (queries : Values) (k : Bytes)
    (h : k ∉ queries.map Prod.fst) : valuesLookup queries k = [] := by
  induction queries with
  | nil => rfl
  | cons e rest ih =>
    obtain ⟨k1, v1⟩ := e
    have h1 : k1 ≠ k := fun e => h (by simp [e])
    have h2 : k ∉ rest.map Prod.fst := fun e => h (by simp [e])
    simp [valuesLookup, h1, ih h2]

theorem getLast?_cons_getLastD (x : Bytes) (xs : List Bytes) :
    (x :: xs).getLast? = some ((x :: xs).getLastD []) := by
  rw [List.getLast?_eq_getLast (x :: xs) (by simp)]
  simp [List.getLastD_eq_getLast?, List.getLast?_eq_getLast]

theorem buildValues_cons_nil (k : Bytes) (rest : Values) (values : GoMap) :
    buildValues ((k, []) :: rest) values = buildValues rest values := by
  simp [buildValues]

theorem buildValues_cons_cons (k x : Bytes) (xs : List Bytes) (rest : Values)
    (values : GoMap) :
    buildValues ((k, x :: xs) :: rest) values
      = buildValues rest (mapSet values k ((x :: xs).getLastD [])) := by
  simp [buildValues]

theorem mapGet_buildValues (queries : Values) (values : GoMap) (k : Bytes)
    (hq : (queries.map Prod.fst).Nodup) :
    mapGet (buildValues queries values) k =
      match (valuesLookup queries k).getLast? with
      | some v => some v
      | none => mapGet values k := by
  induction queries generalizing values with
  | nil => simp [buildValues, valuesLookup]
  | cons e rest ih =>
    obtain ⟨k1, v1⟩ := e
    have hnd : k1 ∉ rest.map Prod.fst ∧ (rest.map Prod.fst).Nodup := by
      simpa [List.nodup_cons] using hq
    by_cases hk : k1 = k
    · subst hk
      have hrest : valuesLookup rest k1 = [] := valuesLookup_of_not_mem rest k1 hnd.1
      have hl : valuesLookup ((k1, v1) :: rest) k1 = v1 := by simp [valuesLookup]
      rw [hl]
      cases v1 with
      | nil =>
        rw [buildValues_cons_nil, ih _ hnd.2, hrest]
      | cons x xs =>
        rw [buildValues_cons_cons, ih _ hnd.2, hrest, getLast?_cons_getLastD x xs]
        simp [mapGet_mapSet]
    · have hl : valuesLookup ((k1, v1) :: rest) k = valuesLookup rest k := by
        simp [valuesLookup, hk]
      rw [hl]
      cases v1 with
      | nil => rw [buildValues_cons_nil, ih _ hnd.2]
      | cons x xs =>
        rw [buildValues_cons_cons, ih _ hnd.2, mapGet_mapSet, if_neg hk]

/-- C7: for every query multimap (a Go map, so no key occurs twice; the entries may come
in any order, as they do when Go ranges over the map), the variable mapping holds for each
key the last value supplied for it, and has a key exactly when the multimap carries at
least one value for it. -/
theorem C7_last_query_value_wins (queries : Values) (hq : (queries.map Prod.fst).Nodup)
    (k : Bytes) :
    mapGet (variableMapping queries) k = (valuesLookup queries k).getLast? ∧
    (mapGet (variableMapping queries) k = none ↔ valuesLookup queries k = []) := by
  have h : mapGet (variableMapping queries) k = (valuesLookup queries k).getLast? := by
    unfold variableMapping
    rw [mapGet_buildValues queries [] k hq]
    cases (valuesLookup queries k).getLast? <;> rfl
  refine ⟨h, ?_⟩
  rw [h]
  exact List.getLast?_eq_none_iff

/-- C7 on the query `v=1&v=2`, gathered pair by pair: the variable mapping is exactly
`v -> 2`. -/
theorem C7_last_query_value_wins_witness :
    mapGet (variableMapping (valuesAdd (valuesAdd [] (str "v") (str "1")) (str "v") (str "2")))
      (str "v") = some (str "2") ∧
    variableMapping (valuesAdd (valuesAdd [] (str "v") (str "1")) (str "v") (str "2"))
      = [(str "v", str "2")] :=
  ⟨((C7_last_query_value_wins
      (valuesAdd (valuesAdd [] (str "v") (str "1")) (str "v") (str "2")) (by decide)
      (str "v")).1).trans (by decide), by decide⟩

/-! ## The GET branch: scheme check, whitelist, fetch -/

theorem whitelistHas_iff (host : Bytes) :
    whitelistHas host = true ↔
      host = str "raw.githubusercontent.com" ∨ host = str "gist.githubusercontent.com" := by
  unfold whitelistHas whitelist
  simp only [List.find?]
  by_cases h1 : str "raw.githubusercontent.com" = host
  · simp [h1]
  · by_cases h2 : str "gist.githubusercontent.com" = host
    · simp [h1, h2]
    · have h1b : ¬ host = str "raw.githubusercontent.com" := fun e => h1 e.symm
      have h2b : ¬ host = str "gist.githubusercontent.com" := fun e => h2 e.symm
      simp [h1, h2, h1b, h2b]

theorem render_events {P : Type} (env : Env P) (parser : P) (queries : Values)
    (events : List Event) (text : Bytes) (url : Bytes)
    (h : Event.get url ∈ (render env parser queries events text).events) :
    Event.get url ∈ events := by
  unfold render at h
  split at h
  · simpa using h
  · rename_i executor heq
    dsimp only at h
    split at h
    · simpa using h
    · rename_i rendered hexec
      simp only [List.mem_append, List.mem_cons, List.mem_singleton, List.not_mem_nil,
        or_false, reduceCtorEq] at h
      rcases h with h | h
      · exact h
      · exfalso
        unfold compose at h
        dsimp only at h
        split at h
        · split at h
          · split at h <;> simp at h
          · simp at h
        · simp at h

theorem handler_get_fetch {P : Type} (env : Env P) (parser : P) (request : Request)
    (hget : request.method = str "GET") (url : Bytes)
    (h : Event.get url ∈ (handler env parser request).events) :
    valuesGet request.queries (str "template") ≠ [] ∧
    ∃ u, env.urlParse (valuesGet request.queries (str "template")) = .ok u ∧
      (u.Scheme = str "http" ∨ u.Scheme = str "https") ∧
      whitelistHas u.Host = true ∧ url = env.urlString u := by
  by_cases hu : valuesGet request.queries (str "template") = []
  · simp [handler, hget, hu] at h
  · refine ⟨hu, ?_⟩
    cases hp : env.urlParse (valuesGet request.queries (str "template")) with
    | error e => simp [handler, hget, hu, hp] at h
    | ok u =>
      by_cases hs : u.Scheme ≠ str "http" ∧ u.Scheme ≠ str "https"
      · simp [handler, hget, hu, hp, hs] at h
      · have hs2 : u.Scheme = str "http" ∨ u.Scheme = str "https" := by
          by_cases h1 : u.Scheme = str "http"
          · exact Or.inl h1
          · by_cases h2 : u.Scheme = str "https"
            · exact Or.inr h2
            · exact absurd ⟨h1, h2⟩ hs
        by_cases hw : whitelistHas u.Host = true
        · refine ⟨u, rfl, hs2, hw, ?_⟩
          cases hg : env.httpGet (env.urlString u) with
          | error e =>
            simp only [handler, hget, hu, hp, hs, hw, hg, if_true, if_false] at h
            simpa using h
          | ok r =>
            cases r with
            | error e =>
              simp only [handler, hget, hu, hp, hs, hw, hg, if_true, if_false] at h
              simpa using h
            | ok tmpl =>
              simp only [handler, hget, hu, hp, hs, hw, hg, if_true, if_false] at h
              have h3 := render_events env parser request.queries _ tmpl url h
              simpa using h3
        · simp [handler, hget, hu, hp, hs, hw] at h

/-- C3: for every GET request, an outbound template fetch is issued only if the
`template` parameter parses to a URL whose scheme is `http` or `https` and whose host is
one of the two whitelisted hosts (and it is then the fetch of that URL); for every other
GET request no template fetch is issued. -/
theorem C3_fetch_only_whitelisted_http {P : Type} (env : Env P) (parser : P)
    (request : Request) (hget : request.method = str "GET") :
    (∀ url : Bytes, Event.get url ∈ (handler env parser request).events →
      ∃ u, env.urlParse (valuesGet request.queries (str "template")) = .ok u ∧
        (u.Scheme = str "http" ∨ u.Scheme = str "https") ∧
        (u.Host = str "raw.githubusercontent.com" ∨ u.Host = str "gist.githubusercontent.com")
        ∧ url = env.urlString u) ∧
    ((¬ ∃ u, env.urlParse (valuesGet request.queries (str "template")) = .ok u ∧
        (u.Scheme = str "http" ∨ u.Scheme = str "https") ∧
        (u.Host = str "raw.githubusercontent.com" ∨ u.Host = str "gist.githubusercontent.com"))
      → ∀ url : Bytes, Event.get url ∉ (handler env parser request).events) := by
  have h1 : ∀ url : Bytes, Event.get url ∈ (handler env parser request).events →
      ∃ u, env.urlParse (valuesGet request.queries (str "template")) = .ok u ∧
        (u.Scheme = str "http" ∨ u.Scheme = str "https") ∧
        (u.Host = str "raw.githubusercontent.com" ∨ u.Host = str "gist.githubusercontent.com")
        ∧ url = env.urlString u := by
    intro url h
    obtain ⟨_, u, hp, hs, hw, hurl⟩ := handler_get_fetch env parser request hget url h
    exact ⟨u, hp, hs, (whitelistHas_iff u.Host).1 hw, hurl⟩
  refine ⟨h1, ?_⟩
  intro hno url h
  obtain ⟨u, hp, hs, hw, _⟩ := h1 url h
  exact hno ⟨u, hp, hs, hw⟩

/-- C3 in the example environment: the GET of `http://evil.example/x` issues no fetch of
that URL. -/
theorem C3_fetch_only_whitelisted_http_witness :
    Event.get (str "http://evil.example/x") ∉ (handler demoEnv newParser
      ⟨str "GET", [(str "template", [str "http://evil.example/x"])], .ok []⟩).events := by
  refine (C3_fetch_only_whitelisted_http demoEnv newParser
    ⟨str "GET", [(str "template", [str "http://evil.example/x"])], .ok []⟩ (by decide)).2
    ?_ (str "http://evil.example/x")
  rintro ⟨u, hp, _, hh⟩
  have hp2 : demoEnv.urlParse (valuesGet [(str "template", [str "http://evil.example/x"])]
      (str "template")) = .ok
        { Scheme := str "http", Opaque := [], User := none, Host := str "evil.example",
          Path := str "/x", RawPath := [], OmitHost := false, ForceQuery := false,
          RawQuery := [], Fragment := [], RawFragment := [] } := rfl
  rw [hp2] at hp
  injection hp with hp
  subst hp
  revert hh
  decide

/-- C4: for every host that is not in the whitelist and every path, a GET request whose
`template` parameter is `http://` followed by the host and the path, read by the URL
parser as scheme `http` and that host, is answered with status 403, and nothing is
fetched. -/
theorem C4_unlisted_host_forbidden {P : Type} (env : Env P) (parser : P) (request : Request)
    (host path : Bytes) (u : URL) (hget : request.method = str "GET")
    (htemplate : valuesGet request.queries (str "template") = str "http://" ++ host ++ path)
    (hparse : env.urlParse (str "http://" ++ host ++ path) = .ok u)
    (hscheme : u.Scheme = str "http") (hhost : u.Host = host)
    (hnot1 : host ≠ str "raw.githubusercontent.com")
    (hnot2 : host ≠ str "gist.githubusercontent.com") :
    (handler env parser request).response.status = 403 ∧
    (handler env parser request).events = [] := by
  have hu : valuesGet request.queries (str "template") ≠ [] := by
    rw [htemplate]
    have : str "http://" = 104 :: str "ttp://" := by decide
    simp [this]
  have hw : whitelistHas u.Host = false := by
    cases hb : whitelistHas u.Host with
    | false => rfl
    | true =>
      rcases (whitelistHas_iff u.Host).1 hb with h | h
      · exact absurd (hhost ▸ h) hnot1
      · exact absurd (hhost ▸ h) hnot2
  rw [← htemplate] at hparse
  simp [handler, hget, hu, hparse, hscheme, hw, httpError]

/-- C4 in the example environment, for the host `evil.example` and the path `/x`. -/
theorem C4_unlisted_host_forbidden_witness :
    (handler demoEnv newParser
      ⟨str "GET", [(str "template", [str "http://evil.example/x"])], .ok []⟩).response.status
      = 403 ∧
    (handler demoEnv newParser
      ⟨str "GET", [(str "template", [str "http://evil.example/x"])], .ok []⟩).events = [] :=
  C4_unlisted_host_forbidden demoEnv newParser
    ⟨str "GET", [(str "template", [str "http://evil.example/x"])], .ok []⟩
    (str "evil.example") (str "/x")
    { Scheme := str "http", Opaque := [], User := none, Host := str "evil.example",
      Path := str "/x", RawPath := [], OmitHost := false, ForceQuery := false, RawQuery := [],
      Fragment := [], RawFragment := [] }
    (by decide) (by decide) rfl (by decide) (by decide) (by decide) (by decide)

/-- C5: for every GET request whose `template` parameter parses to a URL with a scheme
other than `http` and `https`, the response has status 400 and the handler makes no
outbound request (and no call of the template engine), whatever the host of the URL. -/
theorem C5_other_scheme_bad_request {P : Type} (env : Env P) (parser : P) (request : Request)
    (u : URL) (hget : request.method = str "GET")
    (hparse : env.urlParse (valuesGet request.queries (str "template")) = .ok u)
    (hs1 : u.Scheme ≠ str "http") (hs2 : u.Scheme ≠ str "https") :
    (handler env parser request).response.status = 400 ∧
    (handler env parser request).events = [] := by
  by_cases hu : valuesGet request.queries (str "template") = []
  · simp [handler, hget, hu, httpError]
  · simp [handler, hget, hu, hparse, hs1, hs2, httpError]

/-- C5 in the example environment, for `ftp://raw.githubusercontent.com/demo/t.txt`, a
URL of a whitelisted host. -/
theorem C5_other_scheme_bad_request_witness :
    (handler demoEnv newParser ⟨str "GET",
      [(str "template", [str "ftp://raw.githubusercontent.com/demo/t.txt"])],
      .ok []⟩).response.status = 400 ∧
    (handler demoEnv newParser ⟨str "GET",
      [(str "template", [str "ftp://raw.githubusercontent.com/demo/t.txt"])],
      .ok []⟩).events = [] :=
  C5_other_scheme_bad_request demoEnv newParser ⟨str "GET",
      [(str "template", [str "ftp://raw.githubusercontent.com/demo/t.txt"])], .ok []⟩
    { Scheme := str "ftp", Opaque := [], User := none,
      Host := str "raw.githubusercontent.com", Path := str "/demo/t.txt", RawPath := [],
      OmitHost := false, ForceQuery := false, RawQuery := [], Fragment := [],
      RawFragment := [] }
    (by decide) rfl (by decide) (by decide)

/-! ## The shared parser -/

/-- C6, evaluated on the code: the response to a request depends on the requests handled
before it.  The POST of `{{template "x"}}` is answered 400 by a fresh process, since no
template `x` is defined; after the POST of `{{define "x"}}secret{{end}}` the same request
is answered 200 with the body `secret`, the text of the earlier request, because both
were parsed into the one shared parser of line 92. -/
theorem C6_shared_parser_leaks_named_templates :
    (handler demoEnv newParser
      ⟨str "POST", [], .ok (str "\x7b\x7btemplate \"x\"\x7d\x7d")⟩).response.status = 400 ∧
    (handler demoEnv
      (handler demoEnv newParser
        ⟨str "POST", [], .ok (str "\x7b\x7bdefine \"x\"\x7d\x7dsecret\x7b\x7bend\x7d\x7d")⟩).parser
      ⟨str "POST", [], .ok (str "\x7b\x7btemplate \"x\"\x7d\x7d")⟩).response
      = { status := 200, header := [(str "Content-Type", [str "text/plain"])],
          body := str "secret" } := by
  constructor <;> decide

/-! ## Base64 round trip -/

theorem ofNat_eq_of_mod (n : Nat) (x : UInt8) (h : n % 256 = x.toNat) : UInt8.ofNat n = x := by
  apply UInt8.toNat.inj
  rw [← h]
  rfl

theorem quantumBytes_three (a b c : UInt8) :
    quantumBytes
      [(a.toNat * 65536 + b.toNat * 256 + c.toNat) / 262144 % 64,
       (a.toNat * 65536 + b.toNat * 256 + c.toNat) / 4096 % 64,
       (a.toNat * 65536 + b.toNat * 256 + c.toNat) / 64 % 64,
       (a.toNat * 65536 + b.toNat * 256 + c.toNat) % 64] = [a, b, c] := by
  have ha : a.toNat < 256 := UInt8.toNat_lt_size a
  have hb : b.toNat < 256 := UInt8.toNat_lt_size b
  have hc : c.toNat < 256 := UInt8.toNat_lt_size c
  simp only [quantumBytes, List.getD_cons_zero, List.getD_cons_succ, List.length_cons,
    List.length_nil, List.take_succ_cons, List.take_zero, Nat.reduceAdd, Nat.reduceSub]
  congr 1
  · exact ofNat_eq_of_mod _ a (by omega)
  · congr 1
    · exact ofNat_eq_of_mod _ b (by omega)
    · congr 1
      exact ofNat_eq_of_mod _ c (by omega)

theorem quantumBytes_two (a b : UInt8) :
    quantumBytes
      [(a.toNat * 65536 + b.toNat * 256) / 262144 % 64,
       (a.toNat * 65536 + b.toNat * 256) / 4096 % 64,
       (a.toNat * 65536 + b.toNat * 256) / 64 % 64] = [a, b] := by
  have ha : a.toNat < 256 := UInt8.toNat_lt_size a
  have hb : b.toNat < 256 := UInt8.toNat_lt_size b
  simp only [quantumBytes, List.getD_cons_zero, List.getD_cons_succ, List.length_cons,
    List.length_nil, List.take_succ_cons, List.take_zero, Nat.reduceAdd, Nat.reduceSub,
    List.getD_nil]
  congr 1
  · exact ofNat_eq_of_mod _ a (by omega)
  · congr 1
    exact ofNat_eq_of_mod _ b (by omega)

theorem quantumBytes_one (a : UInt8) :
    quantumBytes [(a.toNat * 65536) / 262144 % 64, (a.toNat * 65536) / 4096 % 64] = [a] := by
  have ha : a.toNat < 256 := UInt8.toNat_lt_size a
  simp only [quantumBytes, List.getD_cons_zero, List.getD_cons_succ, List.length_cons,
    List.length_nil, List.take_succ_cons, List.take_zero, Nat.reduceAdd, Nat.reduceSub,
    List.getD_nil]
  congr 1
  exact ofNat_eq_of_mod _ a (by omega)

theorem decodeLoop_digit (enc : Encoding)
    (h : ∀ i, i < 64 → enc.decodeMap (enc.digit i) = some i) (i : Nat) (hi : i < 64)
    (rest : Bytes) (dbuf : List Nat) (out : Bytes) :
    enc.decodeLoop (enc.digit i :: rest) dbuf out =
      if dbuf.length = 3 then enc.decodeLoop rest [] (out ++ quantumBytes (dbuf ++ [i]))
      else enc.decodeLoop rest (dbuf ++ [i]) out := by
  simp [Encoding.decodeLoop, h i hi]

theorem decodeLoop_encode (enc : Encoding)
    (h : ∀ i, i < 64 → enc.decodeMap (enc.digit i) = some i)
    (hp : enc.decodeMap padChar = none) :
    ∀ (s out : Bytes), enc.decodeLoop (enc.encodeToString s) [] out = some (out ++ s)
  | [], out => by simp [Encoding.encodeToString, Encoding.decodeLoop]
  | [a], out => by
    have hq := quantumBytes_one a
    simp only [Encoding.encodeToString]
    rw [decodeLoop_digit enc h _ (Nat.mod_lt _ (by decide)),
      if_neg (by simp), decodeLoop_digit enc h _ (Nat.mod_lt _ (by decide)),
      if_neg (by simp)]
    simp only [List.nil_append, List.cons_append] at *
    have hp2 : enc.decodeMap 61 = none := hp
    simp [Encoding.decodeLoop, hp2, skipNewlines, hq, padChar]
  | [a, b], out => by
    have hq := quantumBytes_two a b
    simp only [Encoding.encodeToString]
    rw [decodeLoop_digit enc h _ (Nat.mod_lt _ (by decide)),
      if_neg (by simp), decodeLoop_digit enc h _ (Nat.mod_lt _ (by decide)),
      if_neg (by simp), decodeLoop_digit enc h _ (Nat.mod_lt _ (by decide)),
      if_neg (by simp)]
    simp only [List.nil_append, List.cons_append] at *
    have hp2 : enc.decodeMap 61 = none := hp
    simp [Encoding.decodeLoop, hp2, skipNewlines, hq, padChar]
  | a :: b :: c :: rest, out => by
    have hq := quantumBytes_three a b c
    have ih := decodeLoop_encode enc h hp rest (out ++ [a, b, c])
    simp only [Encoding.encodeToString]
    rw [decodeLoop_digit enc h _ (Nat.mod_lt _ (by decide)),
      if_neg (by simp), decodeLoop_digit enc h _ (Nat.mod_lt _ (by decide)),
      if_neg (by simp), decodeLoop_digit enc h _ (Nat.mod_lt _ (by decide)),
      if_neg (by simp), decodeLoop_digit enc h _ (Nat.mod_lt _ (by decide)),
      if_pos (by simp)]
    simp only [List.nil_append, List.cons_append] at *
    rw [hq, ih]
    simp

set_option maxRecDepth 100000 in
theorem StdEncoding_digits :
    ∀ i, i < 64 → StdEncoding.decodeMap (StdEncoding.digit i) = some i := by
  decide

set_option maxRecDepth 100000 in
theorem URLEncoding_digits :
    ∀ i, i < 64 → URLEncoding.decodeMap (URLEncoding.digit i) = some i := by
  decide

/-- C10: base64 decoding undoes encoding, `decodeBase64 (encodeBase64 s) = s` and
`decodeBase64Url (encodeBase64Url s) = s` for every byte string `s`; and
`encodeBase64 "hi" = "aGk="`, `decodeBase64 "aGk=" = "hi"`. -/
theorem C10_base64_round_trip :
    (∀ s : Bytes, decodeBase64 (encodeBase64 s) = s) ∧
    (∀ s : Bytes, decodeBase64Url (encodeBase64Url s) = s) ∧
    encodeBase64 (str "hi") = str "aGk=" ∧ decodeBase64 (str "aGk=") = str "hi" := by
  refine ⟨?_, ?_, by decide, by decide⟩
  · intro s
    unfold decodeBase64 encodeBase64 Encoding.decodeString
    rw [decodeLoop_encode StdEncoding StdEncoding_digits (by decide) s []]
    rfl
  · intro s
    unfold decodeBase64Url encodeBase64Url Encoding.decodeString
    rw [decodeLoop_encode URLEncoding URLEncoding_digits (by decide) s []]
    rfl

/-! ## The handler after the template is resolved -/

theorem valuesLookup_valuesAdd (h : Values) (k v k2 : Bytes) :
    valuesLookup (valuesAdd h k v) k2
      = if k = k2 then valuesLookup h k2 ++ [v] else valuesLookup h k2 := by
  induction h with
  | nil => by_cases hk : k = k2 <;> simp [valuesAdd, valuesLookup, hk]
  | cons e rest ih =>
    obtain ⟨k1, vs⟩ := e
    by_cases h1 : k1 = k
    · subst h1
      by_cases h2 : k1 = k2 <;> simp [valuesAdd, valuesLookup, h2]
    · by_cases h2 : k1 = k2
      · subst h2
        have h3 : ¬ k = k1 := fun e => h1 e.symm
        simp [valuesAdd, valuesLookup, h1, h3]
      · simp [valuesAdd, valuesLookup, h1, h2, ih]

theorem handler_of_resolves {P : Type} (env : Env P) (parser : P) (request : Request)
    (tmpl : Bytes) (h : Resolves env request tmpl) :
    ∃ events0 : List Event, (∀ e ∈ events0, ∃ url, e = Event.get url) ∧
      handler env parser request = render env parser request.queries events0 tmpl := by
  rcases h with ⟨hm, hb, hne⟩ | ⟨hm, hu, u, hp, hs, hw, hg⟩
  · refine ⟨[], by simp, ?_⟩
    have hpg : ¬ str "POST" = str "GET" := by decide
    have hlen : ¬ tmpl.length = 0 := fun e => hne (List.length_eq_zero.1 e)
    simp [handler, hm, hb, hpg, hlen]
  · refine ⟨[Event.get (env.urlString u)], by simp, ?_⟩
    have hs2 : ¬ (u.Scheme ≠ str "http" ∧ u.Scheme ≠ str "https") := by
      rintro ⟨h1, h2⟩
      rcases hs with h | h
      · exact h1 h
      · exact h2 h
    simp only [handler, hm, hu, hp, hs2, hw, hg, if_true, if_false, Bool.not_true,
      Bool.false_eq_true]

theorem render_of_success {P : Type} (env : Env P) (parser : P) (queries : Values)
    (events0 : List Event) (tmpl rendered : Bytes)
    (hparse : (env.templateParse parser tmpl).2 = none)
    (hexec : env.templateExecute (env.templateParse parser tmpl).1 (variableMapping queries)
      = .ok rendered) :
    render env parser queries events0 tmpl =
      { response := (compose env (extractAttributes rendered) rendered).1
        events := events0 ++ [Event.parse tmpl, Event.execute (variableMapping queries)]
          ++ (compose env (extractAttributes rendered) rendered).2
        parser := (env.templateParse parser tmpl).1 } := by
  unfold render
  cases hp : env.templateParse parser tmpl with
  | mk executor err =>
    rw [hp] at hparse hexec
    simp only at hparse hexec
    subst hparse
    simp only [hexec]

theorem handler_of_rendersTo {P : Type} (env : Env P) (parser : P) (request : Request)
    (rendered : Bytes) (h : RendersTo env parser request rendered) :
    ∃ (events0 : List Event) (tmpl : Bytes) (executor : P),
      (∀ e ∈ events0, ∃ url, e = Event.get url) ∧
      handler env parser request =
        { response := (compose env (extractAttributes rendered) rendered).1
          events := events0
            ++ [Event.parse tmpl, Event.execute (variableMapping request.queries)]
            ++ (compose env (extractAttributes rendered) rendered).2
          parser := executor } := by
  obtain ⟨tmpl, hres, hparse, hexec⟩ := h
  obtain ⟨events0, hev, hh⟩ := handler_of_resolves env parser request tmpl hres
  refine ⟨events0, tmpl, (env.templateParse parser tmpl).1, hev, ?_⟩
  rw [hh, render_of_success env parser request.queries events0 tmpl rendered hparse hexec]

theorem compose_status_body {P : Type} (env : Env P) (attributes : GoMap) (rendered : Bytes) :
    (compose env attributes rendered).1.status = 200 ∧
    (compose env attributes rendered).1.body = rendered := by
  unfold compose
  exact ⟨rfl, rfl⟩

theorem compose_header_lookup {P : Type} (env : Env P) (attributes : GoMap)
    (rendered k : Bytes) :
    valuesLookup (compose env attributes rendered).1.header k =
      (match mapGet attributes (str "userinfo-url") with
        | some userInfo =>
          match env.httpHead userInfo with
          | .ok respHeader =>
            if headerGet respHeader (str "Subscription-Userinfo") ≠ []
                ∧ str "Subscription-Userinfo" = k then
              [headerGet respHeader (str "Subscription-Userinfo")]
            else []
          | .error _ => []
        | none => [])
      ++ (match mapGet attributes (str "filename") with
        | some filename =>
          if str "Content-Disposition" = k then
            [env.formatMediaType (str "attachment") [(str "filename", filename)]]
          else []
        | none => [])
      ++ (if str "Content-Type" = k then [str "text/plain"] else []) := by
  unfold compose
  simp only [headerAdd, valuesLookup_valuesAdd]
  cases mapGet attributes (str "userinfo-url") with
  | none =>
    cases mapGet attributes (str "filename") with
    | none => simp [valuesLookup]
    | some filename =>
      by_cases h2 : str "Content-Disposition" = k <;>
        by_cases h3 : str "Content-Type" = k <;>
        simp [valuesLookup, valuesLookup_valuesAdd, h2, h3]
  | some userInfo =>
    cases hh : env.httpHead userInfo with
    | error e =>
      cases mapGet attributes (str "filename") with
      | none => simp [valuesLookup, hh]
      | some filename =>
        by_cases h2 : str "Content-Disposition" = k <;>
          by_cases h3 : str "Content-Type" = k <;>
          simp [valuesLookup, valuesLookup_valuesAdd, hh, h2, h3]
    | ok respHeader =>
      by_cases h0 : headerGet respHeader (str "Subscription-Userinfo") = []
      · cases mapGet attributes (str "filename") with
        | none => simp [valuesLookup, hh, h0]
        | some filename =>
          by_cases h2 : str "Content-Disposition" = k <;>
            by_cases h3 : str "Content-Type" = k <;>
            simp [valuesLookup, valuesLookup_valuesAdd, hh, h0, h2, h3]
      · cases mapGet attributes (str "filename") with
        | none =>
          by_cases h1 : str "Subscription-Userinfo" = k
          · subst h1
            have e3 : ¬ str "Content-Type" = str "Subscription-Userinfo" := by decide
            simp [valuesLookup, valuesLookup_valuesAdd, valuesAdd, hh, h0, e3]
          · by_cases h3 : str "Content-Type" = k <;>
              simp [valuesLookup, valuesLookup_valuesAdd, hh, h0, h1, h3]
        | some filename =>
          by_cases h1 : str "Subscription-Userinfo" = k
          · subst h1
            have e2 : ¬ str "Content-Disposition" = str "Subscription-Userinfo" := by decide
            have e3 : ¬ str "Content-Type" = str "Subscription-Userinfo" := by decide
            simp [valuesLookup, valuesLookup_valuesAdd, valuesAdd, hh, h0, e2, e3]
          · by_cases h2 : str "Content-Disposition" = k <;>
              by_cases h3 : str "Content-Type" = k <;>
              simp [valuesLookup, valuesLookup_valuesAdd, hh, h0, h1, h2, h3]

theorem compose_events {P : Type} (env : Env P) (attributes : GoMap) (rendered : Bytes) :
    (compose env attributes rendered).2 =
      match mapGet attributes (str "userinfo-url") with
      | some userInfo => [Event.head userInfo]
      | none => [] := by
  unfold compose
  cases mapGet attributes (str "userinfo-url") with
  | none => rfl
  | some userInfo =>
    cases hh : env.httpHead userInfo with
    | error e => simp [hh]
    | ok respHeader =>
      by_cases h0 : headerGet respHeader (str "Subscription-Userinfo") = [] <;> simp [hh, h0]

theorem render_of_parse_error {P : Type} (env : Env P) (parser : P) (queries : Values)
    (events0 : List Event) (tmpl err : Bytes)
    (hparse : (env.templateParse parser tmpl).2 = some err) :
    render env parser queries events0 tmpl =
      { response := httpError (str "Parse template: " ++ err) 403
        events := events0 ++ [Event.parse tmpl]
        parser := (env.templateParse parser tmpl).1 } := by
  unfold render
  cases hp : env.templateParse parser tmpl with
  | mk executor e =>
    rw [hp] at hparse
    simp only at hparse
    subst hparse
    rfl

theorem render_of_execute_error {P : Type} (env : Env P) (parser : P) (queries : Values)
    (events0 : List Event) (tmpl err : Bytes)
    (hparse : (env.templateParse parser tmpl).2 = none)
    (hexec : env.templateExecute (env.templateParse parser tmpl).1 (variableMapping queries)
      = .error err) :
    render env parser queries events0 tmpl =
      { response := httpError (str "Render template: " ++ err) 400
        events := events0 ++ [Event.parse tmpl, Event.execute (variableMapping queries)]
        parser := (env.templateParse parser tmpl).1 } := by
  unfold render
  cases hp : env.templateParse parser tmpl with
  | mk executor e =>
    rw [hp] at hparse hexec
    simp only at hparse hexec
    subst hparse
    simp only [hexec]

theorem render_events_begin {P : Type} (env : Env P) (parser : P) (queries : Values)
    (events0 : List Event) (tmpl : Bytes) :
    ∃ rest : List Event,
      (render env parser queries events0 tmpl).events = events0 ++ Event.parse tmpl :: rest := by
  cases hp : (env.templateParse parser tmpl).2 with
  | some err =>
    rw [render_of_parse_error env parser queries events0 tmpl err hp]
    exact ⟨[], rfl⟩
  | none =>
    cases he : env.templateExecute (env.templateParse parser tmpl).1 (variableMapping queries) with
    | error err =>
      rw [render_of_execute_error env parser queries events0 tmpl err hp he]
      exact ⟨[Event.execute (variableMapping queries)], rfl⟩
    | ok rendered =>
      rw [render_of_success env parser queries events0 tmpl rendered hp he]
      exact ⟨Event.execute (variableMapping queries)
        :: (compose env (extractAttributes rendered) rendered).2, by simp⟩

theorem compose_lookup_contentType {P : Type} (env : Env P) (attributes : GoMap)
    (rendered : Bytes) :
    valuesLookup (compose env attributes rendered).1.header (str "Content-Type")
      = [str "text/plain"] := by
  have e1 : ¬ str "Subscription-Userinfo" = str "Content-Type" := by decide
  have e2 : ¬ str "Content-Disposition" = str "Content-Type" := by decide
  simp only [compose_header_lookup, e1, e2, and_false, if_false, if_true]
  cases mapGet attributes (str "userinfo-url") with
  | none => cases mapGet attributes (str "filename") <;> simp
  | some userInfo =>
    cases hh : env.httpHead userInfo <;> cases mapGet attributes (str "filename") <;>
      simp [hh]

theorem compose_lookup_disposition {P : Type} (env : Env P) (attributes : GoMap)
    (rendered : Bytes) :
    valuesLookup (compose env attributes rendered).1.header (str "Content-Disposition")
      = match mapGet attributes (str "filename") with
        | some filename => [env.formatMediaType (str "attachment") [(str "filename", filename)]]
        | none => [] := by
  have e1 : ¬ str "Subscription-Userinfo" = str "Content-Disposition" := by decide
  have e3 : ¬ str "Content-Type" = str "Content-Disposition" := by decide
  simp only [compose_header_lookup, e1, e3, and_false, if_false, if_true]
  cases mapGet attributes (str "userinfo-url") with
  | none => cases mapGet attributes (str "filename") <;> simp
  | some userInfo =>
    cases hh : env.httpHead userInfo <;> cases mapGet attributes (str "filename") <;>
      simp [hh]

theorem compose_lookup_userinfo {P : Type} (env : Env P) (attributes : GoMap)
    (rendered : Bytes) :
    valuesLookup (compose env attributes rendered).1.header (str "Subscription-Userinfo")
      = match mapGet attributes (str "userinfo-url") with
        | some userInfo =>
          match env.httpHead userInfo with
          | .ok respHeader =>
            if headerGet respHeader (str "Subscription-Userinfo") ≠ [] then
              [headerGet respHeader (str "Subscription-Userinfo")]
            else []
          | .error _ => []
        | none => [] := by
  have e2 : ¬ str "Content-Disposition" = str "Subscription-Userinfo" := by decide
  have e3 : ¬ str "Content-Type" = str "Subscription-Userinfo" := by decide
  simp only [compose_header_lookup, e2, e3, and_true, if_false, if_true]
  cases mapGet attributes (str "userinfo-url") with
  | none => cases mapGet attributes (str "filename") <;> simp
  | some userInfo =>
    cases hh : env.httpHead userInfo <;> cases mapGet attributes (str "filename") <;>
      simp [hh]

/-! ## POST, other methods, and the successful response -/

/-- C12: for every POST request with an empty body the response has status 400 and the
handler makes no call at all (no parse and no execution by the template engine); for
every POST request with a non-empty body, the first call of the handler is the parse of
exactly the request body. -/
theorem C12_post_body_is_the_template {P : Type} (env : Env P) (parser : P)
    (request : Request) (hpost : request.method = str "POST") :
    (request.body = .ok [] →
      (handler env parser request).response.status = 400 ∧
      (handler env parser request).events = []) ∧
    (∀ tmpl : Bytes, request.body = .ok tmpl → tmpl ≠ [] →
      ∃ rest : List Event, (handler env parser request).events = Event.parse tmpl :: rest) := by
  have hpg : ¬ str "POST" = str "GET" := by decide
  constructor
  · intro hb
    simp [handler, hpost, hpg, hb, httpError]
  · intro tmpl hb hne
    obtain ⟨events0, _, hh⟩ :=
      handler_of_resolves env parser request tmpl (Or.inl ⟨hpost, hb, hne⟩)
    have hlen : ¬ tmpl.length = 0 := fun e => hne (List.length_eq_zero.1 e)
    have hh2 : handler env parser request = render env parser request.queries [] tmpl := by
      simp [handler, hpost, hpg, hb, hlen]
    rw [hh2]
    simpa using render_events_begin env parser request.queries [] tmpl

/-- C12 in the example environment: the POST of an empty body is answered 400 with no
call made. -/
theorem C12_post_body_is_the_template_witness :
    (handler demoEnv newParser ⟨str "POST", [], .ok []⟩).response.status = 400 ∧
    (handler demoEnv newParser ⟨str "POST", [], .ok []⟩).events = [] :=
  (C12_post_body_is_the_template demoEnv newParser ⟨str "POST", [], .ok []⟩ (by decide)).1 rfl

/-- C13 as stated fails: the PUT request is answered 405, but its body is not empty; the
handler writes one byte, the newline that `http.Error` prints after the empty message. -/
theorem C13_empty_body_counterexample :
    ¬ ((handler demoEnv newParser ⟨str "PUT", [], .ok []⟩).response.status = 405 ∧
       (handler demoEnv newParser ⟨str "PUT", [], .ok []⟩).response.body = [] ∧
       (handler demoEnv newParser ⟨str "PUT", [], .ok []⟩).events = []) := by
  decide

/-- C13, amended: for every request whose method is neither GET nor POST, the response
has status 405, its body is the single newline byte that `http.Error` writes after the
empty message, and the handler makes no call (neither a fetch nor a render). -/
theorem C13_other_method_not_allowed {P : Type} (env : Env P) (parser : P)
    (request : Request) (h1 : request.method ≠ str "GET") (h2 : request.method ≠ str "POST") :
    (handler env parser request).response.status = 405 ∧
    (handler env parser request).response.body = str "\n" ∧
    (handler env parser request).events = [] := by
  have hs : str "" = [] := by decide
  have hn : str "\n" = [newline] := by decide
  simp [handler, h1, h2, httpError, hs, hn]

/-- C13, amended, in the example environment for a PUT request. -/
theorem C13_other_method_not_allowed_witness :
    (handler demoEnv newParser ⟨str "PUT", [], .ok []⟩).response.status = 405 ∧
    (handler demoEnv newParser ⟨str "PUT", [], .ok []⟩).response.body = str "\n" ∧
    (handler demoEnv newParser ⟨str "PUT", [], .ok []⟩).events = [] :=
  C13_other_method_not_allowed demoEnv newParser ⟨str "PUT", [], .ok []⟩
    (by decide) (by decide)

/-- C14: for every request whose template is resolved, parsed and executed without
error, the response has status 200, carries the header `Content-Type` with the one value
`text/plain`, and its body is exactly the rendered output. -/
theorem C14_success_response {P : Type} (env : Env P) (parser : P) (request : Request)
    (rendered : Bytes) (h : RendersTo env parser request rendered) :
    (handler env parser request).response.status = 200 ∧
    valuesLookup (handler env parser request).response.header (str "Content-Type")
      = [str "text/plain"] ∧
    (handler env parser request).response.body = rendered := by
  obtain ⟨events0, tmpl, executor, _, hh⟩ := handler_of_rendersTo env parser request rendered h
  rw [hh]
  refine ⟨(compose_status_body env _ rendered).1, ?_, (compose_status_body env _ rendered).2⟩
  exact compose_lookup_contentType env _ rendered

/-- C14 in the example environment: the POST of a template with a leading directive line
is answered 200 with the whole rendered output, the directive line included. -/
theorem C14_success_response_witness :
    (handler demoEnv newParser
      ⟨str "POST", [], .ok (str "# Attribute: filename=a.txt\nhello\n")⟩).response.status = 200 ∧
    valuesLookup (handler demoEnv newParser
      ⟨str "POST", [], .ok (str "# Attribute: filename=a.txt\nhello\n")⟩).response.header
        (str "Content-Type") = [str "text/plain"] ∧
    (handler demoEnv newParser
      ⟨str "POST", [], .ok (str "# Attribute: filename=a.txt\nhello\n")⟩).response.body
      = str "# Attribute: filename=a.txt\nhello\n" :=
  C14_success_response demoEnv newParser
    ⟨str "POST", [], .ok (str "# Attribute: filename=a.txt\nhello\n")⟩
    (str "# Attribute: filename=a.txt\nhello\n")
    ⟨str "# Attribute: filename=a.txt\nhello\n", Or.inl ⟨by decide, rfl, by decide⟩,
      by decide, rfl⟩

/-! ## The userinfo probe and the two recognized attributes -/

/-- C15: for every successfully rendered request whose attribute mapping has
`userinfo-url`, whatever the outcome of the HEAD request, the response has status 200 and
the rendered output as body; the outgoing header `Subscription-Userinfo` is absent when
the HEAD request fails or its response has no (or an empty) `Subscription-Userinfo`
value, and otherwise carries exactly that value. -/
theorem C15_probe_never_fails_request {P : Type} (env : Env P) (parser : P)
    (request : Request) (rendered userInfo : Bytes)
    (h : RendersTo env parser request rendered)
    (hu : mapGet (extractAttributes rendered) (str "userinfo-url") = some userInfo) :
    (handler env parser request).response.status = 200 ∧
    (handler env parser request).response.body = rendered ∧
    (∀ err, env.httpHead userInfo = .error err →
      valuesLookup (handler env parser request).response.header
        (str "Subscription-Userinfo") = []) ∧
    (∀ respHeader, env.httpHead userInfo = .ok respHeader →
      headerGet respHeader (str "Subscription-Userinfo") = [] →
      valuesLookup (handler env parser request).response.header
        (str "Subscription-Userinfo") = []) ∧
    (∀ respHeader, env.httpHead userInfo = .ok respHeader →
      headerGet respHeader (str "Subscription-Userinfo") ≠ [] →
      valuesLookup (handler env parser request).response.header
        (str "Subscription-Userinfo") = [headerGet respHeader (str "Subscription-Userinfo")]) := by
  obtain ⟨events0, tmpl, executor, _, hh⟩ := handler_of_rendersTo env parser request rendered h
  rw [hh]
  refine ⟨(compose_status_body env _ rendered).1, (compose_status_body env _ rendered).2,
    ?_, ?_, ?_⟩
  · intro err he
    simp [compose_lookup_userinfo, hu, he]
  · intro respHeader he h0
    simp [compose_lookup_userinfo, hu, he, h0]
  · intro respHeader he h0
    simp [compose_lookup_userinfo, hu, he, h0]

/-- C15 in the environment whose HEAD of `http://evil.example/info` answers with
`Subscription-Userinfo: upload=1`: the POST of a template with that `userinfo-url` is
answered 200, and the value is copied to the response. -/
theorem C15_probe_never_fails_request_witness :
    (handler probeEnv newParser
      ⟨str "POST", [], .ok (str "# Attribute: userinfo-url=http://evil.example/info\nx")⟩
      ).response.status = 200 ∧
    valuesLookup (handler probeEnv newParser
      ⟨str "POST", [], .ok (str "# Attribute: userinfo-url=http://evil.example/info\nx")⟩
      ).response.header (str "Subscription-Userinfo") = [str "upload=1"] :=
  ⟨(C15_probe_never_fails_request probeEnv newParser
      ⟨str "POST", [], .ok (str "# Attribute: userinfo-url=http://evil.example/info\nx")⟩
      (str "# Attribute: userinfo-url=http://evil.example/info\nx")
      (str "http://evil.example/info")
      ⟨str "# Attribute: userinfo-url=http://evil.example/info\nx",
        Or.inl ⟨by decide, rfl, by decide⟩, by decide, rfl⟩
      (by decide)).1,
   ((C15_probe_never_fails_request probeEnv newParser
      ⟨str "POST", [], .ok (str "# Attribute: userinfo-url=http://evil.example/info\nx")⟩
      (str "# Attribute: userinfo-url=http://evil.example/info\nx")
      (str "http://evil.example/info")
      ⟨str "# Attribute: userinfo-url=http://evil.example/info\nx",
        Or.inl ⟨by decide, rfl, by decide⟩, by decide, rfl⟩
      (by decide)).2.2.2.2 [(str "Subscription-Userinfo", [str "upload=1"])] rfl
        (by decide)).trans (by decide)⟩

/-- C16: two attribute mappings that agree on the keys `userinfo-url` and `filename`
(presence and value) give, in the same environment, responses with the same status and
the same header, and the same calls; and storing any other key in a mapping changes
neither the status nor the header nor the calls, although the key is in the mapping. -/
theorem C16_only_two_attributes_matter {P : Type} (env : Env P) (a1 a2 : GoMap)
    (rendered1 rendered2 : Bytes)
    (h1 : mapGet a1 (str "userinfo-url") = mapGet a2 (str "userinfo-url"))
    (h2 : mapGet a1 (str "filename") = mapGet a2 (str "filename")) :
    (compose env a1 rendered1).1.status = (compose env a2 rendered2).1.status ∧
    (compose env a1 rendered1).1.header = (compose env a2 rendered2).1.header ∧
    (compose env a1 rendered1).2 = (compose env a2 rendered2).2 ∧
    (∀ k v : Bytes, k ≠ str "userinfo-url" → k ≠ str "filename" →
      mapGet (mapSet a1 k v) k = some v ∧
      (compose env (mapSet a1 k v) rendered1).1 = (compose env a1 rendered1).1 ∧
      (compose env (mapSet a1 k v) rendered1).2 = (compose env a1 rendered1).2) := by
  refine ⟨?_, ?_, ?_, ?_⟩
  · unfold compose
    rfl
  · unfold compose
    simp only [h1, h2]
  · unfold compose
    simp only [h1, h2]
  · intro k v hk1 hk2
    have e1 : mapGet (mapSet a1 k v) (str "userinfo-url") = mapGet a1 (str "userinfo-url") := by
      rw [mapGet_mapSet, if_neg hk1]
    have e2 : mapGet (mapSet a1 k v) (str "filename") = mapGet a1 (str "filename") := by
      rw [mapGet_mapSet, if_neg hk2]
    refine ⟨by simp [mapGet_mapSet], ?_, ?_⟩
    · unfold compose
      simp only [e1, e2]
    · unfold compose
      simp only [e1, e2]

/-- C16 on two mappings that differ in the unrecognized key `note` only. -/
theorem C16_only_two_attributes_matter_witness :
    (compose demoEnv [(str "filename", str "a.txt"), (str "note", str "1")] (str "x")).1.header
      = (compose demoEnv [(str "filename", str "a.txt")] (str "y")).1.header :=
  (C16_only_two_attributes_matter demoEnv
    [(str "filename", str "a.txt"), (str "note", str "1")] [(str "filename", str "a.txt")]
    (str "x") (str "y") (by decide) (by decide)).2.1

/-- C17: for every successfully rendered request, the response carries a
`Content-Disposition` header exactly when the attribute mapping has the key `filename`,
and its one value is then what `mime.FormatMediaType` makes of the disposition
`attachment` with the parameter `filename` set to that attribute's value. -/
theorem C17_content_disposition {P : Type} (env : Env P) (parser : P) (request : Request)
    (rendered : Bytes) (h : RendersTo env parser request rendered) :
    (valuesLookup (handler env parser request).response.header (str "Content-Disposition")
        ≠ [] ↔ mapGet (extractAttributes rendered) (str "filename") ≠ none) ∧
    (∀ filename : Bytes, mapGet (extractAttributes rendered) (str "filename") = some filename →
      valuesLookup (handler env parser request).response.header (str "Content-Disposition")
        = [env.formatMediaType (str "attachment") [(str "filename", filename)]]) := by
  obtain ⟨events0, tmpl, executor, _, hh⟩ := handler_of_rendersTo env parser request rendered h
  rw [hh]
  simp only [compose_lookup_disposition]
  constructor
  · cases mapGet (extractAttributes rendered) (str "filename") <;> simp
  · intro filename hf
    simp [hf]

/-- C17 in the example environment: the POST of a template with the directive
`filename=a.txt` gets the header `Content-Disposition: attachment; filename=a.txt`. -/
theorem C17_content_disposition_witness :
    valuesLookup (handler demoEnv newParser
      ⟨str "POST", [], .ok (str "# Attribute: filename=a.txt\nhello\n")⟩).response.header
        (str "Content-Disposition") = [str "attachment; filename=a.txt"] :=
  ((C17_content_disposition demoEnv newParser
    ⟨str "POST", [], .ok (str "# Attribute: filename=a.txt\nhello\n")⟩
    (str "# Attribute: filename=a.txt\nhello\n")
    ⟨str "# Attribute: filename=a.txt\nhello\n", Or.inl ⟨by decide, rfl, by decide⟩,
      by decide, rfl⟩).2 (str "a.txt") (by decide)).trans (by decide)

/-! ## Template defects, and the probe outside the trust boundary -/

/-- C18: for every request whose template is resolved to `tmpl`: when parsing `tmpl`
fails, the response is the error response of status 403 and after the parse no call is
made (no execution, no probe); when parsing succeeds and execution fails, the response is
the error response of status 400 and after the execution no call is made (no probe).  In
both cases the response is the one `http.Error` writes: no directive has set a header
and the status is not 200. -/
theorem C18_template_defect_status {P : Type} (env : Env P) (parser : P) (request : Request)
    (tmpl : Bytes) (h : Resolves env request tmpl) :
    (∀ err, (env.templateParse parser tmpl).2 = some err →
      (handler env parser request).response = httpError (str "Parse template: " ++ err) 403 ∧
      (handler env parser request).response.status = 403 ∧
      ∃ events0 : List Event, (∀ e ∈ events0, ∃ url, e = Event.get url) ∧
        (handler env parser request).events = events0 ++ [Event.parse tmpl]) ∧
    (∀ err, (env.templateParse parser tmpl).2 = none →
      env.templateExecute (env.templateParse parser tmpl).1 (variableMapping request.queries)
        = .error err →
      (handler env parser request).response = httpError (str "Render template: " ++ err) 400 ∧
      (handler env parser request).response.status = 400 ∧
      ∃ events0 : List Event, (∀ e ∈ events0, ∃ url, e = Event.get url) ∧
        (handler env parser request).events
          = events0 ++ [Event.parse tmpl, Event.execute (variableMapping request.queries)]) := by
  obtain ⟨events0, hev, hh⟩ := handler_of_resolves env parser request tmpl h
  constructor
  · intro err hp
    rw [hh, render_of_parse_error env parser request.queries events0 tmpl err hp]
    exact ⟨rfl, rfl, events0, hev, rfl⟩
  · intro err hp he
    rw [hh, render_of_execute_error env parser request.queries events0 tmpl err hp he]
    exact ⟨rfl, rfl, events0, hev, rfl⟩

/-- C18 in the example environment: a POST whose body does not parse (an action that is
not closed) is answered 403, and a POST whose body parses but calls an undefined template
is answered 400. -/
theorem C18_template_defect_status_witness :
    (handler demoEnv newParser ⟨str "POST", [], .ok (str "\x7b\x7bend")⟩).response.status = 403 ∧
    (handler demoEnv newParser
      ⟨str "POST", [], .ok (str "\x7b\x7btemplate \"x\"\x7d\x7d")⟩).response.status = 400 :=
  ⟨((C18_template_defect_status demoEnv newParser ⟨str "POST", [], .ok (str "\x7b\x7bend")⟩
      (str "\x7b\x7bend") (Or.inl ⟨by decide, rfl, by decide⟩)).1
      (str "unclosed action") (by decide)).2.1,
   ((C18_template_defect_status demoEnv newParser
      ⟨str "POST", [], .ok (str "\x7b\x7btemplate \"x\"\x7d\x7d")⟩
      (str "\x7b\x7btemplate \"x\"\x7d\x7d") (Or.inl ⟨by decide, rfl, by decide⟩)).2
      (str "template x not defined") (by decide) rfl).2.1⟩

/-- C19: for every successfully rendered request (GET or POST) whose attribute mapping
has `userinfo-url` = `U`, the handler issues a HEAD request to `U` as written, whatever
the scheme and the host of `U`: it is the last call of the handler, and no whitelist test
stands before it.  So some request causes an outbound request to a host outside the
whitelist: the POST of `# Attribute: userinfo-url=http://evil.example/info` issues the
HEAD of `http://evil.example/info`. -/
theorem C19_probe_not_gated :
    (∀ (P : Type) (env : Env P) (parser : P) (request : Request) (rendered U : Bytes),
      RendersTo env parser request rendered →
      mapGet (extractAttributes rendered) (str "userinfo-url") = some U →
      Event.head U ∈ (handler env parser request).events ∧
      (handler env parser request).events.getLast? = some (Event.head U)) ∧
    Event.head (str "http://evil.example/info") ∈ (handler demoEnv newParser
      ⟨str "POST", [], .ok (str "# Attribute: userinfo-url=http://evil.example/info\n")⟩).events ∧
    whitelistHas (str "evil.example") = false := by
  refine ⟨?_, by decide, by decide⟩
  intro P env parser request rendered U h hu
  obtain ⟨events0, tmpl, executor, _, hh⟩ := handler_of_rendersTo env parser request rendered h
  rw [hh]
  simp [compose_events, hu]

/-! ## URL escaping round trip -/

theorem checkEscapes_cons_of_ne (c : UInt8) (t : Bytes) (hc : c ≠ 37) :
    checkEscapes (c :: t) = checkEscapes t := by
  match t with
  | [] => simp [checkEscapes, hc]
  | [a] => simp [checkEscapes, hc]
  | a :: b :: rest => simp [checkEscapes, hc]

theorem unescapeBytes_cons_of_ne (c : UInt8) (t : Bytes) (hc : c ≠ 37) :
    unescapeBytes (c :: t) = (if c = 43 then 32 else c) :: unescapeBytes t := by
  match t with
  | [] => simp [unescapeBytes]
  | [a] => simp [unescapeBytes]
  | a :: b :: rest => simp [unescapeBytes, hc]

theorem escapedForm_cons_of_ne (c : UInt8) (t : Bytes) (hc : c ≠ 37) :
    escapedForm (c :: t) = ((unreserved c || c = 43) && escapedForm t) := by
  match t with
  | [] => simp [escapedForm]
  | [a] => simp [escapedForm]
  | a :: b :: rest => simp [escapedForm, hc]

theorem upperhex_digit : ∀ n, n < 16 →
    ishex (upperhex.getD n 0) = true ∧ unhex (upperhex.getD n 0) = n := by
  decide

theorem unreserved_ne (c : UInt8) (h : unreserved c = true) : c ≠ 37 ∧ c ≠ 43 ∧ c ≠ 32 := by
  refine ⟨?_, ?_, ?_⟩ <;>
  · intro e
    subst e
    revert h
    decide

theorem escape_round_trip (s : Bytes) :
    checkEscapes (escape s) = true ∧ unescapeBytes (escape s) = s ∧
      escapedForm (escape s) = true := by
  induction s with
  | nil => simp [escape, checkEscapes, unescapeBytes, escapedForm]
  | cons c rest ih =>
    obtain ⟨ih1, ih2, ih3⟩ := ih
    by_cases hsp : c = 32
    · subst hsp
      have h43 : (43 : UInt8) ≠ 37 := by decide
      simp only [escape, if_true]
      rw [checkEscapes_cons_of_ne _ _ h43, unescapeBytes_cons_of_ne _ _ h43,
        escapedForm_cons_of_ne _ _ h43, ih1, ih2, ih3]
      simp
    · by_cases hesc : shouldEscape c = true
      · have hlt : c.toNat < 256 := UInt8.toNat_lt_size c
        have hhi := upperhex_digit (c.toNat / 16) (by omega)
        have hlo := upperhex_digit (c.toNat % 16) (by omega)
        have hbyte : UInt8.ofNat (c.toNat / 16 * 16 + c.toNat % 16) = c :=
          ofNat_eq_of_mod _ c (by omega)
        simp only [escape, hsp, hesc, if_true, if_false]
        generalize upperhex.getD (c.toNat / 16) 0 = x at hhi ⊢
        generalize upperhex.getD (c.toNat % 16) 0 = y at hlo ⊢
        simp [checkEscapes, unescapeBytes, escapedForm, hhi.1, hhi.2, hlo.1, hlo.2, ih1, ih2,
          ih3, hbyte]
      · have hun : unreserved c = true := by
          simpa [shouldEscape] using hesc
        obtain ⟨h37, h43, _⟩ := unreserved_ne c hun
        have hesc2 : shouldEscape c = false := by simpa using hesc
        simp only [escape, hsp, hesc2, if_false, Bool.false_eq_true]
        rw [checkEscapes_cons_of_ne _ _ h37, unescapeBytes_cons_of_ne _ _ h37,
          escapedForm_cons_of_ne _ _ h37, ih1, ih2, ih3]
        simp [h43, hun]

/-- C20: URL decoding undoes URL encoding, `decodeUrl (encodeUrl s) = s` for every byte
string `s`; `encodeUrl s` is made of unreserved bytes, `+`, and `%` followed by two
hexadecimal digits only, and `url.QueryUnescape` does not fail on it, so `decodeUrl` does
not take its error branch there. -/
theorem C20_url_round_trip :
    (∀ s : Bytes, decodeUrl (encodeUrl s) = s) ∧
    (∀ s : Bytes, escapedForm (encodeUrl s) = true) ∧
    (∀ s : Bytes, queryUnescape (encodeUrl s) = some s) := by
  have h : ∀ s : Bytes, queryUnescape (encodeUrl s) = some s := by
    intro s
    obtain ⟨h1, h2, _⟩ := escape_round_trip s
    simp [queryUnescape, encodeUrl, h1, h2]
  refine ⟨?_, ?_, h⟩
  · intro s
    simp [decodeUrl, h s]
  · intro s
    exact (escape_round_trip s).2.2

/-! ## The decode helpers on malformed input -/

theorem ishex_ne_percent (a : UInt8) (h : ishex a = true) : a ≠ 37 := by
  intro e
  subst e
  revert h
  decide

theorem hasInvalidEscape_cons_of_ne (c : UInt8) (t : Bytes) (hc : c ≠ 37) :
    hasInvalidEscape (c :: t) = hasInvalidEscape t := by
  simp [hasInvalidEscape, hc]

theorem hasInvalidEscape_of_check :
    ∀ s : Bytes, checkEscapes s = true → hasInvalidEscape s = false
  | [], _ => rfl
  | [c], h => by
    have hc : c ≠ 37 := by simpa [checkEscapes] using h
    simp [hasInvalidEscape, hc]
  | [c, d], h => by
    have hcd : c ≠ 37 ∧ d ≠ 37 := by simpa [checkEscapes] using h
    simp [hasInvalidEscape, hcd.1, hcd.2]
  | c :: a :: b :: rest, h => by
    by_cases hc : c = 37
    · subst hc
      have h2 : (ishex a = true ∧ ishex b = true) ∧ checkEscapes rest = true := by
        simpa [checkEscapes] using h
      have ih := hasInvalidEscape_of_check rest h2.2
      have ha := ishex_ne_percent a h2.1.1
      have hb := ishex_ne_percent b h2.1.2
      have e1 : hasInvalidEscape (37 :: a :: b :: rest) = hasInvalidEscape (a :: b :: rest) := by
        simp [hasInvalidEscape, h2.1.1, h2.1.2]
      rw [e1, hasInvalidEscape_cons_of_ne a _ ha, hasInvalidEscape_cons_of_ne b _ hb, ih]
    · have h2 : checkEscapes (a :: b :: rest) = true := by
        simpa [checkEscapes, hc] using h
      have ih := hasInvalidEscape_of_check (a :: b :: rest) h2
      rw [hasInvalidEscape_cons_of_ne c _ hc, ih]

theorem notNewline_of_or (c : UInt8) (hc : c = 10 ∨ c = 13) : notNewline c = false := by
  rcases hc with e | e <;> subst e <;> decide

theorem notNewline_of_not_or (c : UInt8) (hc : ¬ (c = 10 ∨ c = 13)) : notNewline c = true := by
  have h1 : c ≠ 10 := fun e => hc (Or.inl e)
  have h2 : c ≠ 13 := fun e => hc (Or.inr e)
  simp [notNewline, h1, h2]

theorem filter_of_skipNewlines_nil (rest : Bytes) (h : skipNewlines rest = []) :
    rest.filter notNewline = [] := by
  induction rest with
  | nil => rfl
  | cons c rest ih =>
    by_cases hc : c = 10 ∨ c = 13
    · have h2 : skipNewlines rest = [] := by simpa [skipNewlines, hc] using h
      rw [List.filter_cons_of_neg (by simp [notNewline_of_or c hc]), ih h2]
    · simp [skipNewlines, hc] at h

theorem filter_of_skipNewlines_cons (rest : Bytes) (c2 : UInt8) (rest2 : Bytes)
    (h : skipNewlines rest = c2 :: rest2) :
    rest.filter notNewline = c2 :: rest2.filter notNewline := by
  induction rest with
  | nil => simp [skipNewlines] at h
  | cons c rest ih =>
    by_cases hc : c = 10 ∨ c = 13
    · have h2 : skipNewlines rest = c2 :: rest2 := by simpa [skipNewlines, hc] using h
      rw [List.filter_cons_of_neg (by simp [notNewline_of_or c hc]), ih h2]
    · have h2 : c = c2 ∧ rest = rest2 := by simpa [skipNewlines, hc] using h
      obtain ⟨e1, e2⟩ := h2
      subst e1 e2
      rw [List.filter_cons_of_pos (notNewline_of_not_or c hc)]

theorem isDigit_of_decodeMap (enc : Encoding) (c : UInt8) (d : Nat)
    (h : enc.decodeMap c = some d) : enc.isDigit c = true := by
  unfold Encoding.decodeMap at h
  split at h
  · rename_i hlt
    simpa [Encoding.isDigit] using List.indexOf_lt_length.1 hlt
  · simp at h

theorem wellFormed_of_decodeLoop (enc : Encoding)
    (hnl : enc.decodeMap 10 = none) (hcr : enc.decodeMap 13 = none) :
    ∀ (text pre : Bytes) (dbuf : List Nat) (out r : Bytes),
      pre.length = dbuf.length → dbuf.length < 4 → (∀ c ∈ pre, enc.isDigit c = true) →
      enc.decodeLoop text dbuf out = some r →
      enc.wellFormedQuanta (pre ++ text.filter notNewline) = true := by
  intro text
  induction text with
  | nil =>
    intro pre dbuf out r hlen hlt hpre h
    have h0 : dbuf.length = 0 := by
      by_contra hne
      simp [Encoding.decodeLoop, hne] at h
    have hp : pre = [] := List.length_eq_zero.1 (hlen.trans h0)
    subst hp
    simp [Encoding.wellFormedQuanta]
  | cons c rest ih =>
    intro pre dbuf out r hlen hlt hpre h
    unfold Encoding.decodeLoop at h
    cases hd : enc.decodeMap c with
    | some d =>
      have hdig := isDigit_of_decodeMap enc c d hd
      have hc : ¬ (c = 10 ∨ c = 13) := by
        rintro (e | e)
        · subst e
          rw [hnl] at hd
          cases hd
        · subst e
          rw [hcr] at hd
          cases hd
      rw [List.filter_cons_of_pos (notNewline_of_not_or c hc)]
      simp only [hd] at h
      by_cases h3 : dbuf.length = 3
      · simp only [h3, if_true] at h
        have ihr := ih [] [] _ r rfl (by simp) (by simp) h
        obtain ⟨a, b, c3, hp⟩ := List.length_eq_three.1 (hlen.trans h3)
        subst hp
        have ha := hpre a (by simp)
        have hb := hpre b (by simp)
        have hc3 := hpre c3 (by simp)
        simp only [List.nil_append] at ihr
        simp [Encoding.wellFormedQuanta, ha, hb, hc3, hdig, ihr]
      · simp only [h3, if_false] at h
        have ihr := ih (pre ++ [c]) (dbuf ++ [d]) out r (by simp [hlen])
          (by simp only [List.length_append, List.length_singleton]; omega)
          (by
            intro x hx
            rcases List.mem_append.1 hx with hx | hx
            · exact hpre x hx
            · have : x = c := by simpa using hx
              subst this
              exact hdig) h
        simpa [List.append_assoc] using ihr
    | none =>
      simp only [hd] at h
      by_cases hc : c = 10 ∨ c = 13
      · simp only [hc, if_true] at h
        rw [List.filter_cons_of_neg (by simp [notNewline_of_or c hc])]
        exact ih pre dbuf out r hlen hlt hpre h
      · simp only [hc, if_false] at h
        by_cases hp : c = padChar
        · subst hp
          rw [List.filter_cons_of_pos (notNewline_of_not_or padChar hc)]
          simp only [ne_eq, not_true_eq_false, if_false] at h
          have hcases : dbuf.length = 0 ∨ dbuf.length = 1 ∨ dbuf.length = 2 ∨ dbuf.length = 3 := by
            omega
          rcases hcases with h0 | h1 | h2 | h3
          · simp [h0] at h
          · simp [h1] at h
          · rw [h2] at h
            simp only at h
            obtain ⟨a, b, hpq⟩ := List.length_eq_two.1 (hlen.trans h2)
            subst hpq
            have ha := hpre a (by simp)
            have hb := hpre b (by simp)
            cases hs : skipNewlines rest with
            | nil => simp [hs] at h
            | cons c2 rest2 =>
              simp only [hs] at h
              by_cases hc2 : c2 = padChar
              · subst hc2
                by_cases hs2 : skipNewlines rest2 = []
                · rw [filter_of_skipNewlines_cons rest padChar rest2 hs,
                    filter_of_skipNewlines_nil rest2 hs2]
                  simp [Encoding.wellFormedQuanta, ha, hb]
                · simp [hs2] at h
              · simp [hc2] at h
          · rw [h3] at h
            simp only at h
            obtain ⟨a, b, c3, hpq⟩ := List.length_eq_three.1 (hlen.trans h3)
            subst hpq
            have ha := hpre a (by simp)
            have hb := hpre b (by simp)
            have hc3 := hpre c3 (by simp)
            by_cases hs : skipNewlines rest = []
            · rw [filter_of_skipNewlines_nil rest hs]
              simp [Encoding.wellFormedQuanta, ha, hb, hc3]
            · simp [hs] at h
        · simp [hp] at h

theorem check_of_no_invalidEscape :
    ∀ s : Bytes, hasInvalidEscape s = false → checkEscapes s = true
  | [], _ => rfl
  | [c], h => by
    have hc : c ≠ 37 := by
      intro e
      subst e
      simp [hasInvalidEscape] at h
    simp [checkEscapes, hc]
  | [c, d], h => by
    have hc : c ≠ 37 := by
      intro e
      subst e
      simp [hasInvalidEscape] at h
    have hd : d ≠ 37 := by
      intro e
      subst e
      simp [hasInvalidEscape] at h
    simp [checkEscapes, hc, hd]
  | c :: a :: b :: rest, h => by
    by_cases hc : c = 37
    · subst hc
      have h2 : (ishex a = true ∧ ishex b = true) ∧ hasInvalidEscape (a :: b :: rest) = false := by
        simpa [hasInvalidEscape] using h
      have ha := ishex_ne_percent a h2.1.1
      have hb := ishex_ne_percent b h2.1.2
      have h3 : hasInvalidEscape rest = false := by
        have := h2.2
        rwa [hasInvalidEscape_cons_of_ne a _ ha, hasInvalidEscape_cons_of_ne b _ hb] at this
      have ih := check_of_no_invalidEscape rest h3
      simp [checkEscapes, h2.1.1, h2.1.2, ih]
    · have h2 : hasInvalidEscape (a :: b :: rest) = false := by
        rwa [hasInvalidEscape_cons_of_ne c _ hc] at h
      have ih := check_of_no_invalidEscape (a :: b :: rest) h2
      simp [checkEscapes, hc, ih]

theorem skipNewlines_of_filter_nil (rest : Bytes) (h : rest.filter notNewline = []) :
    skipNewlines rest = [] := by
  induction rest with
  | nil => rfl
  | cons c rest ih =>
    by_cases hc : c = 10 ∨ c = 13
    · rw [List.filter_cons_of_neg (by simp [notNewline_of_or c hc])] at h
      simp [skipNewlines, hc, ih h]
    · rw [List.filter_cons_of_pos (notNewline_of_not_or c hc)] at h
      cases h

theorem skipNewlines_of_filter_cons (rest : Bytes) (c2 : UInt8) (t : Bytes)
    (h : rest.filter notNewline = c2 :: t) :
    ∃ rest2, skipNewlines rest = c2 :: rest2 ∧ rest2.filter notNewline = t := by
  induction rest with
  | nil => cases h
  | cons c rest ih =>
    by_cases hc : c = 10 ∨ c = 13
    · rw [List.filter_cons_of_neg (by simp [notNewline_of_or c hc])] at h
      obtain ⟨rest2, h1, h2⟩ := ih h
      exact ⟨rest2, by simp [skipNewlines, hc, h1], h2⟩
    · rw [List.filter_cons_of_pos (notNewline_of_not_or c hc)] at h
      have h2 : c = c2 ∧ rest.filter notNewline = t := by simpa using h
      obtain ⟨e1, e2⟩ := h2
      subst e1
      exact ⟨rest, by simp [skipNewlines, hc], e2⟩

theorem decodeMap_of_isDigit (enc : Encoding) (c : UInt8) (h : enc.isDigit c = true) :
    enc.decodeMap c = some (enc.encode.indexOf c) := by
  have hm : c ∈ enc.encode := by simpa [Encoding.isDigit] using h
  simp [Encoding.decodeMap, List.indexOf_lt_length.2 hm]

theorem isDigit_false_of_decodeMap (enc : Encoding) (c : UInt8) (h : enc.decodeMap c = none) :
    enc.isDigit c = false := by
  cases hd : enc.isDigit c with
  | false => rfl
  | true =>
    rw [decodeMap_of_isDigit enc c hd] at h
    cases h

theorem wellFormedQuanta_short (enc : Encoding) (pre : Bytes) (h : pre.length < 4)
    (hw : enc.wellFormedQuanta pre = true) : pre = [] := by
  match pre, h, hw with
  | [], _, _ => rfl
  | [_], _, hw => simp [Encoding.wellFormedQuanta] at hw
  | [_, _], _, hw => simp [Encoding.wellFormedQuanta] at hw
  | [_, _, _], _, hw => simp [Encoding.wellFormedQuanta] at hw
  | _ :: _ :: _ :: _ :: _, h, _ => exact absurd h (by simp)

theorem wellFormedQuanta_first (enc : Encoding) (c : UInt8) (t : Bytes)
    (hw : enc.wellFormedQuanta (c :: t) = true) : enc.isDigit c = true := by
  match t, hw with
  | [], hw => simp [Encoding.wellFormedQuanta] at hw
  | [_], hw => simp [Encoding.wellFormedQuanta] at hw
  | [_, _], hw => simp [Encoding.wellFormedQuanta] at hw
  | _ :: _ :: _ :: _, hw =>
    simp only [Encoding.wellFormedQuanta, Bool.and_eq_true] at hw
    exact hw.1.1

theorem wellFormedQuanta_second (enc : Encoding) (a c : UInt8) (t : Bytes)
    (hw : enc.wellFormedQuanta (a :: c :: t) = true) : enc.isDigit c = true := by
  match t, hw with
  | [], hw => simp [Encoding.wellFormedQuanta] at hw
  | [_], hw => simp [Encoding.wellFormedQuanta] at hw
  | _ :: _ :: _, hw =>
    simp only [Encoding.wellFormedQuanta, Bool.and_eq_true] at hw
    exact hw.1.2

theorem wellFormedQuanta_third (enc : Encoding) (a b c : UInt8) (t : Bytes)
    (hw : enc.wellFormedQuanta (a :: b :: c :: t) = true) (hc : enc.isDigit c = false) :
    c = padChar ∧ t = [padChar] := by
  match t, hw with
  | [], hw => simp [Encoding.wellFormedQuanta] at hw
  | d :: rest, hw =>
    simp only [Encoding.wellFormedQuanta, hc, Bool.and_eq_true, Bool.or_eq_true,
      Bool.false_and, Bool.false_eq_true, false_or, decide_eq_true_eq] at hw
    obtain ⟨_, ⟨h1, h2⟩, h3⟩ := hw
    exact ⟨h1, by rw [h2, h3]⟩

theorem wellFormedQuanta_fourth (enc : Encoding) (a b c d : UInt8) (t : Bytes)
    (hw : enc.wellFormedQuanta (a :: b :: c :: d :: t) = true) (hd : enc.isDigit d = false) :
    d = padChar ∧ t = [] := by
  simp only [Encoding.wellFormedQuanta, hd, Bool.and_eq_true, Bool.or_eq_true,
    Bool.and_false, Bool.false_and, Bool.false_eq_true, false_or, decide_eq_true_eq] at hw
  rcases hw with ⟨_, ⟨⟨_, h1⟩, h2⟩ | ⟨⟨_, h1⟩, h2⟩⟩
  · exact ⟨h1, h2⟩
  · exact ⟨h1, h2⟩

theorem wellFormedQuanta_next (enc : Encoding) (a b c d : UInt8) (t : Bytes)
    (hw : enc.wellFormedQuanta (a :: b :: c :: d :: t) = true) (hd : d ≠ padChar) :
    enc.wellFormedQuanta t = true := by
  simp only [Encoding.wellFormedQuanta, hd, Bool.and_eq_true, Bool.or_eq_true,
    decide_False, Bool.and_false, Bool.false_and, Bool.false_eq_true, or_false,
    decide_eq_true_eq] at hw
  exact hw.2.2

theorem decodeLoop_of_wellFormed (enc : Encoding)
    (hnl : enc.decodeMap 10 = none) (hcr : enc.decodeMap 13 = none)
    (hpad : enc.decodeMap padChar = none) :
    ∀ (text pre : Bytes) (dbuf : List Nat) (out : Bytes),
      pre.length = dbuf.length → dbuf.length < 4 →
      enc.wellFormedQuanta (pre ++ text.filter notNewline) = true →
      ∃ r, enc.decodeLoop text dbuf out = some r := by
  intro text
  induction text with
  | nil =>
    intro pre dbuf out hlen hlt hw
    have hp : pre = [] :=
      wellFormedQuanta_short enc pre (by omega) (by simpa using hw)
    subst hp
    have h0 : dbuf.length = 0 := by simpa using hlen.symm
    exact ⟨out, by simp [Encoding.decodeLoop, h0]⟩
  | cons c rest ih =>
    intro pre dbuf out hlen hlt hw
    unfold Encoding.decodeLoop
    by_cases hc : c = 10 ∨ c = 13
    · have hd : enc.decodeMap c = none := by
        rcases hc with e | e
        · subst e
          exact hnl
        · subst e
          exact hcr
      rw [List.filter_cons_of_neg (by simp [notNewline_of_or c hc])] at hw
      simp only [hd, hc, if_true]
      exact ih pre dbuf out hlen hlt hw
    · rw [List.filter_cons_of_pos (notNewline_of_not_or c hc)] at hw
      cases hd : enc.decodeMap c with
      | some d =>
        have hcp : c ≠ padChar := by
          intro e
          subst e
          rw [hpad] at hd
          cases hd
        simp only []
        by_cases h3 : dbuf.length = 3
        · simp only [h3, if_true]
          obtain ⟨a, b, c3, hp⟩ := List.length_eq_three.1 (hlen.trans h3)
          subst hp
          have hw2 := wellFormedQuanta_next enc a b c3 c _ (by simpa using hw) hcp
          exact ih [] [] _ rfl (by simp) (by simpa using hw2)
        · simp only [h3, if_false]
          exact ih (pre ++ [c]) (dbuf ++ [d]) out (by simp [hlen])
            (by simp only [List.length_append, List.length_singleton]; omega)
            (by simpa [List.append_assoc] using hw)
      | none =>
        have hnd := isDigit_false_of_decodeMap enc c hd
        simp only [hc, if_false]
        have hcases : dbuf.length = 0 ∨ dbuf.length = 1 ∨ dbuf.length = 2 ∨ dbuf.length = 3 := by
          omega
        rcases hcases with h0 | h1 | h2 | h3
        · have hp : pre = [] := List.length_eq_zero.1 (hlen.trans h0)
          subst hp
          have := wellFormedQuanta_first enc c _ (by simpa using hw)
          rw [hnd] at this
          cases this
        · obtain ⟨a, hp⟩ := List.length_eq_one.1 (hlen.trans h1)
          subst hp
          have := wellFormedQuanta_second enc a c _ (by simpa using hw)
          rw [hnd] at this
          cases this
        · obtain ⟨a, b, hp⟩ := List.length_eq_two.1 (hlen.trans h2)
          subst hp
          obtain ⟨e1, e2⟩ := wellFormedQuanta_third enc a b c _ (by simpa using hw) hnd
          subst e1
          obtain ⟨rest2, hs1, hs2⟩ := skipNewlines_of_filter_cons rest padChar [] e2
          have hs3 := skipNewlines_of_filter_nil rest2 hs2
          rw [h2]
          simp [hs1, hs3]
        · obtain ⟨a, b, c3, hp⟩ := List.length_eq_three.1 (hlen.trans h3)
          subst hp
          obtain ⟨e1, e2⟩ := wellFormedQuanta_fourth enc a b c3 c _ (by simpa using hw) hnd
          subst e1
          have hs := skipNewlines_of_filter_nil rest e2
          rw [h3]
          simp [hs]

theorem decodeString_eq_none_iff (enc : Encoding)
    (hnl : enc.decodeMap 10 = none) (hcr : enc.decodeMap 13 = none)
    (hpad : enc.decodeMap padChar = none) (text : Bytes) :
    enc.decodeString text = none ↔ enc.valid text = false := by
  unfold Encoding.decodeString Encoding.valid
  constructor
  · intro h
    cases hv : enc.wellFormedQuanta (List.filter notNewline text) with
    | false => rfl
    | true =>
      obtain ⟨r, hr⟩ := decodeLoop_of_wellFormed enc hnl hcr hpad text [] [] [] rfl
        (by simp) (by simpa using hv)
      rw [hr] at h
      cases h
  · intro h
    cases hd : enc.decodeLoop text [] [] with
    | none => rfl
    | some r =>
      have := wellFormed_of_decodeLoop enc hnl hcr text [] [] [] r rfl (by simp) (by simp) hd
      rw [List.nil_append, h] at this
      cases this

/-- C11: the decode helpers degrade to the empty string.  `decodeBase64` returns `""` for
every text that is not valid standard base64 (groups of four alphabet bytes, the last
group possibly padded with `=`, CR and LF ignored), and these are exactly the texts the
decoder rejects; the same holds for `decodeBase64Url` and the URL-safe alphabet;
`decodeUrl` returns `""` for every text with a `%` that is not followed by two
hexadecimal digits, again exactly the texts the decoder rejects.  The three helpers are
total functions from strings to strings: they have no error result.  Examples:
`decodeBase64 "aGk"`, `decodeBase64Url "a+b="` and `decodeUrl "%zz"` are `""`. -/
theorem C11_decode_helpers_degrade :
    (∀ text : Bytes, StdEncoding.valid text = false → decodeBase64 text = []) ∧
    (∀ text : Bytes, URLEncoding.valid text = false → decodeBase64Url text = []) ∧
    (∀ text : Bytes, hasInvalidEscape text = true → decodeUrl text = []) ∧
    (∀ text : Bytes, StdEncoding.decodeString text = none ↔ StdEncoding.valid text = false) ∧
    (∀ text : Bytes, URLEncoding.decodeString text = none ↔ URLEncoding.valid text = false) ∧
    (∀ text : Bytes, queryUnescape text = none ↔ hasInvalidEscape text = true) ∧
    decodeBase64 (str "aGk") = [] ∧ decodeBase64Url (str "a+b=") = [] ∧
    decodeUrl (str "%zz") = [] := by
  have hstd := decodeString_eq_none_iff StdEncoding (by decide) (by decide) (by decide)
  have hurl := decodeString_eq_none_iff URLEncoding (by decide) (by decide) (by decide)
  have hq : ∀ text : Bytes, queryUnescape text = none ↔ hasInvalidEscape text = true := by
    intro text
    unfold queryUnescape
    constructor
    · intro h
      cases hi : hasInvalidEscape text with
      | true => rfl
      | false =>
        rw [check_of_no_invalidEscape text hi] at h
        simp at h
    · intro h
      cases hc : checkEscapes text with
      | false => simp
      | true =>
        rw [hasInvalidEscape_of_check text hc] at h
        cases h
  refine ⟨?_, ?_, ?_, hstd, hurl, hq, by decide, by decide, by decide⟩
  · intro text h
    simp [decodeBase64, (hstd text).2 h]
  · intro text h
    simp [decodeBase64Url, (hurl text).2 h]
  · intro text h
    simp [decodeUrl, (hq text).2 h]

end WebapiTemplate
